import Mathlib

/-!
# dde-network-utils: the network status model

A shallow embedding of `dde-network-utils/networkmodel.cpp`: the JSON snapshots
handed to the model, the device registry `m_devices`, the connection catalog
`m_connections` and its lookups, the active-state handlers, the connectivity
handler and the setting handlers, followed by theorems about the
reconciliation each handler performs.

Conventions of the embedding.

* A handler takes the JSON document already parsed (`QJsonDocument::fromJson`
  is Qt code) and returns the new model together with the list of effects it
  performed, in program order.
* A `NetworkDevice *` stored in `m_devices` is an `Option NetworkDevice`:
  `none` is `nullptr`, `some d` is a live object whose address is `d.ptr`.
  Dereferencing `nullptr` is undefined behaviour in the source; a handler that
  does so returns `none`.
* The statements about `m_devices` are made for the device lists the program
  can hold: no null entry and, where the statement needs it, equal addresses
  denoting one object and no two devices with the same path.  These properties
  hold of the empty registry and are preserved by every handler
  (`RegistryInvariant`).
-/

set_option autoImplicit false

namespace dde.network

/-! ## JSON values -/

/-- A `QJsonValue`.  A number is the rational it denotes; an object is the list
of its members in iteration order; `undefined` is what `QJsonObject::value`
returns for a key that is absent. -/
inductive QJsonValue where
  | null
  | bool (b : Bool)
  | double (d : ℚ)
  | string (s : String)
  | array (a : List QJsonValue)
  | object (o : List (String × QJsonValue))
  | undefined

/-- A `QJsonObject`: its members, in iteration order. -/
abbrev QJsonObject := List (String × QJsonValue)

/-- A `QJsonArray`. -/
abbrev QJsonArray := List QJsonValue

/-- `QJsonObject::value(key)`: the value of the member, `undefined` when absent. -/
def QJsonObject.value : QJsonObject → String → QJsonValue
  | [], _ => QJsonValue.undefined
  | (k, v) :: rest, key => if k = key then v else QJsonObject.value rest key

/-- `QJsonValue::toObject()`: the object, or the empty object for any other value. -/
def QJsonValue.toObject : QJsonValue → QJsonObject
  | QJsonValue.object o => o
  | _ => []

/-- `QJsonValue::toArray()`: the array, or the empty array for any other value. -/
def QJsonValue.toArray : QJsonValue → QJsonArray
  | QJsonValue.array a => a
  | _ => []

/-- `QJsonValue::toString()`: the string, or the empty string for any other value. -/
def QJsonValue.toString : QJsonValue → String
  | QJsonValue.string s => s
  | _ => ""

/-- `QJsonValue::toBool()`: the boolean, or `false` for any other value. -/
def QJsonValue.toBool : QJsonValue → Bool
  | QJsonValue.bool b => b
  | _ => false

/-- `QJsonValue::isUndefined()`. -/
def QJsonValue.isUndefined : QJsonValue → Bool
  | QJsonValue.undefined => true
  | _ => false

/-- `QJsonValue::toInt()`: the number when it is integral and fits a 32-bit
`int`, the default `0` otherwise. -/
def QJsonValue.toInt : QJsonValue → Int
  | QJsonValue.double d =>
      if d.den = 1 ∧ -2147483648 ≤ d.num ∧ d.num ≤ 2147483647 then d.num else 0
  | _ => 0

/-- `QJsonDocument::object()`: the document's object, empty when the document
is not an object. -/
def QJsonDocument.object (doc : QJsonValue) : QJsonObject := doc.toObject

/-- `QJsonDocument::array()`: the document's array, empty when the document is
not an array. -/
def QJsonDocument.array (doc : QJsonValue) : QJsonArray := doc.toArray

/-! ## QMap -/

/-- Comparison of two strings character by character, on character codes. -/
def QString.charsLessThan : List Char → List Char → Bool
  | _, [] => false
  | [], _ :: _ => true
  | x :: xs, y :: ys =>
      if x.toNat < y.toNat then true
      else if y.toNat < x.toNat then false
      else QString.charsLessThan xs ys

/-- `operator<` on `QString`, the order of the keys of a `QMap<QString, V>`. -/
def QString.lessThan (a b : String) : Bool := QString.charsLessThan a.data b.data

/-- A `QMap<QString, V>`: its items in key order. -/
abbrev QMap (V : Type) := List (String × V)

/-- `QMap::value(key)`: the value stored for the key, a default-constructed
value when there is none. -/
def QMap.value {V : Type} (dflt : V) : QMap V → String → V
  | [], _ => dflt
  | (k, v) :: rest, key => if k = key then v else QMap.value dflt rest key

/-- `QMap::insert(key, value)`, also the effect of assigning through
`operator[]`: the item replaces the one with the same key or is placed at its
position in key order. -/
def QMap.insert {V : Type} (key : String) (v : V) : QMap V → QMap V
  | [] => [(key, v)]
  | (k, w) :: rest =>
      if QString.lessThan key k then (key, v) :: (k, w) :: rest
      else if k = key then (key, v) :: rest
      else (k, w) :: QMap.insert key v rest

/-- `QMap::insertMulti(key, value)`: the item is placed before the items that
already have this key. -/
def QMap.insertMulti {V : Type} (key : String) (v : V) : QMap V → QMap V
  | [] => [(key, v)]
  | (k, w) :: rest =>
      if QString.lessThan key k ∨ k = key then (key, v) :: (k, w) :: rest
      else (k, w) :: QMap.insertMulti key v rest

/-- `QMap::values(key)`: all values stored for the key, from the most recently
inserted to the least recently inserted. -/
def QMap.values {V : Type} (m : QMap V) (key : String) : List V :=
  (m.filter (fun kv => decide (kv.1 = key))).map Prod.snd

/-! ## Devices -/

/-- Modelled from the spec: the enum `NetworkDevice::DeviceType`, declared in
`networkdevice.h`, which is not under `src/`; its values are the ones the source
names. -/
inductive DeviceType where
  | None
  | Wired
  | Wireless
  deriving DecidableEq

/-- Modelled from the spec: the enum `NetworkDevice::DeviceStatus`, declared in
`networkdevice.h`, which is not under `src/`; the source names `Activated`
only. -/
inductive DeviceStatus where
  | Unknown
  | Unmanaged
  | Unavailable
  | Disconnected
  | Prepare
  | Config
  | NeedAuth
  | IpConfig
  | IpCheck
  | Secondaries
  | Activated
  | Deactivation
  | Failed
  deriving DecidableEq

/-- Modelled from the spec: a device object (`WiredDevice` or `WirelessDevice`,
seen as `NetworkDevice`); the device classes are not under `src/`.  An object
is its address `ptr`, what its getters `type()`, `path()`, `realHwAdr()`,
`interfaceName()` and `status()` return, and the last argument each of its
setters received.  `path()` is the `Path` the device was built from and no
setter changes it. -/
structure NetworkDevice where
  ptr : Nat
  type : DeviceType
  path : String
  realHwAdr : String
  interfaceName : String
  status : DeviceStatus
  deviceInfo : QJsonObject
  connections : List QJsonObject
  hotspotConnections : List QJsonObject
  activeConnections : List QJsonObject
  activeConnectionsInfo : List QJsonObject
  activeHotspotInfo : QJsonObject

/-- Modelled from the spec: the constructors `WiredDevice(info, parent)` and
`WirelessDevice(info, parent)`, which are not under `src/`, for an object
allocated at address `ptr`.  The device is built from `info`: its path is the
`Path` of `info`, its hardware address and interface name are the fields
`HwAddress` and `Interface`, and its lists are empty. -/
def NetworkDevice.create (type : DeviceType) (info : QJsonObject) (ptr : Nat) : NetworkDevice :=
  { ptr := ptr
    type := type
    path := (info.value "Path").toString
    realHwAdr := (info.value "HwAddress").toString
    interfaceName := (info.value "Interface").toString
    status := DeviceStatus.Unknown
    deviceInfo := info
    connections := []
    hotspotConnections := []
    activeConnections := []
    activeConnectionsInfo := []
    activeHotspotInfo := [] }

/-- Modelled from the spec: `NetworkDevice::updateDeviceInfo(info)`, which is
not under `src/`; the device holds `info` afterwards and its path is unchanged. -/
def NetworkDevice.updateDeviceInfo (d : NetworkDevice) (info : QJsonObject) : NetworkDevice :=
  { d with deviceInfo := info }

/-- Modelled from the spec: `NetworkDevice::setDeviceStatus(status)`, which is
not under `src/`. -/
def NetworkDevice.setDeviceStatus (d : NetworkDevice) (s : DeviceStatus) : NetworkDevice :=
  { d with status := s }

/-- Modelled from the spec: `setConnections(conns)` of a wired or wireless
device, which is not under `src/`; the device holds the list afterwards. -/
def NetworkDevice.setConnections (d : NetworkDevice) (l : List QJsonObject) : NetworkDevice :=
  { d with connections := l }

/-- Modelled from the spec: `WirelessDevice::setHotspotConnections(conns)`,
which is not under `src/`; the device holds the list afterwards. -/
def NetworkDevice.setHotspotConnections (d : NetworkDevice) (l : List QJsonObject) :
    NetworkDevice :=
  { d with hotspotConnections := l }

/-- Modelled from the spec: `setActiveConnections(conns)` of a wired or
wireless device, which is not under `src/`; the device holds the list
afterwards. -/
def NetworkDevice.setActiveConnections (d : NetworkDevice) (l : List QJsonObject) :
    NetworkDevice :=
  { d with activeConnections := l }

/-- Modelled from the spec: `setActiveConnectionsInfo(infos)` of a wired or
wireless device, which is not under `src/`; the device holds the list
afterwards. -/
def NetworkDevice.setActiveConnectionsInfo (d : NetworkDevice) (l : List QJsonObject) :
    NetworkDevice :=
  { d with activeConnectionsInfo := l }

/-- Modelled from the spec: `WirelessDevice::setActiveHotspotInfo(info)`, which
is not under `src/`; the device holds the object afterwards. -/
def NetworkDevice.setActiveHotspotInfo (d : NetworkDevice) (o : QJsonObject) : NetworkDevice :=
  { d with activeHotspotInfo := o }

/-! ## The model -/

/-- Modelled from the spec: the enum `Connectivity`, declared in
`networkmodel.h`, which is not under `src/`; the source names `Full` and
`NoConnectivity`. -/
inductive Connectivity where
  | UnknownConnectivity
  | NoConnectivity
  | Portal
  | Limited
  | Full
  deriving DecidableEq

/-- Modelled from the spec: the struct `ProxyConfig`, declared in
`networkmodel.h`, which is not under `src/`; its members are the ones the
source uses, in the order of the aggregate initialiser
`{ port, type, url, "", "" }`. -/
structure ProxyConfig where
  port : Nat
  type : String
  url : String
  username : String
  password : String

/-- Modelled from the spec: the state of a `NetworkModel`, whose declaration in
`networkmodel.h` is not under `src/`: the data members the source uses, the two
static members `m_Connectivity` and `m_deviceInterface`, and whether
`m_connectivityCheckThread` is running. -/
structure NetworkModel where
  m_devices : List (Option NetworkDevice)
  m_deviceInterface : List String
  m_connections : QMap (List QJsonObject)
  m_activeConns : List QJsonObject
  m_activeConnInfos : List QJsonObject
  m_Connectivity : Connectivity
  m_connectivityCheckThreadRunning : Bool
  m_vpnEnabled : Bool
  m_appProxyExist : Bool
  m_autoProxy : String
  m_proxyMethod : String
  m_proxyIgnoreHosts : String
  m_proxies : QMap ProxyConfig
  m_chainsProxy : ProxyConfig

/-- Modelled from the spec: the signals of `NetworkModel`, declared in
`networkmodel.h`, which is not under `src/`; they are the ones the handlers
emit, with the arguments the source passes. -/
inductive Signal where
  | deviceListChanged (devices : List (Option NetworkDevice))
  | requestDeviceStatus (devPath : String)
  | connectionListChanged
  | activeConnInfoChanged (infos : List QJsonObject)
  | activeConnectionsChanged (conns : List QJsonObject)
  | needCheckConnectivitySecondary
  | connectivityChanged (connectivity : Connectivity)
  | vpnEnabledChanged (enabled : Bool)
  | proxyChanged (type : String) (config : ProxyConfig)
  | autoProxyChanged (proxy : String)
  | proxyMethodChanged (proxyMethod : String)
  | proxyIgnoreHostsChanged (hosts : String)
  | chainsTypeChanged (type : String)
  | chainsAddrChanged (addr : String)
  | chainsPortChanged (port : Nat)
  | chainsUsernameChanged (user : String)
  | chainsPasswdChanged (passwd : String)
  | appProxyExistChanged (appProxyExist : Bool)

/-- What a handler does besides changing the model: it emits a signal,
constructs a device with `new`, or hands a device to `deleteLater()`. -/
inductive Effect where
  | emit (s : Signal)
  | construct (d : NetworkDevice)
  | deleteLater (d : NetworkDevice)

/-- The effect is the emission of `deviceListChanged`. -/
def Effect.isDeviceListChanged : Effect → Bool
  | Effect.emit (Signal.deviceListChanged _) => true
  | _ => false

/-- The effect is the construction of a device. -/
def Effect.isConstruct : Effect → Bool
  | Effect.construct _ => true
  | _ => false

/-- The effect is the removal of a device. -/
def Effect.isDeleteLater : Effect → Bool
  | Effect.deleteLater _ => true
  | _ => false

/-- The effect is the emission of `needCheckConnectivitySecondary`. -/
def Effect.isNeedCheckConnectivitySecondary : Effect → Bool
  | Effect.emit Signal.needCheckConnectivitySecondary => true
  | _ => false

/-! ## The device registry -/

/-- `parseDeviceType(type)`. -/
def parseDeviceType (type : String) : DeviceType :=
  if type = "wireless" then DeviceType.Wireless
  else if type = "wired" then DeviceType.Wired
  else DeviceType.None

/-- `NetworkModel::device(devPath)`: the first held device whose path is
`devPath`, `nullptr` when there is none.  The scan calls `path()` on every
entry it visits. -/
def deviceIn : List (Option NetworkDevice) → String → Option (Option NetworkDevice)
  | [], _ => some none
  | none :: _, _ => none
  | some d :: rest, devPath => if d.path = devPath then some (some d) else deviceIn rest devPath

/-- `NetworkModel::device(devPath)`. -/
def NetworkModel.device (m : NetworkModel) (devPath : String) : Option (Option NetworkDevice) :=
  deviceIn m.m_devices devPath

/-- `NetworkModel::containsDevice(devPath)`. -/
def NetworkModel.containsDevice (m : NetworkModel) (devPath : String) : Option Bool :=
  (m.device devPath).map Option.isSome

/-- The addresses of the held devices, in list order. -/
def heldPtrs (devs : List (Option NetworkDevice)) : List Nat :=
  devs.filterMap (fun e => e.map NetworkDevice.ptr)

/-- The paths of the held devices, in list order. -/
def heldPaths (devs : List (Option NetworkDevice)) : List String :=
  devs.filterMap (fun e => e.map NetworkDevice.path)

/-- The address of an object allocated with `new`: one that no held device has. -/
def freshPtr (devs : List (Option NetworkDevice)) : Nat :=
  (heldPtrs devs).foldr max 0 + 1

/-- A call `d->f(...)` of a setter on the object at address `ptr`: every entry
that holds this address sees the object after the call. -/
def updateObject (ptr : Nat) (f : NetworkDevice → NetworkDevice)
    (devs : List (Option NetworkDevice)) : List (Option NetworkDevice) :=
  devs.map (fun e => e.map (fun x => if x.ptr = ptr then f x else x))

/-- The comparison `QList::removeOne` makes between an entry and the pointer `r`. -/
def samePtr (r : NetworkDevice) : Option NetworkDevice → Bool
  | some x => decide (x.ptr = r.ptr)
  | none => false

/-- `m_devices.removeOne(r)`: the first entry equal to the pointer `r` is removed. -/
def removeOne (r : NetworkDevice) (devs : List (Option NetworkDevice)) :
    List (Option NetworkDevice) :=
  devs.eraseP (samePtr r)

/-- The local variables of `onDevicesChanged` together with the model, while
the snapshot is scanned. -/
structure DevicesScan where
  model : NetworkModel
  devSet : List String
  changed : Bool
  effects : List Effect

/-- The `switch (type)` that constructs the device: no object for a type other
than `Wireless` and `Wired`. -/
def constructDevice (type : DeviceType) (info : QJsonObject) (ptr : Nat) :
    Option NetworkDevice :=
  match type with
  | DeviceType.Wireless => some (NetworkDevice.create DeviceType.Wireless info ptr)
  | DeviceType.Wired => some (NetworkDevice.create DeviceType.Wired info ptr)
  | DeviceType.None => none

/-- The effects of constructing `d` and of the `if (d != nullptr)` that follows. -/
def constructEffects : Option NetworkDevice → List Effect
  | some d => [Effect.construct d, Effect.emit (Signal.requestDeviceStatus d.path)]
  | none => []

/-- The statement `if (!m_deviceInterface.contains(interface)) m_deviceInterface << interface`. -/
def noteInterface (st : DevicesScan) (interface : String) : DevicesScan :=
  if interface ∈ st.model.m_deviceInterface then st
  else { st with model :=
          { st.model with m_deviceInterface := st.model.m_deviceInterface ++ [interface] } }

/-- The body of the inner loop of `onDevicesChanged`, for one element `l` of the
list found under a key of type `type`.  `flagUp` is the value of the macro
`NM_DEVICE_INTERFACE_FLAG_UP`, which comes from the NetworkManager headers; the
test `flag & NM_DEVICE_INTERFACE_FLAG_UP` is taken on the 32-bit two's
complement representation of `flag`. -/
def onDevicesChangedEntry (flagUp : Nat) (type : DeviceType) (st : DevicesScan)
    (l : QJsonValue) : Option DevicesScan :=
  let info := l.toObject
  let path := (info.value "Path").toString
  let managed := (info.value "Managed").toBool
  let interface := (info.value "Interface").toString
  let st1 := noteInterface st interface
  if managed = false then some st1
  else if type ≠ DeviceType.Wireless ∧ (info.value "InterfaceFlags").isUndefined = false ∧
      Nat.land (Int.toNat ((info.value "InterfaceFlags").toInt % 4294967296)) flagUp = 0 then
    some st1
  else
    let devSet := if path ∈ st1.devSet then st1.devSet else st1.devSet ++ [path]
    match st1.model.device path with
    | none => none
    | some none =>
        let d := constructDevice type info (freshPtr st1.model.m_devices)
        some { model := { st1.model with m_devices := st1.model.m_devices ++ [d] }
               devSet := devSet
               changed := true
               effects := st1.effects ++ constructEffects d }
    | some (some d) =>
        some { model := { st1.model with
                 m_devices := updateObject d.ptr (fun x => x.updateDeviceInfo info)
                   st1.model.m_devices }
               devSet := devSet
               changed := st1.changed
               effects := st1.effects }

/-- The inner loop of `onDevicesChanged` over the list found under one key. -/
def onDevicesChangedList (flagUp : Nat) (type : DeviceType) :
    DevicesScan → List QJsonValue → Option DevicesScan
  | st, [] => some st
  | st, l :: rest =>
      match onDevicesChangedEntry flagUp type st l with
      | none => none
      | some st1 => onDevicesChangedList flagUp type st1 rest

/-- The outer loop of `onDevicesChanged` over the members of the snapshot. -/
def onDevicesChangedData (flagUp : Nat) : DevicesScan → QJsonObject → Option DevicesScan
  | st, [] => some st
  | st, (key, value) :: rest =>
      if parseDeviceType key = DeviceType.None then onDevicesChangedData flagUp st rest
      else
        match onDevicesChangedList flagUp (parseDeviceType key) st value.toArray with
        | none => none
        | some st1 => onDevicesChangedData flagUp st1 rest

/-- The loop that fills `removeList`: the held devices whose path is not in
`devSet`, in list order. -/
def collectRemoveList (devSet : List String) :
    List (Option NetworkDevice) → Option (List NetworkDevice)
  | [] => some []
  | none :: _ => none
  | some d :: rest =>
      match collectRemoveList devSet rest with
      | none => none
      | some l => if d.path ∈ devSet then some l else some (d :: l)

/-- The loop over `removeList`: `m_devices.removeOne(r)` for each of its elements. -/
def removeAll : List NetworkDevice → List (Option NetworkDevice) → List (Option NetworkDevice)
  | [], devs => devs
  | r :: rest, devs => removeAll rest (removeOne r devs)

/-- `NetworkModel::onDevicesChanged(devices)`. -/
def NetworkModel.onDevicesChanged (flagUp : Nat) (m : NetworkModel) (devices : QJsonValue) :
    Option (NetworkModel × List Effect) :=
  let data := QJsonDocument.object devices
  let st0 : DevicesScan :=
    { model := { m with m_deviceInterface := [] }, devSet := [], changed := false, effects := [] }
  match onDevicesChangedData flagUp st0 data with
  | none => none
  | some st =>
      match collectRemoveList st.devSet st.model.m_devices with
      | none => none
      | some removeList =>
          let devs := removeAll removeList st.model.m_devices
          let effects := st.effects ++ removeList.map Effect.deleteLater
          let changed := if removeList.isEmpty then st.changed else true
          let model := { st.model with m_devices := devs }
          if changed then some (model, effects ++ [Effect.emit (Signal.deviceListChanged devs)])
          else some (model, effects)

/-! ## The connection catalog -/

/-- `NetworkModel::connectionByPath` and `connectionByUuid`, on one list of the
catalog: the first profile of the list whose field `key` is the string `v`. -/
def findConnection (key v : String) : List QJsonObject → Option QJsonObject
  | [] => none
  | cfg :: rest =>
      if (cfg.value key).toString = v then some cfg else findConnection key v rest

/-- The two nested loops of `connectionByPath` and `connectionByUuid` over
`m_connections`: the first profile, in key order of the types and list order
within a type, whose field `key` is `v`; the empty object when there is none. -/
def findInCatalog (key v : String) : QMap (List QJsonObject) → QJsonObject
  | [] => []
  | (_, list) :: rest =>
      match findConnection key v list with
      | some cfg => cfg
      | none => findInCatalog key v rest

/-- `NetworkModel::connectionByPath(connPath)`. -/
def NetworkModel.connectionByPath (m : NetworkModel) (connPath : String) : QJsonObject :=
  findInCatalog "Path" connPath m.m_connections

/-- `NetworkModel::connectionByUuid(uuid)`. -/
def NetworkModel.connectionByUuid (m : NetworkModel) (uuid : String) : QJsonObject :=
  findInCatalog "Uuid" uuid m.m_connections

/-- `NetworkModel::connectionUuidByPath(connPath)`. -/
def NetworkModel.connectionUuidByPath (m : NetworkModel) (connPath : String) : String :=
  ((m.connectionByPath connPath).value "Uuid").toString

/-- `NetworkModel::connectionNameByPath(connPath)`. -/
def NetworkModel.connectionNameByPath (m : NetworkModel) (connPath : String) : String :=
  ((m.connectionByPath connPath).value "Id").toString

/-- The statement `map[key].append(x)` on a `QMap<QString, QList<T>>`. -/
def QMap.appendAt {V : Type} (key : String) (x : V) (m : QMap (List V)) : QMap (List V) :=
  QMap.insert key (QMap.value [] m key ++ [x]) m

/-- The statement `map[k1][k2].append(x)` on a `QMap<QString, QMap<QString, QList<T>>>`. -/
def QMap.appendAt2 {V : Type} (k1 k2 : String) (x : V) (m : QMap (QMap (List V))) :
    QMap (QMap (List V)) :=
  QMap.insert k1 (QMap.appendAt k2 x (QMap.value [] m k1)) m

/-- The catalog `m_connections` and the four local maps of
`onConnectionListChanged`, while the snapshot is scanned. -/
structure ConnectionsScan where
  connections : QMap (List QJsonObject)
  commonConnections : QMap (List QJsonObject)
  deviceConnections : QMap (QMap (List QJsonObject))
  wiredCommonConnections : QMap (List QJsonObject)
  wiredDeviceConnections : QMap (QMap (List QJsonObject))

/-- The body of the inner loop of `onConnectionListChanged`, for one element of
the list found under the key `connType`. -/
def onConnectionListChangedEntry (connType : String) (st : ConnectionsScan)
    (connObject : QJsonValue) : ConnectionsScan :=
  let connection := connObject.toObject
  let hwAddr := (connection.value "HwAddress").toString
  let interface := (connection.value "IfcName").toString
  { connections := QMap.appendAt connType connection st.connections
    commonConnections :=
      if hwAddr = "" then QMap.appendAt connType connection st.commonConnections
      else st.commonConnections
    deviceConnections :=
      if hwAddr = "" then st.deviceConnections
      else QMap.appendAt2 hwAddr connType connection st.deviceConnections
    wiredCommonConnections :=
      if interface = "" then QMap.appendAt connType connection st.wiredCommonConnections
      else st.wiredCommonConnections
    wiredDeviceConnections :=
      if interface = "" then st.wiredDeviceConnections
      else QMap.appendAt2 interface connType connection st.wiredDeviceConnections }

/-- The inner loop of `onConnectionListChanged`. -/
def onConnectionListChangedList (connType : String) :
    ConnectionsScan → List QJsonValue → ConnectionsScan
  | st, [] => st
  | st, c :: rest =>
      onConnectionListChangedList connType (onConnectionListChangedEntry connType st c) rest

/-- The outer loop of `onConnectionListChanged` over the members of the snapshot. -/
def onConnectionListChangedData : ConnectionsScan → QJsonObject → ConnectionsScan
  | st, [] => st
  | st, (connType, value) :: rest =>
      if connType = "" then onConnectionListChangedData st rest
      else
        onConnectionListChangedData
          (onConnectionListChangedList connType
            { st with connections := QMap.insert connType [] st.connections } value.toArray)
          rest

/-- The body of the loop of `onConnectionListChanged` over the devices: the
`switch (dev->type())` that hands the device its lists. -/
def assignConnections (st : ConnectionsScan) (dev : NetworkDevice) : NetworkDevice :=
  let connsByType := QMap.value [] st.deviceConnections dev.realHwAdr
  let connsByInter := QMap.value [] st.wiredDeviceConnections dev.interfaceName
  match dev.type with
  | DeviceType.Wired =>
      dev.setConnections
        (QMap.value [] st.wiredCommonConnections "wired" ++ QMap.value [] connsByInter "wired")
  | DeviceType.Wireless =>
      (dev.setConnections
        (QMap.value [] st.commonConnections "wireless" ++
          QMap.value [] connsByType "wireless")).setHotspotConnections
        (QMap.value [] st.commonConnections "wireless-hotspot" ++
          QMap.value [] connsByType "wireless-hotspot")
  | DeviceType.None => dev

/-- A loop `for (dev : m_devices)` whose body calls setters of `dev` only:
every entry is dereferenced and the object it points to is updated by `f`. -/
def forEachDevice (f : NetworkDevice → NetworkDevice) :
    List (Option NetworkDevice) → Option (List (Option NetworkDevice))
  | [] => some []
  | none :: _ => none
  | some d :: rest =>
      match forEachDevice f rest with
      | none => none
      | some l => some (some (f d) :: l)

/-- `NetworkModel::onConnectionListChanged(conns)`. -/
def NetworkModel.onConnectionListChanged (m : NetworkModel) (conns : QJsonValue) :
    Option (NetworkModel × List Effect) :=
  let connsObject := QJsonDocument.object conns
  let st0 : ConnectionsScan :=
    { connections := m.m_connections, commonConnections := [], deviceConnections := [],
      wiredCommonConnections := [], wiredDeviceConnections := [] }
  let st := onConnectionListChangedData st0 connsObject
  match forEachDevice (assignConnections st) m.m_devices with
  | none => none
  | some devs =>
      some ({ m with m_connections := st.connections, m_devices := devs },
            [Effect.emit Signal.connectionListChanged])

/-! ## Active connections -/

/-- The locals of `onActiveConnInfoChanged` and `m_activeConnInfos`, while the
snapshot is scanned. -/
structure ActiveInfoScan where
  activeConnInfos : List QJsonObject
  activeConnInfo : QMap QJsonObject
  activeHotspotInfo : QMap QJsonObject

/-- The body of the first loop of `onActiveConnInfoChanged`. -/
def onActiveConnInfoChangedEntry (st : ActiveInfoScan) (info : QJsonValue) : ActiveInfoScan :=
  let connInfo := info.toObject
  let type := (connInfo.value "ConnectionType").toString
  let devPath := (connInfo.value "Device").toString
  { activeConnInfo := QMap.insertMulti devPath connInfo st.activeConnInfo
    activeConnInfos := st.activeConnInfos ++ [connInfo]
    activeHotspotInfo :=
      if type = "wireless-hotspot" then QMap.insert devPath connInfo st.activeHotspotInfo
      else st.activeHotspotInfo }

/-- The first loop of `onActiveConnInfoChanged`. -/
def onActiveConnInfoChangedList : ActiveInfoScan → List QJsonValue → ActiveInfoScan
  | st, [] => st
  | st, info :: rest =>
      onActiveConnInfoChangedList (onActiveConnInfoChangedEntry st info) rest

/-- The body of the second loop of `onActiveConnInfoChanged`. -/
def assignActiveInfo (st : ActiveInfoScan) (dev : NetworkDevice) : NetworkDevice :=
  match dev.type with
  | DeviceType.Wired => dev.setActiveConnectionsInfo (QMap.values st.activeConnInfo dev.path)
  | DeviceType.Wireless =>
      (dev.setActiveConnectionsInfo (QMap.values st.activeConnInfo dev.path)).setActiveHotspotInfo
        (QMap.value [] st.activeHotspotInfo dev.path)
  | DeviceType.None => dev

/-- `NetworkModel::onActiveConnInfoChanged(conns)`. -/
def NetworkModel.onActiveConnInfoChanged (m : NetworkModel) (conns : QJsonValue) :
    Option (NetworkModel × List Effect) :=
  let st0 : ActiveInfoScan :=
    { activeConnInfos := [], activeConnInfo := [], activeHotspotInfo := [] }
  let st := onActiveConnInfoChangedList st0 (QJsonDocument.array conns)
  match forEachDevice (assignActiveInfo st) m.m_devices with
  | none => none
  | some devs =>
      some ({ m with m_activeConnInfos := st.activeConnInfos, m_devices := devs },
            [Effect.emit (Signal.activeConnInfoChanged st.activeConnInfos)])

/-- The macro `CONNECTED`. -/
def CONNECTED : Int := 2

/-- The devices, `m_activeConns` and the local `deviceActiveConnsMap` of
`onActiveConnectionsChanged`, while the snapshot is scanned. -/
structure ActiveConnsScan where
  devices : List (Option NetworkDevice)
  activeConns : List QJsonObject
  deviceActiveConnsMap : QMap (List QJsonObject)

/-- The body of the loop of `onActiveConnectionsChanged` over the `Devices`
array of the active connection `info`. -/
def onActiveConnectionsChangedItem (info : QJsonObject) (st : ActiveConnsScan)
    (item : QJsonValue) : Option ActiveConnsScan :=
  let connectionState := (info.value "State").toInt
  let devicePath := item.toString
  if devicePath = "" then some st
  else
    let map := QMap.appendAt devicePath info st.deviceActiveConnsMap
    match deviceIn st.devices devicePath with
    | none => none
    | some none => some { st with deviceActiveConnsMap := map }
    | some (some dev) =>
        if dev.status ≠ DeviceStatus.Activated ∧ connectionState = CONNECTED then
          some { st with
            deviceActiveConnsMap := map
            devices :=
              updateObject dev.ptr (fun x => x.setDeviceStatus DeviceStatus.Activated) st.devices }
        else some { st with deviceActiveConnsMap := map }

/-- The loop of `onActiveConnectionsChanged` over the `Devices` array. -/
def onActiveConnectionsChangedItems (info : QJsonObject) :
    ActiveConnsScan → List QJsonValue → Option ActiveConnsScan
  | st, [] => some st
  | st, item :: rest =>
      match onActiveConnectionsChangedItem info st item with
      | none => none
      | some st1 => onActiveConnectionsChangedItems info st1 rest

/-- The first loop of `onActiveConnectionsChanged` over the members of the snapshot. -/
def onActiveConnectionsChangedData : ActiveConnsScan → QJsonObject → Option ActiveConnsScan
  | st, [] => some st
  | st, (_, value) :: rest =>
      let info := value.toObject
      if info.isEmpty then onActiveConnectionsChangedData st rest
      else
        match onActiveConnectionsChangedItems info
            { st with activeConns := st.activeConns ++ [info] }
            (info.value "Devices").toArray with
        | none => none
        | some st1 => onActiveConnectionsChangedData st1 rest

/-- The `switch (dev->type())` of the second loop of `onActiveConnectionsChanged`. -/
def assignActiveConnections (conns : List QJsonObject) (dev : NetworkDevice) : NetworkDevice :=
  match dev.type with
  | DeviceType.Wired => dev.setActiveConnections conns
  | DeviceType.Wireless => dev.setActiveConnections conns
  | DeviceType.None => dev

/-- The second loop of `onActiveConnectionsChanged`, over the items of
`deviceActiveConnsMap` in key order. -/
def onActiveConnectionsChangedAssign :
    List (Option NetworkDevice) → QMap (List QJsonObject) → Option (List (Option NetworkDevice))
  | devs, [] => some devs
  | devs, (key, value) :: rest =>
      match deviceIn devs key with
      | none => none
      | some none => onActiveConnectionsChangedAssign devs rest
      | some (some dev) =>
          onActiveConnectionsChangedAssign
            (updateObject dev.ptr (assignActiveConnections value) devs) rest

/-- `NetworkModel::onActiveConnectionsChanged(conns)`. -/
def NetworkModel.onActiveConnectionsChanged (m : NetworkModel) (conns : QJsonValue) :
    Option (NetworkModel × List Effect) :=
  let activeConns := QJsonDocument.object conns
  let st0 : ActiveConnsScan :=
    { devices := m.m_devices, activeConns := [], deviceActiveConnsMap := [] }
  match onActiveConnectionsChangedData st0 activeConns with
  | none => none
  | some st =>
      match onActiveConnectionsChangedAssign st.devices st.deviceActiveConnsMap with
      | none => none
      | some devs =>
          some ({ m with m_activeConns := st.activeConns, m_devices := devs },
                [Effect.emit (Signal.activeConnectionsChanged st.activeConns)])

/-! ## Connectivity -/

/-- `NetworkModel::onConnectivityChanged(connectivity)`, for the value
`static_cast<Connectivity>(connectivity)`. -/
def NetworkModel.onConnectivityChanged (m : NetworkModel) (conn : Connectivity) :
    NetworkModel × List Effect :=
  if m.m_Connectivity = conn then (m, [])
  else
    let m1 := { m with m_Connectivity := conn }
    if m1.m_Connectivity ≠ Connectivity.Full then
      let m2 :=
        if m1.m_connectivityCheckThreadRunning = false then
          { m1 with m_connectivityCheckThreadRunning := true }
        else m1
      (m2, [Effect.emit Signal.needCheckConnectivitySecondary,
            Effect.emit (Signal.connectivityChanged m2.m_Connectivity)])
    else (m1, [Effect.emit (Signal.connectivityChanged m1.m_Connectivity)])

/-- `NetworkModel::onConnectivitySecondaryCheckFinished(connectivity)`. -/
def NetworkModel.onConnectivitySecondaryCheckFinished (m : NetworkModel) (connectivity : Bool) :
    NetworkModel × List Effect :=
  let c := if connectivity then Connectivity.Full else Connectivity.NoConnectivity
  ({ m with m_Connectivity := c }, [Effect.emit (Signal.connectivityChanged c)])

/-! ## Settings -/

/-- `NetworkModel::onVPNEnabledChanged(enabled)`. -/
def NetworkModel.onVPNEnabledChanged (m : NetworkModel) (enabled : Bool) :
    NetworkModel × List Effect :=
  if m.m_vpnEnabled ≠ enabled then
    let m1 := { m with m_vpnEnabled := enabled }
    (m1, [Effect.emit (Signal.vpnEnabledChanged m1.m_vpnEnabled)])
  else (m, [])

/-- `NetworkModel::onAutoProxyChanged(proxy)`. -/
def NetworkModel.onAutoProxyChanged (m : NetworkModel) (proxy : String) :
    NetworkModel × List Effect :=
  if m.m_autoProxy ≠ proxy then
    let m1 := { m with m_autoProxy := proxy }
    (m1, [Effect.emit (Signal.autoProxyChanged m1.m_autoProxy)])
  else (m, [])

/-- `NetworkModel::onProxyMethodChanged(proxyMethod)`. -/
def NetworkModel.onProxyMethodChanged (m : NetworkModel) (proxyMethod : String) :
    NetworkModel × List Effect :=
  if m.m_proxyMethod ≠ proxyMethod then
    let m1 := { m with m_proxyMethod := proxyMethod }
    (m1, [Effect.emit (Signal.proxyMethodChanged m1.m_proxyMethod)])
  else (m, [])

/-- `NetworkModel::onProxyIgnoreHostsChanged(hosts)`. -/
def NetworkModel.onProxyIgnoreHostsChanged (m : NetworkModel) (hosts : String) :
    NetworkModel × List Effect :=
  if hosts ≠ m.m_proxyIgnoreHosts then
    let m1 := { m with m_proxyIgnoreHosts := hosts }
    (m1, [Effect.emit (Signal.proxyIgnoreHostsChanged m1.m_proxyIgnoreHosts)])
  else (m, [])

/-- `NetworkModel::onChainsTypeChanged(type)`. -/
def NetworkModel.onChainsTypeChanged (m : NetworkModel) (type : String) :
    NetworkModel × List Effect :=
  if type ≠ m.m_chainsProxy.type then
    ({ m with m_chainsProxy := { m.m_chainsProxy with type := type } },
      [Effect.emit (Signal.chainsTypeChanged type)])
  else (m, [])

/-- `NetworkModel::onChainsAddrChanged(addr)`. -/
def NetworkModel.onChainsAddrChanged (m : NetworkModel) (addr : String) :
    NetworkModel × List Effect :=
  if addr ≠ m.m_chainsProxy.url then
    ({ m with m_chainsProxy := { m.m_chainsProxy with url := addr } },
      [Effect.emit (Signal.chainsAddrChanged addr)])
  else (m, [])

/-- `NetworkModel::onChainsPortChanged(port)`, for a `uint` value `port`. -/
def NetworkModel.onChainsPortChanged (m : NetworkModel) (port : Nat) :
    NetworkModel × List Effect :=
  if port ≠ m.m_chainsProxy.port then
    ({ m with m_chainsProxy := { m.m_chainsProxy with port := port } },
      [Effect.emit (Signal.chainsPortChanged port)])
  else (m, [])

/-- `NetworkModel::onChainsUserChanged(user)`. -/
def NetworkModel.onChainsUserChanged (m : NetworkModel) (user : String) :
    NetworkModel × List Effect :=
  if user ≠ m.m_chainsProxy.username then
    ({ m with m_chainsProxy := { m.m_chainsProxy with username := user } },
      [Effect.emit (Signal.chainsUsernameChanged user)])
  else (m, [])

/-- `NetworkModel::onChainsPasswdChanged(passwd)`. -/
def NetworkModel.onChainsPasswdChanged (m : NetworkModel) (passwd : String) :
    NetworkModel × List Effect :=
  if passwd ≠ m.m_chainsProxy.password then
    ({ m with m_chainsProxy := { m.m_chainsProxy with password := passwd } },
      [Effect.emit (Signal.chainsPasswdChanged passwd)])
  else (m, [])

/-- `NetworkModel::onAppProxyExistChanged(appProxyExist)`. -/
def NetworkModel.onAppProxyExistChanged (m : NetworkModel) (appProxyExist : Bool) :
    NetworkModel × List Effect :=
  if m.m_appProxyExist = appProxyExist then (m, [])
  else
    ({ m with m_appProxyExist := appProxyExist },
      [Effect.emit (Signal.appProxyExistChanged appProxyExist)])

/-! ## Notions used by the statements -/

/-- What is stated of a setting handler `handler`, whose field is read by `get`
and replaced by `set`, and whose change signal is `signal`: for every model
`m` and argument `v` the model after the call is `m` with the field replaced
by `v`; the effects are the one emission of `signal v` when `v` differs from the
value held before, and none otherwise; a second call with the same `v` changes
nothing and has no effect. -/
def SettingHandler {V : Type} [DecidableEq V]
    (handler : NetworkModel → V → NetworkModel × List Effect)
    (get : NetworkModel → V) (set : NetworkModel → V → NetworkModel)
    (signal : V → Signal) : Prop :=
  ∀ m v, (handler m v).1 = set m v ∧ get (handler m v).1 = v ∧
    (handler m v).2 = (if get m = v then [] else [Effect.emit (signal v)]) ∧
    handler (handler m v).1 v = ((handler m v).1, [])

/-- No entry of the device list is `nullptr`. -/
def NoNull (devs : List (Option NetworkDevice)) : Prop :=
  ∀ e ∈ devs, e.isSome = true

/-- The UP bit of the `InterfaceFlags` field of a snapshot entry is set: the
test `flag & NM_DEVICE_INTERFACE_FLAG_UP` of the source is non-zero. -/
def interfaceUp (flagUp : Nat) (info : QJsonObject) : Bool :=
  decide (Nat.land (Int.toNat ((info.value "InterfaceFlags").toInt % 4294967296)) flagUp ≠ 0)

/-- A snapshot entry `info` listed under `key` is accepted: the key is
`"wired"` or `"wireless"`, the `Managed` field is true and, for a wired entry,
the `InterfaceFlags` field is absent or has the UP bit set. -/
def entryAccepted (flagUp : Nat) (key : String) (info : QJsonObject) : Bool :=
  (decide (key = "wired") || decide (key = "wireless")) &&
    (info.value "Managed").toBool &&
    (!decide (key = "wired") || (info.value "InterfaceFlags").isUndefined ||
      interfaceUp flagUp info)

/-- The `Path` field of a snapshot entry. -/
def entryPath (info : QJsonObject) : String := (info.value "Path").toString

/-- The accepted entries of a devices snapshot, in iteration order. -/
def acceptedEntries (flagUp : Nat) (S : QJsonValue) : List QJsonObject :=
  (QJsonDocument.object S).flatMap
    (fun kv => (kv.2.toArray.map QJsonValue.toObject).filter (entryAccepted flagUp kv.1))

/-- The `Path` values of the accepted entries of a devices snapshot. -/
def acceptedPaths (flagUp : Nat) (S : QJsonValue) : List String :=
  (acceptedEntries flagUp S).map entryPath

/-- The elements of all the lists of a devices snapshot, each with the key it
is listed under, in iteration order. -/
def snapshotEntries (data : QJsonObject) : List (String × QJsonValue) :=
  data.flatMap (fun kv => kv.2.toArray.map (fun l => (kv.1, l)))

/-- The accepted ones among a list of keyed entries. -/
def acceptedOf (flagUp : Nat) (es : List (String × QJsonValue)) : List QJsonObject :=
  (es.map (fun e => (e.1, e.2.toObject))).filterMap
    (fun e => if entryAccepted flagUp e.1 e.2 then some e.2 else none)

/-- The two loops of `onDevicesChanged` as one loop over the keyed entries. -/
def scanEntries (flagUp : Nat) : DevicesScan → List (String × QJsonValue) → Option DevicesScan
  | st, [] => some st
  | st, (key, l) :: rest =>
      if parseDeviceType key = DeviceType.None then scanEntries flagUp st rest
      else
        match onDevicesChangedEntry flagUp (parseDeviceType key) st l with
        | none => none
        | some st1 => scanEntries flagUp st1 rest

/-- What one iteration of the scan does to the device list, `devSet`,
`changed` and the effects: nothing for an entry that is not accepted; a device
is appended for an accepted path that is not held; the held device is updated
for an accepted path that is held. -/
def ScanStep (flagUp : Nat) (e : String × QJsonValue) (st st1 : DevicesScan) : Prop :=
  (entryAccepted flagUp e.1 e.2.toObject = false ∧
      st1.model.m_devices = st.model.m_devices ∧ st1.devSet = st.devSet ∧
      st1.changed = st.changed ∧ st1.effects = st.effects) ∨
  (entryAccepted flagUp e.1 e.2.toObject = true ∧
      entryPath e.2.toObject ∉ heldPaths st.model.m_devices ∧
      st1.model.m_devices = st.model.m_devices ++
        [some (NetworkDevice.create (parseDeviceType e.1) e.2.toObject
          (freshPtr st.model.m_devices))] ∧
      (∀ p, p ∈ st1.devSet ↔ p ∈ st.devSet ∨ p = entryPath e.2.toObject) ∧
      st1.changed = true ∧
      st1.effects = st.effects ++
        [Effect.construct (NetworkDevice.create (parseDeviceType e.1) e.2.toObject
            (freshPtr st.model.m_devices)),
          Effect.emit (Signal.requestDeviceStatus (entryPath e.2.toObject))]) ∨
  (entryAccepted flagUp e.1 e.2.toObject = true ∧
      ∃ d, some d ∈ st.model.m_devices ∧ d.path = entryPath e.2.toObject ∧
        st1.model.m_devices =
          updateObject d.ptr (fun x => x.updateDeviceInfo e.2.toObject) st.model.m_devices ∧
        (∀ p, p ∈ st1.devSet ↔ p ∈ st.devSet ∨ p = entryPath e.2.toObject) ∧
        st1.changed = st.changed ∧ st1.effects = st.effects)

/-- A run of the scan over a list of keyed entries, one `ScanStep` per entry. -/
inductive ScanSteps (flagUp : Nat) : List (String × QJsonValue) → DevicesScan → DevicesScan → Prop
  | nil (st : DevicesScan) : ScanSteps flagUp [] st st
  | cons (e : String × QJsonValue) (es : List (String × QJsonValue)) (st st1 st2 : DevicesScan) :
      ScanStep flagUp e st st1 → ScanSteps flagUp es st1 st2 → ScanSteps flagUp (e :: es) st st2

/-- The device objects the list points to, in list order. -/
def live (devs : List (Option NetworkDevice)) : List NetworkDevice :=
  devs.filterMap id

/-- What identifies a device object and never changes: address, path and type. -/
def NetworkDevice.ident (d : NetworkDevice) : Nat × String × DeviceType :=
  (d.ptr, d.path, d.type)

/-- Entries of the device list that hold the same address point to the same
object, so they have the same path. -/
def SameAddressSamePath (devs : List (Option NetworkDevice)) : Prop :=
  ∀ a ∈ live devs, ∀ b ∈ live devs, a.ptr = b.ptr → a.path = b.path

/-- The snapshot entry a held device with path `p` holds after the scan of the
accepted entries `infos`, when it held `dflt` before: the last entry of `infos`
whose path is `p`. -/
def latestInfo (p : String) : QJsonObject → List QJsonObject → QJsonObject
  | dflt, [] => dflt
  | dflt, info :: rest => latestInfo p (if entryPath info = p then info else dflt) rest

/-- The state in which `onDevicesChanged` starts the scan of the snapshot:
`m_deviceInterface` cleared, `devSet` empty, `changed` false. -/
def scanStart (m : NetworkModel) : DevicesScan :=
  { model := { m with m_deviceInterface := [] }, devSet := [], changed := false, effects := [] }

/-- The profiles of connection type `type` in a connections snapshot, in
iteration order. -/
def profilesOfType (type : String) (S : QJsonObject) : List QJsonObject :=
  S.flatMap (fun kv => if kv.1 = type then kv.2.toArray.map QJsonValue.toObject else [])

/-- The string a profile holds in the field `field` (`"HwAddress"` or `"IfcName"`). -/
def profileKey (field : String) (c : QJsonObject) : String := (c.value field).toString

/-- The profiles of a list that are in the shared bucket: their key is empty. -/
def commonProfiles (field : String) (l : List QJsonObject) : List QJsonObject :=
  l.filter (fun c => decide (profileKey field c = ""))

/-- The profiles of a list that are bound to the device key `devKey`: their
key is not empty and equals `devKey`. -/
def boundProfiles (field devKey : String) (l : List QJsonObject) : List QJsonObject :=
  l.filter (fun c => decide (profileKey field c ≠ "" ∧ profileKey field c = devKey))

/-- The profiles of a list that a device with key `devKey` is to receive: their
key is empty or equals `devKey`. -/
def matchingProfiles (field devKey : String) (l : List QJsonObject) : List QJsonObject :=
  l.filter (fun c => decide (profileKey field c = "" ∨ profileKey field c = devKey))

/-- How the scan of a part of a connections snapshot that lists the profiles
`added` under the type `t` extends the four local maps at `t`. -/
def ScanAdds (t : String) (added : List QJsonObject) (st st1 : ConnectionsScan) : Prop :=
  QMap.value [] st1.commonConnections t =
      QMap.value [] st.commonConnections t ++ commonProfiles "HwAddress" added ∧
  (∀ k, QMap.value [] (QMap.value [] st1.deviceConnections k) t =
      QMap.value [] (QMap.value [] st.deviceConnections k) t ++
        boundProfiles "HwAddress" k added) ∧
  QMap.value [] st1.wiredCommonConnections t =
      QMap.value [] st.wiredCommonConnections t ++ commonProfiles "IfcName" added ∧
  (∀ k, QMap.value [] (QMap.value [] st1.wiredDeviceConnections k) t =
      QMap.value [] (QMap.value [] st.wiredDeviceConnections k) t ++
        boundProfiles "IfcName" k added)

/-- The state in which `onConnectionListChanged` starts the scan of the snapshot. -/
def connectionsStart (m : NetworkModel) : ConnectionsScan :=
  { connections := m.m_connections, commonConnections := [], deviceConnections := [],
    wiredCommonConnections := [], wiredDeviceConnections := [] }

/-- What `onConnectionListChanged(S)` hands to the device `d`, which becomes
`d1`: the same object, whose connection list holds exactly the profiles of its
type whose key is empty or is the key of the device, each as often as the
snapshot lists it. -/
def ConnectionsAssigned (S : QJsonValue) (d d1 : NetworkDevice) : Prop :=
  d1.ident = d.ident ∧ d1.realHwAdr = d.realHwAdr ∧ d1.interfaceName = d.interfaceName ∧
  (d.type = DeviceType.Wired →
    d1.connections.Perm (matchingProfiles "IfcName" d.interfaceName
      (profilesOfType "wired" (QJsonDocument.object S)))) ∧
  (d.type = DeviceType.Wireless →
    d1.connections.Perm (matchingProfiles "HwAddress" d.realHwAdr
      (profilesOfType "wireless" (QJsonDocument.object S))) ∧
    d1.hotspotConnections.Perm (matchingProfiles "HwAddress" d.realHwAdr
      (profilesOfType "wireless-hotspot" (QJsonDocument.object S))))

/-- In the list `l` the profiles bound to the device key come first and the
profiles of the shared bucket come after them. -/
def BoundFirst (field devKey : String) (l : List QJsonObject) : Prop :=
  ∃ xs ys, l = xs ++ ys ∧
    (∀ c ∈ xs, profileKey field c ≠ "" ∧ profileKey field c = devKey) ∧
    (∀ c ∈ ys, profileKey field c = "")

/-- The order in which `onConnectionListChanged(S)` hands the profiles to the
device `d`, which becomes `d1`: the profiles of the shared bucket first, the
profiles bound to the key of the device after them, each group in the order of
the snapshot. -/
def CommonFirstAssigned (S : QJsonValue) (d d1 : NetworkDevice) : Prop :=
  (d.type = DeviceType.Wired →
    d1.connections =
      commonProfiles "IfcName" (profilesOfType "wired" (QJsonDocument.object S)) ++
      boundProfiles "IfcName" d.interfaceName
        (profilesOfType "wired" (QJsonDocument.object S))) ∧
  (d.type = DeviceType.Wireless →
    d1.connections =
      commonProfiles "HwAddress" (profilesOfType "wireless" (QJsonDocument.object S)) ++
      boundProfiles "HwAddress" d.realHwAdr
        (profilesOfType "wireless" (QJsonDocument.object S)) ∧
    d1.hotspotConnections =
      commonProfiles "HwAddress"
        (profilesOfType "wireless-hotspot" (QJsonDocument.object S)) ++
      boundProfiles "HwAddress" d.realHwAdr
        (profilesOfType "wireless-hotspot" (QJsonDocument.object S)))

/-- The invariant of the device registry: no null entry, no two entries with
the same address, no two devices with the same path.  It holds of the empty
registry and every handler that touches `m_devices` preserves it. -/
def RegistryInvariant (devs : List (Option NetworkDevice)) : Prop :=
  NoNull devs ∧ (heldPtrs devs).Nodup ∧ (heldPaths devs).Nodup

instance (devs : List (Option NetworkDevice)) : Decidable (NoNull devs) := by
  unfold NoNull; infer_instance

instance (devs : List (Option NetworkDevice)) : Decidable (SameAddressSamePath devs) := by
  unfold SameAddressSamePath; infer_instance

/-- The entries of an active-connection-info snapshot, in order. -/
def activeInfoEntries (S : QJsonValue) : List QJsonObject :=
  (QJsonDocument.array S).map QJsonValue.toObject

/-- The entries of an active-connection-info snapshot whose `Device` field is
the path `p`, the last of them first. -/
def activeInfosFor (S : QJsonValue) (p : String) : List QJsonObject :=
  ((activeInfoEntries S).filter
    (fun c => decide ((c.value "Device").toString = p))).reverse

/-- The last entry of an active-connection-info snapshot with `ConnectionType`
`"wireless-hotspot"` and `Device` the path `p`; the empty object when there is
none. -/
def hotspotInfoFor (S : QJsonValue) (p : String) : QJsonObject :=
  (((activeInfoEntries S).filter
    (fun c => decide ((c.value "ConnectionType").toString = "wireless-hotspot" ∧
      (c.value "Device").toString = p))).getLast?).getD []

/-- What `onActiveConnInfoChanged(S)` hands to the device `d`, which becomes
`d1`: the same object, with the entries of `S` for its path and, for a wireless
device, the hotspot entry of `S` for its path. -/
def ActiveInfoAssigned (S : QJsonValue) (d d1 : NetworkDevice) : Prop :=
  d1.ident = d.ident ∧
  (d.type = DeviceType.Wired → d1.activeConnectionsInfo = activeInfosFor S d.path) ∧
  (d.type = DeviceType.Wireless →
    d1.activeConnectionsInfo = activeInfosFor S d.path ∧
    d1.activeHotspotInfo = hotspotInfoFor S d.path)

/-- The keys of a `QMap` are in strictly increasing order. -/
def QMap.Sorted {V : Type} (m : QMap V) : Prop :=
  List.Pairwise (fun a b => QString.lessThan a b = true) (m.map Prod.fst)

/-- What the first loop of `onActiveConnectionsChanged` never changes in a
device: its identity and its active-connection list. -/
def NetworkDevice.kept (d : NetworkDevice) : (Nat × String × DeviceType) × List QJsonObject :=
  (d.ident, d.activeConnections)

/-- The device paths that the `Devices` array `items` of the active connection
`info` names, each paired with `info`. -/
def namedBy (info : QJsonObject) (items : List QJsonValue) : List (String × QJsonObject) :=
  ((items.map QJsonValue.toString).filter (fun p => decide (p ≠ ""))).map (fun p => (p, info))

/-- All pairs of a named device path and the active connection that names it,
in the order of an active-connections snapshot. -/
def namedPairs (S : QJsonObject) : List (String × QJsonObject) :=
  S.flatMap (fun kv => namedBy kv.2.toObject (kv.2.toObject.value "Devices").toArray)

/-- The map `deviceActiveConnsMap` after the pairs have been entered in order. -/
def buildMap : List (String × QJsonObject) → QMap (List QJsonObject) → QMap (List QJsonObject)
  | [], m => m
  | (p, info) :: rest, m => buildMap rest (QMap.appendAt p info m)

/-- The entries of an active-connections snapshot whose `Devices` array
contains the path `p`, in snapshot order, each once per occurrence of `p` in
its array. -/
def activeConnectionsFor (S : QJsonValue) (p : String) : List QJsonObject :=
  (QJsonDocument.object S).flatMap
    (fun kv => (((kv.2.toObject.value "Devices").toArray).filter
      (fun item => decide (item.toString = p))).map (fun _ => kv.2.toObject))

/-- What `onActiveConnectionsChanged(S)` does to the device `d`, which becomes
`d1`: it is the same object, and when it is a wired or wireless device whose
path is not empty and is named by an entry of `S`, its active-connection list
is the list of the entries of `S` that name its path. -/
def ActiveConnectionsAssigned (S : QJsonValue) (d d1 : NetworkDevice) : Prop :=
  d1.ident = d.ident ∧
  (d.type ≠ DeviceType.None → d.path ≠ "" → activeConnectionsFor S d.path ≠ [] →
    d1.activeConnections = activeConnectionsFor S d.path)

/-- What the second loop of `onActiveConnectionsChanged` does to one device,
item by item of `deviceActiveConnsMap`. -/
def assignFromMap (items : QMap (List QJsonObject)) (d : NetworkDevice) : NetworkDevice :=
  items.foldl (fun x kv => if x.path = kv.1 then assignActiveConnections kv.2 x else x) d

/-- The profiles of the catalog in the order `connectionByPath` scans them: the
lists of the connection types one after the other, in the order of the items
of the map, which is the order of their keys. -/
def catalogProfiles (catalog : QMap (List QJsonObject)) : List QJsonObject :=
  catalog.flatMap Prod.snd

/-- The profile `c` is the first one with path `p` in the scan of the catalog:
it is the first profile with path `p` in the list of a connection type `t`, and
every connection type that lists a profile with path `p` is `t` or has a
greater key. -/
def FirstInKeyOrder (catalog : QMap (List QJsonObject)) (p : String) (c : QJsonObject) :
    Prop :=
  ∃ t list, (t, list) ∈ catalog ∧
    list.find? (fun x => decide (profileKey "Path" x = p)) = some c ∧
    ∀ t1 list1, (t1, list1) ∈ catalog → (∃ x ∈ list1, profileKey "Path" x = p) →
      t1 = t ∨ QString.lessThan t t1 = true

instance {V : Type} (m : QMap V) : Decidable (QMap.Sorted m) := by
  unfold QMap.Sorted; infer_instance

/-! ## Sample states and snapshots -/

/-- A model that holds nothing. -/
def emptyModel : NetworkModel :=
  { m_devices := [], m_deviceInterface := [], m_connections := [], m_activeConns := [],
    m_activeConnInfos := [], m_Connectivity := Connectivity.Full,
    m_connectivityCheckThreadRunning := false, m_vpnEnabled := false, m_appProxyExist := false,
    m_autoProxy := "", m_proxyMethod := "", m_proxyIgnoreHosts := "", m_proxies := [],
    m_chainsProxy := { port := 0, type := "", url := "", username := "", password := "" } }

/-- A wired device on interface `eth0`. -/
def sampleWired : NetworkDevice :=
  { ptr := 1, type := DeviceType.Wired, path := "/Devices/1",
    realHwAdr := "00:00:00:00:00:01", interfaceName := "eth0",
    status := DeviceStatus.Disconnected, deviceInfo := [], connections := [],
    hotspotConnections := [], activeConnections := [], activeConnectionsInfo := [],
    activeHotspotInfo := [] }

/-- A wireless device on interface `wlan0`. -/
def sampleWireless : NetworkDevice :=
  { ptr := 2, type := DeviceType.Wireless, path := "/Devices/2",
    realHwAdr := "00:00:00:00:00:02", interfaceName := "wlan0",
    status := DeviceStatus.Disconnected, deviceInfo := [], connections := [],
    hotspotConnections := [], activeConnections := [], activeConnectionsInfo := [],
    activeHotspotInfo := [] }

/-- A model that holds the two sample devices. -/
def sampleModel : NetworkModel :=
  { emptyModel with m_devices := [some sampleWired, some sampleWireless] }

/-- A devices snapshot: the wired device `/Devices/1` with its interface up, a
wired device `/Devices/3` with its interface down, a new wireless device
`/Devices/4`. -/
def sampleDevices : QJsonValue :=
  QJsonValue.object
    [("wired", QJsonValue.array
        [QJsonValue.object [("Path", QJsonValue.string "/Devices/1"),
            ("Managed", QJsonValue.bool true), ("InterfaceFlags", QJsonValue.double 1)],
          QJsonValue.object [("Path", QJsonValue.string "/Devices/3"),
            ("Managed", QJsonValue.bool true), ("InterfaceFlags", QJsonValue.double 2)]]),
      ("wireless", QJsonValue.array
        [QJsonValue.object [("Path", QJsonValue.string "/Devices/4"),
            ("Managed", QJsonValue.bool true)]])]

/-- A wired profile that is bound to no interface. -/
def sampleCommonProfile : QJsonObject :=
  [("Path", QJsonValue.string "/Settings/1"), ("Uuid", QJsonValue.string "uuid-1")]

/-- A wired profile that is bound to the interface `eth0`. -/
def sampleBoundProfile : QJsonObject :=
  [("Path", QJsonValue.string "/Settings/2"), ("Uuid", QJsonValue.string "uuid-2"),
    ("IfcName", QJsonValue.string "eth0")]

/-- A connections snapshot that lists the two sample profiles under `"wired"`. -/
def sampleConnections : QJsonValue :=
  QJsonValue.object
    [("wired", QJsonValue.array
        [QJsonValue.object sampleCommonProfile, QJsonValue.object sampleBoundProfile])]

/-- A VPN profile. -/
def sampleVpnProfile : QJsonObject :=
  [("Path", QJsonValue.string "/Settings/9"), ("Uuid", QJsonValue.string "uuid-9")]

/-- A model whose catalog holds the VPN profile. -/
def sampleCatalogModel : NetworkModel :=
  { emptyModel with m_connections := [("vpn", [sampleVpnProfile])] }

/-- A connections snapshot that lists one profile, under the empty type. -/
def sampleUntypedConnections : QJsonValue :=
  QJsonValue.object [("", QJsonValue.array [QJsonValue.object sampleCommonProfile])]

/-- A model that holds the connectivity `NoConnectivity`. -/
def sampleOfflineModel : NetworkModel :=
  { emptyModel with m_Connectivity := Connectivity.NoConnectivity }

/-- An active-connection-info snapshot: a plain entry and a hotspot entry for
the wireless sample device. -/
def sampleActiveInfo : QJsonValue :=
  QJsonValue.array
    [QJsonValue.object [("Device", QJsonValue.string "/Devices/2"),
        ("ConnectionType", QJsonValue.string "wireless")],
      QJsonValue.object [("Device", QJsonValue.string "/Devices/2"),
        ("ConnectionType", QJsonValue.string "wireless-hotspot")]]

/-- An active connection that names the wired sample device. -/
def sampleActiveConnection : QJsonObject :=
  [("Uuid", QJsonValue.string "uuid-1"),
    ("Devices", QJsonValue.array [QJsonValue.string "/Devices/1"]),
    ("State", QJsonValue.double 2)]

/-- An active-connections snapshot that holds the sample active connection. -/
def sampleActiveConnections : QJsonValue :=
  QJsonValue.object [("/ActiveConnection/1", QJsonValue.object sampleActiveConnection)]

/-- An active connection whose `Devices` array holds the empty path. -/
def sampleActiveOnEmptyPath : QJsonObject :=
  [("Uuid", QJsonValue.string "uuid-2"),
    ("Devices", QJsonValue.array [QJsonValue.string ""]),
    ("State", QJsonValue.double 2)]

/-- An active-connections snapshot that names the empty path only. -/
def sampleActiveConnectionsEmptyPath : QJsonValue :=
  QJsonValue.object [("/ActiveConnection/2", QJsonValue.object sampleActiveOnEmptyPath)]

/-- The wired sample device, holding the sample active connection. -/
def sampleWiredActive : NetworkDevice :=
  { sampleWired with activeConnections := [sampleActiveConnection] }

/-- A wired device whose path is empty. -/
def samplePathless : NetworkDevice :=
  { sampleWired with ptr := 3, path := "", interfaceName := "eth1" }

/-- A model that holds the wired device with its active connection and the
device with the empty path. -/
def sampleActiveModel : NetworkModel :=
  { emptyModel with m_devices := [some sampleWiredActive, some samplePathless] }

/-- A wired profile with the path of the VPN sample profile. -/
def sampleWiredSamePath : QJsonObject :=
  [("Path", QJsonValue.string "/Settings/9"), ("Uuid", QJsonValue.string "uuid-10"),
    ("Id", QJsonValue.string "Wired connection")]

/-- A model whose catalog lists, under `"vpn"` and under `"wired"`, a profile
with the path `/Settings/9`. -/
def sampleTwoTypeCatalogModel : NetworkModel :=
  { emptyModel with
    m_connections :=
      [("vpn", [sampleVpnProfile]), ("wired", [sampleCommonProfile, sampleWiredSamePath])] }

/-! ## The scan of a devices snapshot -/

theorem parseDeviceType_cases (key : String) :
    (key = "wireless" ∧ parseDeviceType key = DeviceType.Wireless) ∨
    (key = "wired" ∧ parseDeviceType key = DeviceType.Wired) ∨
    (key ≠ "wireless" ∧ key ≠ "wired" ∧ parseDeviceType key = DeviceType.None) := by
  unfold parseDeviceType
  by_cases h1 : key = "wireless"
  · left; simp [h1]
  · by_cases h2 : key = "wired"
    · right; left; simp [h2]
    · right; right; simp [h1, h2]

theorem scanEntries_cons (flagUp : Nat) (st : DevicesScan) (key : String) (l : QJsonValue)
    (rest : List (String × QJsonValue)) :
    scanEntries flagUp st ((key, l) :: rest) =
      if parseDeviceType key = DeviceType.None then scanEntries flagUp st rest
      else
        match onDevicesChangedEntry flagUp (parseDeviceType key) st l with
        | none => none
        | some st1 => scanEntries flagUp st1 rest := by
  rw [scanEntries]

theorem onDevicesChangedData_eq_scanEntries (flagUp : Nat) (data : QJsonObject) :
    ∀ st, onDevicesChangedData flagUp st data = scanEntries flagUp st (snapshotEntries data) := by
  have inner : ∀ (key : String) (hk : parseDeviceType key ≠ DeviceType.None)
      (ls : List QJsonValue) (rest : List (String × QJsonValue)) (st : DevicesScan),
      scanEntries flagUp st (ls.map (fun l => (key, l)) ++ rest) =
        match onDevicesChangedList flagUp (parseDeviceType key) st ls with
        | none => none
        | some st1 => scanEntries flagUp st1 rest := by
    intro key hk ls rest
    induction ls with
    | nil => intro st; simp [onDevicesChangedList]
    | cons l ls ih =>
        intro st
        rw [List.map_cons, List.cons_append, scanEntries_cons, if_neg hk, onDevicesChangedList]
        cases h : onDevicesChangedEntry flagUp (parseDeviceType key) st l with
        | none => rfl
        | some st1 => exact ih st1
  have skip : ∀ (key : String) (hk : parseDeviceType key = DeviceType.None)
      (ls : List QJsonValue) (rest : List (String × QJsonValue)) (st : DevicesScan),
      scanEntries flagUp st (ls.map (fun l => (key, l)) ++ rest) = scanEntries flagUp st rest := by
    intro key hk ls rest st
    induction ls with
    | nil => simp
    | cons l ls ih => rw [List.map_cons, List.cons_append, scanEntries_cons, if_pos hk, ih]
  induction data with
  | nil => intro st; simp [onDevicesChangedData, snapshotEntries, scanEntries]
  | cons kv rest ih =>
      intro st
      obtain ⟨key, value⟩ := kv
      have hs : snapshotEntries ((key, value) :: rest) =
          value.toArray.map (fun l => (key, l)) ++ snapshotEntries rest := by
        simp [snapshotEntries]
      rw [hs]
      by_cases hk : parseDeviceType key = DeviceType.None
      · rw [skip key hk]
        simp only [onDevicesChangedData, if_pos hk]
        exact ih st
      · rw [inner key hk]
        simp only [onDevicesChangedData, if_neg hk]
        cases h : onDevicesChangedList flagUp (parseDeviceType key) st value.toArray with
        | none => rfl
        | some st1 => exact ih st1

theorem acceptedEntries_eq_acceptedOf (flagUp : Nat) (S : QJsonValue) :
    acceptedEntries flagUp S = acceptedOf flagUp (snapshotEntries (QJsonDocument.object S)) := by
  unfold acceptedEntries acceptedOf snapshotEntries
  induction QJsonDocument.object S with
  | nil => simp
  | cons kv rest ih =>
      simp only [List.flatMap_cons, List.map_append, List.filterMap_append, ih]
      congr 1
      induction kv.2.toArray with
      | nil => simp
      | cons l ls ih2 =>
          simp only [List.map_cons, List.filter_cons, List.filterMap_cons]
          by_cases h : entryAccepted flagUp kv.1 l.toObject = true
          · simp [h, ih2]
          · simp [h, ih2]

theorem deviceIn_of_noNull (devs : List (Option NetworkDevice)) (p : String)
    (h : NoNull devs) :
    (deviceIn devs p = some none ∧ p ∉ heldPaths devs) ∨
    ∃ d, deviceIn devs p = some (some d) ∧ some d ∈ devs ∧ d.path = p := by
  induction devs with
  | nil => left; simp [deviceIn, heldPaths]
  | cons e rest ih =>
      have hrest : NoNull rest := fun x hx => h x (List.mem_cons_of_mem _ hx)
      cases e with
      | none => have := h none (List.mem_cons_self _ _); simp at this
      | some d =>
          by_cases hd : d.path = p
          · right; exact ⟨d, by simp [deviceIn, hd], List.mem_cons_self _ _, hd⟩
          · rcases ih hrest with ⟨h1, h2⟩ | ⟨x, h1, h2, h3⟩
            · left
              refine ⟨by simp [deviceIn, hd, h1], ?_⟩
              simp only [heldPaths, List.filterMap_cons, Option.map_some', List.mem_cons, not_or]
              exact ⟨fun hp => hd hp.symm, h2⟩
            · right; exact ⟨x, by simp [deviceIn, hd, h1], List.mem_cons_of_mem _ h2, h3⟩

theorem noNull_append_some (devs : List (Option NetworkDevice)) (d : NetworkDevice)
    (h : NoNull devs) : NoNull (devs ++ [some d]) := by
  intro e he
  rcases List.mem_append.mp he with h1 | h1
  · exact h e h1
  · simp at h1; simp [h1]

theorem noNull_updateObject (ptr : Nat) (f : NetworkDevice → NetworkDevice)
    (devs : List (Option NetworkDevice)) (h : NoNull devs) : NoNull (updateObject ptr f devs) := by
  intro e he
  simp only [updateObject, List.mem_map] at he
  obtain ⟨a, ha, rfl⟩ := he
  have := h a ha
  cases a with
  | none => simp at this
  | some x => simp

theorem entryAccepted_eq (flagUp : Nat) (key : String) (info : QJsonObject)
    (hk : parseDeviceType key ≠ DeviceType.None) :
    entryAccepted flagUp key info = true ↔
      ¬ (info.value "Managed").toBool = false ∧
      ¬ (parseDeviceType key ≠ DeviceType.Wireless ∧
          (info.value "InterfaceFlags").isUndefined = false ∧
          Nat.land (Int.toNat ((info.value "InterfaceFlags").toInt % 4294967296)) flagUp = 0) := by
  rcases parseDeviceType_cases key with ⟨h1, h2⟩ | ⟨h1, h2⟩ | ⟨_, _, h3⟩
  · subst h1
    simp [entryAccepted, h2]
  · subst h1
    simp only [entryAccepted, interfaceUp, h2]
    cases (QJsonObject.value info "Managed").toBool <;>
      cases (QJsonObject.value info "InterfaceFlags").isUndefined <;> simp
  · exact absurd h3 hk

theorem entryAccepted_of_none (flagUp : Nat) (key : String) (info : QJsonObject)
    (hk : parseDeviceType key = DeviceType.None) : entryAccepted flagUp key info = false := by
  rcases parseDeviceType_cases key with ⟨_, h2⟩ | ⟨_, h2⟩ | ⟨h1, h2, _⟩
  · rw [h2] at hk; cases hk
  · rw [h2] at hk; cases hk
  · simp [entryAccepted, h1, h2]

theorem constructDevice_eq (type : DeviceType) (info : QJsonObject) (ptr : Nat)
    (ht : type ≠ DeviceType.None) :
    constructDevice type info ptr = some (NetworkDevice.create type info ptr) := by
  cases type with
  | None => exact absurd rfl ht
  | Wired => rfl
  | Wireless => rfl

theorem mem_insertIfAbsent (p q : String) (l : List String) :
    p ∈ (if q ∈ l then l else l ++ [q]) ↔ p ∈ l ∨ p = q := by
  split_ifs with h
  · constructor
    · exact Or.inl
    · rintro (h1 | h1)
      · exact h1
      · exact h1 ▸ h
  · simp

theorem noteInterface_fields (st : DevicesScan) (interface : String) :
    (noteInterface st interface).model.m_devices = st.model.m_devices ∧
    (noteInterface st interface).devSet = st.devSet ∧
    (noteInterface st interface).changed = st.changed ∧
    (noteInterface st interface).effects = st.effects := by
  unfold noteInterface
  split_ifs <;> exact ⟨rfl, rfl, rfl, rfl⟩

theorem onDevicesChangedEntry_step (flagUp : Nat) (key : String) (l : QJsonValue)
    (st : DevicesScan) (hnn : NoNull st.model.m_devices)
    (hk : parseDeviceType key ≠ DeviceType.None) :
    ∃ st1, onDevicesChangedEntry flagUp (parseDeviceType key) st l = some st1 ∧
      ScanStep flagUp (key, l) st st1 ∧ NoNull st1.model.m_devices := by
  obtain ⟨hd, hs, hch, he⟩ :=
    noteInterface_fields st (QJsonObject.value l.toObject "Interface").toString
  unfold onDevicesChangedEntry
  simp only [NetworkModel.device]
  generalize noteInterface st (QJsonObject.value l.toObject "Interface").toString = st1 at *
  by_cases hacc : entryAccepted flagUp key l.toObject = true
  · have hc := (entryAccepted_eq flagUp key l.toObject hk).mp hacc
    obtain ⟨hm, hf⟩ := hc
    rw [if_neg hm, if_neg hf, hd]
    rcases deviceIn_of_noNull st.model.m_devices (entryPath l.toObject) hnn with
      ⟨h1, h2⟩ | ⟨d, h1, h2, h3⟩
    · rw [show deviceIn st.model.m_devices (QJsonObject.value l.toObject "Path").toString =
          some none from h1]
      refine ⟨_, rfl, Or.inr (Or.inl ⟨hacc, h2, ?_, ?_, rfl, ?_⟩), ?_⟩
      · simp [constructDevice_eq _ _ _ hk]
      · intro p
        show p ∈ (if _ ∈ st1.devSet then st1.devSet else st1.devSet ++ [_]) ↔ _
        rw [hs]; exact mem_insertIfAbsent p _ _
      · simp [constructDevice_eq _ _ _ hk, constructEffects, NetworkDevice.create, entryPath, he]
      · simp only [constructDevice_eq _ _ _ hk]
        exact noNull_append_some _ _ hnn
    · rw [show deviceIn st.model.m_devices (QJsonObject.value l.toObject "Path").toString =
          some (some d) from h1]
      refine ⟨_, rfl, Or.inr (Or.inr ⟨hacc, d, h2, h3, rfl, ?_, hch, he⟩), ?_⟩
      · intro p
        show p ∈ (if _ ∈ st1.devSet then st1.devSet else st1.devSet ++ [_]) ↔ _
        rw [hs]; exact mem_insertIfAbsent p _ _
      · exact noNull_updateObject _ _ _ hnn
  · have hacc2 : entryAccepted flagUp key l.toObject = false := by
      simpa using hacc
    have hc := (not_congr (entryAccepted_eq flagUp key l.toObject hk)).mp hacc
    by_cases hm : (QJsonObject.value l.toObject "Managed").toBool = false
    · rw [if_pos hm]
      exact ⟨_, rfl, Or.inl ⟨hacc2, hd, hs, hch, he⟩, hd ▸ hnn⟩
    · have hf : parseDeviceType key ≠ DeviceType.Wireless ∧
          (l.toObject.value "InterfaceFlags").isUndefined = false ∧
          Nat.land (Int.toNat ((l.toObject.value "InterfaceFlags").toInt % 4294967296))
            flagUp = 0 := by
        by_contra hcon
        exact hc ⟨hm, hcon⟩
      rw [if_neg hm, if_pos hf]
      exact ⟨_, rfl, Or.inl ⟨hacc2, hd, hs, hch, he⟩, hd ▸ hnn⟩

theorem scanEntries_steps (flagUp : Nat) (es : List (String × QJsonValue)) :
    ∀ st : DevicesScan, NoNull st.model.m_devices →
      ∃ st1, scanEntries flagUp st es = some st1 ∧ ScanSteps flagUp es st st1 ∧
        NoNull st1.model.m_devices := by
  induction es with
  | nil => intro st h; exact ⟨st, rfl, ScanSteps.nil st, h⟩
  | cons e es ih =>
      intro st h
      obtain ⟨key, l⟩ := e
      rw [scanEntries_cons]
      by_cases hk : parseDeviceType key = DeviceType.None
      · rw [if_pos hk]
        obtain ⟨st2, h1, h2, h3⟩ := ih st h
        exact ⟨st2, h1, ScanSteps.cons _ _ st st st2
          (Or.inl ⟨entryAccepted_of_none flagUp key l.toObject hk, rfl, rfl, rfl, rfl⟩) h2, h3⟩
      · rw [if_neg hk]
        obtain ⟨st1, h1, h2, h3⟩ := onDevicesChangedEntry_step flagUp key l st h hk
        rw [h1]
        obtain ⟨st2, h4, h5, h6⟩ := ih st1 h3
        exact ⟨st2, h4, ScanSteps.cons _ _ st st1 st2 h2 h5, h6⟩

theorem mem_live (devs : List (Option NetworkDevice)) (d : NetworkDevice) :
    d ∈ live devs ↔ some d ∈ devs := by
  simp [live]

theorem heldPtrs_eq (devs : List (Option NetworkDevice)) :
    heldPtrs devs = (live devs).map NetworkDevice.ptr := by
  induction devs with
  | nil => rfl
  | cons e rest ih =>
      cases e with
      | none => simpa [heldPtrs, live] using ih
      | some d => simpa [heldPtrs, live] using ih

theorem heldPaths_eq (devs : List (Option NetworkDevice)) :
    heldPaths devs = (live devs).map NetworkDevice.path := by
  induction devs with
  | nil => rfl
  | cons e rest ih =>
      cases e with
      | none => simpa [heldPaths, live] using ih
      | some d => simpa [heldPaths, live] using ih

theorem live_append_some (devs : List (Option NetworkDevice)) (d : NetworkDevice) :
    live (devs ++ [some d]) = live devs ++ [d] := by
  simp [live, List.filterMap_append]

theorem live_updateObject (ptr : Nat) (f : NetworkDevice → NetworkDevice)
    (devs : List (Option NetworkDevice)) :
    live (updateObject ptr f devs) = (live devs).map (fun x => if x.ptr = ptr then f x else x) := by
  induction devs with
  | nil => rfl
  | cons e rest ih =>
      cases e with
      | none => simpa [live, updateObject] using ih
      | some d => simpa [live, updateObject] using ih

theorem noNull_eq_map_live (devs : List (Option NetworkDevice)) (h : NoNull devs) :
    devs = (live devs).map some := by
  induction devs with
  | nil => rfl
  | cons e rest ih =>
      have hrest : NoNull rest := fun x hx => h x (List.mem_cons_of_mem _ hx)
      cases e with
      | none => have := h none (List.mem_cons_self _ _); simp at this
      | some d =>
          have := ih hrest
          simp only [live, List.filterMap_cons, id_eq, List.map_cons, List.cons.injEq, true_and]
          exact this

theorem freshPtr_not_mem (devs : List (Option NetworkDevice)) :
    freshPtr devs ∉ heldPtrs devs := by
  have hle : ∀ (l : List Nat) (x : Nat), x ∈ l → x ≤ l.foldr max 0 := by
    intro l
    induction l with
    | nil => intro x hx; simp at hx
    | cons a t ih =>
        intro x hx
        simp only [List.foldr_cons]
        rcases List.mem_cons.mp hx with h1 | h1
        · subst h1; exact le_max_left _ _
        · exact le_trans (ih x h1) (le_max_right _ _)
  intro hmem
  have := hle _ _ hmem
  unfold freshPtr at this
  omega

theorem ident_update_map (ptr : Nat) (info : QJsonObject) (ds : List NetworkDevice) :
    (ds.map (fun x => if x.ptr = ptr then x.updateDeviceInfo info else x)).map
      NetworkDevice.ident = ds.map NetworkDevice.ident := by
  rw [List.map_map]
  apply List.map_congr_left
  intro x _
  simp only [Function.comp]
  split_ifs <;> rfl

theorem ptr_of_ident (ds : List NetworkDevice) :
    ds.map NetworkDevice.ptr = (ds.map NetworkDevice.ident).map (fun i => i.1) := by
  rw [List.map_map]; rfl

theorem path_of_ident (ds : List NetworkDevice) :
    ds.map NetworkDevice.path = (ds.map NetworkDevice.ident).map (fun i => i.2.1) := by
  rw [List.map_map]; rfl

/-- The identities of the devices after one step: those before, followed by
the identity of the device the step constructed, if any. -/
theorem scanStep_ident (flagUp : Nat) (e : String × QJsonValue) (st st1 : DevicesScan)
    (h : ScanStep flagUp e st st1) :
    (live st1.model.m_devices).map NetworkDevice.ident =
        (live st.model.m_devices).map NetworkDevice.ident ∨
    (entryAccepted flagUp e.1 e.2.toObject = true ∧
      entryPath e.2.toObject ∉ heldPaths st.model.m_devices ∧
      (live st1.model.m_devices).map NetworkDevice.ident =
        (live st.model.m_devices).map NetworkDevice.ident ++
          [(freshPtr st.model.m_devices, entryPath e.2.toObject, parseDeviceType e.1)]) := by
  rcases h with ⟨_, h1, _⟩ | ⟨h0, h1, h2, _⟩ | ⟨_, d, _, _, h2, _⟩
  · left; rw [h1]
  · right
    refine ⟨h0, h1, ?_⟩
    rw [h2, live_append_some, List.map_append]
    rfl
  · left
    rw [h2, live_updateObject, ident_update_map]

theorem acceptedOf_cons (flagUp : Nat) (e : String × QJsonValue)
    (es : List (String × QJsonValue)) :
    acceptedOf flagUp (e :: es) =
      if entryAccepted flagUp e.1 e.2.toObject = true then e.2.toObject :: acceptedOf flagUp es
      else acceptedOf flagUp es := by
  unfold acceptedOf
  simp only [List.map_cons, List.filterMap_cons]
  split_ifs with h <;> simp [h]

theorem heldPtrs_of_ident_eq (a b : List (Option NetworkDevice))
    (h : (live a).map NetworkDevice.ident = (live b).map NetworkDevice.ident) :
    heldPtrs a = heldPtrs b := by
  rw [heldPtrs_eq, heldPtrs_eq, ptr_of_ident, ptr_of_ident, h]

theorem heldPaths_of_ident_eq (a b : List (Option NetworkDevice))
    (h : (live a).map NetworkDevice.ident = (live b).map NetworkDevice.ident) :
    heldPaths a = heldPaths b := by
  rw [heldPaths_eq, heldPaths_eq, path_of_ident, path_of_ident, h]

/-- The identities of the devices after the scan: those before, in the same
order, followed by those of the constructed devices, whose addresses and paths
are new and pairwise distinct and whose paths are accepted. -/
theorem scanSteps_ident (flagUp : Nat) (es : List (String × QJsonValue)) (st st2 : DevicesScan)
    (h : ScanSteps flagUp es st st2) :
    ∃ news : List (Nat × String × DeviceType),
      (live st2.model.m_devices).map NetworkDevice.ident =
        (live st.model.m_devices).map NetworkDevice.ident ++ news ∧
      (∀ i ∈ news, i.1 ∉ heldPtrs st.model.m_devices ∧ i.2.1 ∉ heldPaths st.model.m_devices ∧
        i.2.1 ∈ (acceptedOf flagUp es).map entryPath) ∧
      (news.map (fun i => i.1)).Nodup ∧ (news.map (fun i => i.2.1)).Nodup := by
  induction h with
  | nil st => exact ⟨[], by simp, by simp, by simp, by simp⟩
  | cons e es st st1 st2 hstep _ ih =>
      obtain ⟨news1, h1, h2, h3, h4⟩ := ih
      have hsub : ∀ p, p ∈ (acceptedOf flagUp es).map entryPath →
          p ∈ (acceptedOf flagUp (e :: es)).map entryPath := by
        intro p hp
        rw [acceptedOf_cons]
        split_ifs
        · rw [List.map_cons]; exact List.mem_cons_of_mem _ hp
        · exact hp
      rcases scanStep_ident flagUp e st st1 hstep with hs | ⟨hacc, hnew, hs⟩
      · refine ⟨news1, by rw [h1, hs], ?_, h3, h4⟩
        intro i hi
        obtain ⟨a, b, c⟩ := h2 i hi
        rw [heldPtrs_of_ident_eq _ _ hs] at a
        rw [heldPaths_of_ident_eq _ _ hs] at b
        exact ⟨a, b, hsub _ c⟩
      · have hp1 : heldPtrs st1.model.m_devices =
            heldPtrs st.model.m_devices ++ [freshPtr st.model.m_devices] := by
          rw [heldPtrs_eq, heldPtrs_eq, ptr_of_ident, ptr_of_ident, hs]; simp
        have hp2 : heldPaths st1.model.m_devices =
            heldPaths st.model.m_devices ++ [entryPath e.2.toObject] := by
          rw [heldPaths_eq, heldPaths_eq, path_of_ident, path_of_ident, hs]; simp
        refine ⟨(freshPtr st.model.m_devices, entryPath e.2.toObject, parseDeviceType e.1) :: news1,
          by rw [h1, hs]; simp, ?_, ?_, ?_⟩
        · intro i hi
          rcases List.mem_cons.mp hi with rfl | hi
          · refine ⟨freshPtr_not_mem _, hnew, ?_⟩
            rw [acceptedOf_cons, if_pos hacc]
            simp
          · obtain ⟨a, b, c⟩ := h2 i hi
            rw [hp1] at a
            rw [hp2] at b
            exact ⟨fun hh => a (List.mem_append_left _ hh),
              fun hh => b (List.mem_append_left _ hh), hsub _ c⟩
        · rw [List.map_cons, List.nodup_cons]
          refine ⟨?_, h3⟩
          intro hmem
          obtain ⟨i, hi, hi2⟩ := List.mem_map.mp hmem
          have := (h2 i hi).1
          rw [hp1] at this
          exact this (by simp [hi2])
        · rw [List.map_cons, List.nodup_cons]
          refine ⟨?_, h4⟩
          intro hmem
          obtain ⟨i, hi, hi2⟩ := List.mem_map.mp hmem
          have := (h2 i hi).2.1
          rw [hp2] at this
          exact this (by simp [hi2])

theorem scanSteps_nodup_ptrs (flagUp : Nat) (es : List (String × QJsonValue))
    (st st2 : DevicesScan) (h : ScanSteps flagUp es st st2)
    (hn : (heldPtrs st.model.m_devices).Nodup) : (heldPtrs st2.model.m_devices).Nodup := by
  obtain ⟨news, h1, h2, h3, _⟩ := scanSteps_ident flagUp es st st2 h
  rw [heldPtrs_eq, ptr_of_ident, h1, List.map_append, ← ptr_of_ident, ← heldPtrs_eq]
  rw [List.nodup_append]
  refine ⟨hn, h3, ?_⟩
  intro x hx hx2
  obtain ⟨i, hi, rfl⟩ := List.mem_map.mp hx2
  exact (h2 i hi).1 hx

theorem scanSteps_nodup_paths (flagUp : Nat) (es : List (String × QJsonValue))
    (st st2 : DevicesScan) (h : ScanSteps flagUp es st st2)
    (hn : (heldPaths st.model.m_devices).Nodup) : (heldPaths st2.model.m_devices).Nodup := by
  obtain ⟨news, h1, h2, _, h4⟩ := scanSteps_ident flagUp es st st2 h
  rw [heldPaths_eq, path_of_ident, h1, List.map_append, ← path_of_ident, ← heldPaths_eq]
  rw [List.nodup_append]
  refine ⟨hn, h4, ?_⟩
  intro x hx hx2
  obtain ⟨i, hi, rfl⟩ := List.mem_map.mp hx2
  exact (h2 i hi).2.1 hx

theorem scanSteps_heldPaths_mono (flagUp : Nat) (es : List (String × QJsonValue))
    (st st2 : DevicesScan) (h : ScanSteps flagUp es st st2) (p : String)
    (hp : p ∈ heldPaths st.model.m_devices) : p ∈ heldPaths st2.model.m_devices := by
  obtain ⟨news, h1, _⟩ := scanSteps_ident flagUp es st st2 h
  rw [heldPaths_eq, path_of_ident, h1, List.map_append, ← path_of_ident, ← heldPaths_eq]
  exact List.mem_append_left _ hp

/-- Every accepted path is held after the scan. -/
theorem scanSteps_accepted_held (flagUp : Nat) (es : List (String × QJsonValue))
    (st st2 : DevicesScan) (h : ScanSteps flagUp es st st2) :
    ∀ p ∈ (acceptedOf flagUp es).map entryPath, p ∈ heldPaths st2.model.m_devices := by
  induction h with
  | nil st => intro p hp; simp [acceptedOf] at hp
  | cons e es st st1 st2 hstep hsteps ih =>
      intro p hp
      rw [acceptedOf_cons] at hp
      have hhead : entryAccepted flagUp e.1 e.2.toObject = true →
          entryPath e.2.toObject ∈ heldPaths st1.model.m_devices := by
        intro hacc
        rcases hstep with ⟨h0, _⟩ | ⟨_, _, h2, _⟩ | ⟨_, d, hd, hd2, h2, _⟩
        · rw [hacc] at h0; cases h0
        · rw [heldPaths_eq, h2, live_append_some]
          simp [NetworkDevice.create, entryPath]
        · rw [heldPaths_eq, h2, live_updateObject, path_of_ident, ident_update_map,
            ← path_of_ident]
          exact List.mem_map.mpr ⟨d, (mem_live _ _).mpr hd, hd2⟩
      split_ifs at hp with hacc
      · rw [List.map_cons] at hp
        rcases List.mem_cons.mp hp with rfl | hp
        · exact scanSteps_heldPaths_mono flagUp es st1 st2 hsteps _ (hhead hacc)
        · exact ih p hp
      · exact ih p hp

/-- The paths in `devSet` after the scan: those before and the accepted paths. -/
theorem scanSteps_devSet (flagUp : Nat) (es : List (String × QJsonValue))
    (st st2 : DevicesScan) (h : ScanSteps flagUp es st st2) :
    ∀ p, p ∈ st2.devSet ↔ p ∈ st.devSet ∨ p ∈ (acceptedOf flagUp es).map entryPath := by
  induction h with
  | nil st => intro p; simp [acceptedOf]
  | cons e es st st1 st2 hstep _ ih =>
      intro p
      rw [ih p, acceptedOf_cons]
      rcases hstep with ⟨h0, _, h2, _⟩ | ⟨h0, _, _, h2, _⟩ | ⟨h0, d, _, _, _, h2, _⟩
      · rw [h2, h0]; simp
      · rw [h2 p, if_pos h0, List.map_cons, List.mem_cons]; tauto
      · rw [h2 p, if_pos h0, List.map_cons, List.mem_cons]; tauto

/-- The effects of the scan: constructions and `requestDeviceStatus` only,
`changed` is set exactly when a device was constructed, and a device is
constructed for every accepted path that was not held. -/
theorem scanSteps_effects (flagUp : Nat) (es : List (String × QJsonValue))
    (st st2 : DevicesScan) (h : ScanSteps flagUp es st st2) :
    ∃ extra : List Effect, st2.effects = st.effects ++ extra ∧
      (∀ x ∈ extra, x.isDeviceListChanged = false ∧ x.isDeleteLater = false) ∧
      st2.changed = (st.changed || extra.any Effect.isConstruct) ∧
      (∀ p ∈ (acceptedOf flagUp es).map entryPath, p ∉ heldPaths st.model.m_devices →
        ∃ d, Effect.construct d ∈ extra ∧ d.path = p ∧ d.ptr ∉ heldPtrs st.model.m_devices) := by
  induction h with
  | nil st => exact ⟨[], by simp, by simp, by simp, by simp [acceptedOf]⟩
  | cons e es st st1 st2 hstep hsteps ih =>
      obtain ⟨extra1, h1, h2, h3, h4⟩ := ih
      have hid := scanStep_ident flagUp e st st1 hstep
      rcases hstep with ⟨h0, _, _, hc, he⟩ | ⟨h0, hnew, hdev, _, hc, he⟩ | ⟨h0, d, hd, hd2, _, _, hc, he⟩
      · have hs : (live st1.model.m_devices).map NetworkDevice.ident =
            (live st.model.m_devices).map NetworkDevice.ident := by
          rcases hid with hs | ⟨hacc, _⟩
          · exact hs
          · rw [hacc] at h0; cases h0
        refine ⟨extra1, by rw [h1, he], h2, by rw [h3, hc], ?_⟩
        intro p hp hnp
        rw [acceptedOf_cons, h0] at hp
        simp only [Bool.false_eq_true, if_false] at hp
        rw [← heldPaths_of_ident_eq _ _ hs] at hnp
        obtain ⟨x, hx1, hx2, hx3⟩ := h4 p hp hnp
        rw [heldPtrs_of_ident_eq _ _ hs] at hx3
        exact ⟨x, hx1, hx2, hx3⟩
      · have hs : (live st1.model.m_devices).map NetworkDevice.ident =
            (live st.model.m_devices).map NetworkDevice.ident ++
              [(freshPtr st.model.m_devices, entryPath e.2.toObject, parseDeviceType e.1)] := by
          rw [hdev, live_append_some, List.map_append]; rfl
        have hp1 : heldPtrs st1.model.m_devices =
            heldPtrs st.model.m_devices ++ [freshPtr st.model.m_devices] := by
          rw [heldPtrs_eq, heldPtrs_eq, ptr_of_ident, ptr_of_ident, hs]; simp
        have hp2 : heldPaths st1.model.m_devices =
            heldPaths st.model.m_devices ++ [entryPath e.2.toObject] := by
          rw [heldPaths_eq, heldPaths_eq, path_of_ident, path_of_ident, hs]; simp
        refine ⟨[Effect.construct (NetworkDevice.create (parseDeviceType e.1) e.2.toObject
            (freshPtr st.model.m_devices)),
          Effect.emit (Signal.requestDeviceStatus (entryPath e.2.toObject))] ++ extra1,
          by rw [h1, he, List.append_assoc], ?_, ?_, ?_⟩
        · intro x hx
          rcases List.mem_append.mp hx with hx | hx
          · simp only [List.mem_cons, List.mem_singleton, List.not_mem_nil, or_false] at hx
            rcases hx with rfl | rfl <;> exact ⟨rfl, rfl⟩
          · exact h2 x hx
        · rw [h3, hc]; simp [Effect.isConstruct]
        · intro p hp hnp
          have hfirst : ∃ d, Effect.construct d ∈
              [Effect.construct (NetworkDevice.create (parseDeviceType e.1) e.2.toObject
                (freshPtr st.model.m_devices)),
                Effect.emit (Signal.requestDeviceStatus (entryPath e.2.toObject))] ++ extra1 ∧
              d.path = entryPath e.2.toObject ∧ d.ptr ∉ heldPtrs st.model.m_devices :=
            ⟨NetworkDevice.create (parseDeviceType e.1) e.2.toObject
              (freshPtr st.model.m_devices), by simp, rfl, freshPtr_not_mem _⟩
          by_cases hpe : p = entryPath e.2.toObject
          · rw [hpe]; exact hfirst
          · rw [acceptedOf_cons, if_pos h0, List.map_cons] at hp
            rcases List.mem_cons.mp hp with hp | hp
            · exact absurd hp hpe
            · have hnp1 : p ∉ heldPaths st1.model.m_devices := by
                rw [hp2]; simp [hnp, hpe]
              obtain ⟨x, hx1, hx2, hx3⟩ := h4 p hp hnp1
              rw [hp1] at hx3
              exact ⟨x, List.mem_append_right _ hx1, hx2,
                fun hh => hx3 (List.mem_append_left _ hh)⟩
      · have hs : (live st1.model.m_devices).map NetworkDevice.ident =
            (live st.model.m_devices).map NetworkDevice.ident := by
          rcases hid with hs | ⟨_, hnew, _⟩
          · exact hs
          · exfalso; apply hnew
            rw [heldPaths_eq]
            exact List.mem_map.mpr ⟨d, (mem_live _ _).mpr hd, hd2⟩
        refine ⟨extra1, by rw [h1, he], h2, by rw [h3, hc], ?_⟩
        intro p hp hnp
        rw [acceptedOf_cons, if_pos h0, List.map_cons] at hp
        have hp : p ∈ (acceptedOf flagUp es).map entryPath := by
          rcases List.mem_cons.mp hp with hp | hp
          · exfalso; apply hnp
            rw [heldPaths_eq, hp]
            exact List.mem_map.mpr ⟨d, (mem_live _ _).mpr hd, hd2⟩
          · exact hp
        rw [← heldPaths_of_ident_eq _ _ hs] at hnp
        obtain ⟨x, hx1, hx2, hx3⟩ := h4 p hp hnp
        rw [heldPtrs_of_ident_eq _ _ hs] at hx3
        exact ⟨x, hx1, hx2, hx3⟩

/-- A device held before the scan is held after it, at the same address, with
the same path and type, and holds the last accepted entry with its path. -/
theorem scanSteps_track (flagUp : Nat) (es : List (String × QJsonValue))
    (st st2 : DevicesScan) (h : ScanSteps flagUp es st st2) :
    (heldPtrs st.model.m_devices).Nodup → (heldPaths st.model.m_devices).Nodup →
    ∀ d ∈ live st.model.m_devices, ∃ d2 ∈ live st2.model.m_devices,
      d2.ident = d.ident ∧
      d2.deviceInfo = latestInfo d.path d.deviceInfo (acceptedOf flagUp es) := by
  induction h with
  | nil st => intro _ _ d hd; exact ⟨d, hd, rfl, rfl⟩
  | cons e es st st1 st2 hstep hsteps ih =>
      intro hn1 hn2 d hd
      have hone : ScanSteps flagUp [e] st st1 :=
        ScanSteps.cons e [] st st1 st1 hstep (ScanSteps.nil st1)
      have hn1' := scanSteps_nodup_ptrs flagUp [e] st st1 hone hn1
      have hn2' := scanSteps_nodup_paths flagUp [e] st st1 hone hn2
      rcases hstep with ⟨h0, hdev, _⟩ | ⟨h0, hnew, hdev, _⟩ | ⟨h0, x, hx, hx2, hdev, _⟩
      · have hd1 : d ∈ live st1.model.m_devices := by rw [hdev]; exact hd
        obtain ⟨d2, a, b, c⟩ := ih hn1' hn2' d hd1
        refine ⟨d2, a, b, ?_⟩
        rw [c, acceptedOf_cons, h0]
        simp
      · have hd1 : d ∈ live st1.model.m_devices := by
          rw [hdev, live_append_some]; exact List.mem_append_left _ hd
        obtain ⟨d2, a, b, c⟩ := ih hn1' hn2' d hd1
        refine ⟨d2, a, b, ?_⟩
        rw [c, acceptedOf_cons, if_pos h0, latestInfo]
        have hne : entryPath e.2.toObject ≠ d.path := by
          intro heq
          apply hnew
          rw [heldPaths_eq, heq]
          exact List.mem_map_of_mem _ hd
        rw [if_neg hne]
      · have hx' : x ∈ live st.model.m_devices := (mem_live _ _).mpr hx
        have hd1 : (if d.ptr = x.ptr then d.updateDeviceInfo e.2.toObject else d) ∈
            live st1.model.m_devices := by
          rw [hdev, live_updateObject]
          exact List.mem_map.mpr ⟨d, hd, rfl⟩
        obtain ⟨d2, a, b, c⟩ := ih hn1' hn2' _ hd1
        rw [heldPtrs_eq] at hn1
        rw [heldPaths_eq] at hn2
        by_cases hpx : d.ptr = x.ptr
        · have hdx : d = x := List.inj_on_of_nodup_map hn1 hd hx' hpx
          rw [if_pos hpx] at b c
          refine ⟨d2, a, b, ?_⟩
          rw [c, acceptedOf_cons, if_pos h0, latestInfo]
          have : entryPath e.2.toObject = d.path := by rw [hdx, hx2]
          rw [if_pos this]
          rfl
        · rw [if_neg hpx] at b c
          refine ⟨d2, a, b, ?_⟩
          rw [c, acceptedOf_cons, if_pos h0, latestInfo]
          have : entryPath e.2.toObject ≠ d.path := by
            intro heq
            apply hpx
            have hdx : d = x := List.inj_on_of_nodup_map hn2 hd hx' (by rw [hx2, heq])
            rw [hdx]
          rw [if_neg this]

/-! ## The removal of the devices that are no longer listed -/

theorem collectRemoveList_eq (devSet : List String) (devs : List (Option NetworkDevice))
    (h : NoNull devs) :
    collectRemoveList devSet devs =
      some ((live devs).filter (fun d => decide (d.path ∉ devSet))) := by
  induction devs with
  | nil => rfl
  | cons e rest ih =>
      have hrest : NoNull rest := fun x hx => h x (List.mem_cons_of_mem _ hx)
      cases e with
      | none => have := h none (List.mem_cons_self _ _); simp at this
      | some d =>
          rw [collectRemoveList, ih hrest]
          by_cases hd : d.path ∈ devSet
          · simp [live, hd]
          · simp [live, hd]

theorem removeAll_sublist (rl : List NetworkDevice) :
    ∀ devs : List (Option NetworkDevice), (removeAll rl devs).Sublist devs := by
  induction rl with
  | nil => intro devs; exact List.Sublist.refl _
  | cons r rest ih =>
      intro devs
      rw [removeAll]
      exact (ih _).trans (List.eraseP_sublist _)

theorem removeAll_cons_keep (rl : List NetworkDevice) (a : NetworkDevice)
    (h : ∀ r ∈ rl, r.ptr ≠ a.ptr) :
    ∀ devs : List (Option NetworkDevice),
      removeAll rl (some a :: devs) = some a :: removeAll rl devs := by
  induction rl with
  | nil => intro devs; rfl
  | cons r rest ih =>
      intro devs
      have hr : samePtr r (some a) = false := by
        have := h r (List.mem_cons_self _ _)
        simp [samePtr, Ne.symm this]
      rw [removeAll, removeOne, List.eraseP_cons, hr]
      simp only [cond_false]
      rw [ih (fun x hx => h x (List.mem_cons_of_mem _ hx))]
      rfl

/-- When equal addresses have equal paths, removing the devices of
`removeList` one by one leaves the devices whose path is in `devSet`, in their
order. -/
theorem removeAll_filter (devSet : List String) (ds : List NetworkDevice)
    (hc : ∀ a ∈ ds, ∀ b ∈ ds, a.ptr = b.ptr → a.path = b.path) :
    removeAll (ds.filter (fun d => decide (d.path ∉ devSet))) (ds.map some) =
      (ds.filter (fun d => decide (d.path ∈ devSet))).map some := by
  induction ds with
  | nil => rfl
  | cons a t ih =>
      have hct : ∀ x ∈ t, ∀ y ∈ t, x.ptr = y.ptr → x.path = y.path :=
        fun x hx y hy => hc x (List.mem_cons_of_mem _ hx) y (List.mem_cons_of_mem _ hy)
      by_cases ha : a.path ∈ devSet
      · have h1 : (a :: t).filter (fun d => decide (d.path ∉ devSet)) =
            t.filter (fun d => decide (d.path ∉ devSet)) := by simp [ha]
        have h2 : (a :: t).filter (fun d => decide (d.path ∈ devSet)) =
            a :: t.filter (fun d => decide (d.path ∈ devSet)) := by simp [ha]
        rw [h1, h2, List.map_cons, removeAll_cons_keep, ih hct]
        · rfl
        · intro r hr heq
          have hr1 := List.mem_of_mem_filter hr
          have hr2 : r.path ∉ devSet := by simpa using (List.mem_filter.mp hr).2
          have := hc r (List.mem_cons_of_mem _ hr1) a (List.mem_cons_self _ _) heq
          rw [this] at hr2
          exact hr2 ha
      · have h1 : (a :: t).filter (fun d => decide (d.path ∉ devSet)) =
            a :: t.filter (fun d => decide (d.path ∉ devSet)) := by simp [ha]
        have h2 : (a :: t).filter (fun d => decide (d.path ∈ devSet)) =
            t.filter (fun d => decide (d.path ∈ devSet)) := by simp [ha]
        rw [h1, h2, List.map_cons, removeAll, removeOne, List.eraseP_cons]
        simp only [samePtr, decide_True, cond_true]
        exact ih hct

theorem noNull_sublist (a b : List (Option NetworkDevice)) (h : a.Sublist b) (hb : NoNull b) :
    NoNull a :=
  fun e he => hb e (h.subset he)

/-- The result of `onDevicesChanged` on a list without null entry, in terms of
the state `st` the scan ends in. -/
theorem onDevicesChanged_eq (flagUp : Nat) (m : NetworkModel) (S : QJsonValue)
    (hnn : NoNull m.m_devices) :
    ∃ st : DevicesScan,
      ScanSteps flagUp (snapshotEntries (QJsonDocument.object S)) (scanStart m) st ∧
      NoNull st.model.m_devices ∧
      m.onDevicesChanged flagUp S = some
        ({ st.model with
            m_devices := removeAll
              ((live st.model.m_devices).filter (fun d => decide (d.path ∉ st.devSet)))
              st.model.m_devices },
         st.effects ++
           ((live st.model.m_devices).filter
              (fun d => decide (d.path ∉ st.devSet))).map Effect.deleteLater ++
           if (st.changed ||
                !((live st.model.m_devices).filter
                    (fun d => decide (d.path ∉ st.devSet))).isEmpty) = true then
             [Effect.emit (Signal.deviceListChanged (removeAll
               ((live st.model.m_devices).filter (fun d => decide (d.path ∉ st.devSet)))
               st.model.m_devices))]
           else []) := by
  obtain ⟨st, h1, h2, h3⟩ :=
    scanEntries_steps flagUp (snapshotEntries (QJsonDocument.object S)) (scanStart m) hnn
  refine ⟨st, h2, h3, ?_⟩
  unfold NetworkModel.onDevicesChanged
  simp only []
  rw [onDevicesChangedData_eq_scanEntries]
  change (match scanEntries flagUp (scanStart m) (snapshotEntries (QJsonDocument.object S)) with
    | none => none
    | some st => _) = _
  rw [h1]
  simp only [collectRemoveList_eq _ _ h3]
  generalize (live st.model.m_devices).filter (fun d => decide (d.path ∉ st.devSet)) = rl
  cases rl with
  | nil =>
      cases hc : st.changed <;> simp [hc]
  | cons r rest =>
      simp

/-- A device is constructed only for a path that was not held. -/
theorem scanSteps_construct_new (flagUp : Nat) (es : List (String × QJsonValue))
    (st st2 : DevicesScan) (h : ScanSteps flagUp es st st2) :
    ∀ c, Effect.construct c ∈ st2.effects → Effect.construct c ∈ st.effects ∨
      (c.path ∉ heldPaths st.model.m_devices ∧ c.ptr ∉ heldPtrs st.model.m_devices) := by
  induction h with
  | nil st => intro c hc; exact Or.inl hc
  | cons e es st st1 st2 hstep hsteps ih =>
      intro c hc
      have hid := scanStep_ident flagUp e st st1 hstep
      rcases ih c hc with h1 | ⟨h1, h2⟩
      · rcases hstep with ⟨_, _, _, _, he⟩ | ⟨_, hnew, _, _, _, he⟩ | ⟨_, d, _, _, _, _, _, he⟩
        · left; rw [← he]; exact h1
        · rw [he] at h1
          rcases List.mem_append.mp h1 with h1 | h1
          · exact Or.inl h1
          · right
            simp only [List.mem_cons, Effect.construct.injEq, List.mem_singleton,
              List.not_mem_nil, or_false] at h1
            rcases h1 with h1 | h1
            · rw [h1]; exact ⟨hnew, freshPtr_not_mem _⟩
            · cases h1
        · left; rw [← he]; exact h1
      · right
        rcases hid with hs | ⟨_, _, hs⟩
        · rw [← heldPaths_of_ident_eq _ _ hs, ← heldPtrs_of_ident_eq _ _ hs]
          exact ⟨h1, h2⟩
        · constructor
          · intro hh; apply h1
            rw [heldPaths_eq, path_of_ident, hs, List.map_append]
            rw [heldPaths_eq, path_of_ident] at hh
            exact List.mem_append_left _ hh
          · intro hh; apply h2
            rw [heldPtrs_eq, ptr_of_ident, hs, List.map_append]
            rw [heldPtrs_eq, ptr_of_ident] at hh
            exact List.mem_append_left _ hh

/-! ## The device registry: statements -/

/-- C1: on a device list without null entry, `onDevicesChanged` returns, and
among its effects `deviceListChanged` is emitted exactly once when the call
constructed a device (`new`) or removed one (`deleteLater`), and not at all
otherwise; so a snapshot that only updates held devices emits none. -/
theorem onDevicesChanged_deviceListChanged_count (flagUp : Nat) (m : NetworkModel)
    (S : QJsonValue) (hnn : NoNull m.m_devices) :
    ∃ m1 effects, m.onDevicesChanged flagUp S = some (m1, effects) ∧
      effects.countP Effect.isDeviceListChanged =
        (if (effects.any Effect.isConstruct || effects.any Effect.isDeleteLater) = true
          then 1 else 0) := by
  obtain ⟨st, hsteps, _, heq⟩ := onDevicesChanged_eq flagUp m S hnn
  obtain ⟨extra, h1, h2, h3, _⟩ := scanSteps_effects flagUp _ _ _ hsteps
  refine ⟨_, _, heq, ?_⟩
  have he : st.effects = extra := by rw [h1]; rfl
  have hch : st.changed = extra.any Effect.isConstruct := by rw [h3]; rfl
  rw [he, hch]
  generalize (live st.model.m_devices).filter (fun d => decide (d.path ∉ st.devSet)) = rl
  have c1 : extra.countP Effect.isDeviceListChanged = 0 :=
    List.countP_eq_zero.mpr (fun x hx => by simp [(h2 x hx).1])
  have c2 : (rl.map Effect.deleteLater).countP Effect.isDeviceListChanged = 0 :=
    List.countP_eq_zero.mpr (fun x hx => by
      obtain ⟨r, _, rfl⟩ := List.mem_map.mp hx
      simp [Effect.isDeviceListChanged])
  have a1 : extra.any Effect.isDeleteLater = false := by
    rw [List.any_eq_false]
    intro x hx
    simp [(h2 x hx).2]
  have a2 : (rl.map Effect.deleteLater).any Effect.isConstruct = false := by
    rw [List.any_eq_false]
    intro x hx
    obtain ⟨r, _, rfl⟩ := List.mem_map.mp hx
    simp [Effect.isConstruct]
  have a3 : (rl.map Effect.deleteLater).any Effect.isDeleteLater = !rl.isEmpty := by
    cases rl with
    | nil => rfl
    | cons r rest => simp [Effect.isDeleteLater]
  simp only [List.countP_append, List.any_append, c1, c2, a1, a2, a3]
  cases hA : extra.any Effect.isConstruct <;> cases hB : rl.isEmpty <;>
    simp [Effect.isDeviceListChanged, Effect.isConstruct, Effect.isDeleteLater]

theorem sameAddressSamePath_of_nodup (devs : List (Option NetworkDevice))
    (h : (heldPtrs devs).Nodup) : SameAddressSamePath devs := by
  intro a ha b hb hab
  rw [heldPtrs_eq] at h
  rw [List.inj_on_of_nodup_map h ha hb hab]

theorem scanSteps_sameAddressSamePath (flagUp : Nat) (es : List (String × QJsonValue))
    (st st2 : DevicesScan) (h : ScanSteps flagUp es st st2)
    (hc : SameAddressSamePath st.model.m_devices) :
    SameAddressSamePath st2.model.m_devices := by
  obtain ⟨news, h1, h2, h3, _⟩ := scanSteps_ident flagUp es st st2 h
  have key : ∀ i ∈ (live st2.model.m_devices).map NetworkDevice.ident,
      ∀ j ∈ (live st2.model.m_devices).map NetworkDevice.ident, i.1 = j.1 → i.2.1 = j.2.1 := by
    rw [h1]
    have hold : ∀ i ∈ (live st.model.m_devices).map NetworkDevice.ident,
        i.1 ∈ heldPtrs st.model.m_devices := by
      intro i hi
      rw [heldPtrs_eq, ptr_of_ident]
      exact List.mem_map_of_mem _ hi
    intro i hi j hj hij
    rcases List.mem_append.mp hi with hi | hi <;> rcases List.mem_append.mp hj with hj | hj
    · obtain ⟨a, ha, rfl⟩ := List.mem_map.mp hi
      obtain ⟨b, hb, rfl⟩ := List.mem_map.mp hj
      exact hc a ha b hb hij
    · exact absurd (hij ▸ hold i hi) (h2 j hj).1
    · exact absurd (hij.symm ▸ hold j hj) (h2 i hi).1
    · have : i = j := List.inj_on_of_nodup_map h3 hi hj hij
      rw [this]
  intro a ha b hb hab
  exact key _ (List.mem_map_of_mem _ ha) _ (List.mem_map_of_mem _ hb) hab

theorem live_removeAll (st : DevicesScan) (hnn : NoNull st.model.m_devices)
    (hnd : SameAddressSamePath st.model.m_devices) :
    live (removeAll ((live st.model.m_devices).filter (fun d => decide (d.path ∉ st.devSet)))
      st.model.m_devices) =
      (live st.model.m_devices).filter (fun d => decide (d.path ∈ st.devSet)) := by
  have h := removeAll_filter st.devSet (live st.model.m_devices) hnd
  rw [← noNull_eq_map_live _ hnn] at h
  rw [h]
  simp [live, List.filterMap_map]

theorem scanStart_devSet (flagUp : Nat) (m : NetworkModel) (S : QJsonValue) (st : DevicesScan)
    (h : ScanSteps flagUp (snapshotEntries (QJsonDocument.object S)) (scanStart m) st) :
    ∀ p, p ∈ st.devSet ↔ p ∈ acceptedPaths flagUp S := by
  intro p
  rw [scanSteps_devSet flagUp _ _ _ h p, acceptedPaths, acceptedEntries_eq_acceptedOf]
  simp [scanStart]

/-- C2: on a device list without null entry, in which equal addresses denote
one object, after `onDevicesChanged(S)` the paths of the held devices are
exactly the `Path` values of the accepted entries of `S`; a device is
constructed for every accepted path that was not held, and every held device
whose path is not accepted is removed. -/
theorem onDevicesChanged_held_paths (flagUp : Nat) (m : NetworkModel) (S : QJsonValue)
    (hnn : NoNull m.m_devices) (hnd : SameAddressSamePath m.m_devices) :
    ∃ m1 effects, m.onDevicesChanged flagUp S = some (m1, effects) ∧
      (∀ p, p ∈ heldPaths m1.m_devices ↔ p ∈ acceptedPaths flagUp S) ∧
      (∀ p ∈ acceptedPaths flagUp S, p ∉ heldPaths m.m_devices →
        ∃ d, Effect.construct d ∈ effects ∧ d.path = p ∧ d.ptr ∉ heldPtrs m.m_devices) ∧
      (∀ d, some d ∈ m.m_devices → d.path ∉ acceptedPaths flagUp S →
        d.ptr ∉ heldPtrs m1.m_devices ∧
        ∃ r, Effect.deleteLater r ∈ effects ∧ r.ptr = d.ptr ∧ r.path = d.path) := by
  obtain ⟨st, hsteps, hnn2, heq⟩ := onDevicesChanged_eq flagUp m S hnn
  have hnd2 := scanSteps_sameAddressSamePath flagUp _ _ _ hsteps hnd
  have hset := scanStart_devSet flagUp m S st hsteps
  have hlive := live_removeAll st hnn2 hnd2
  obtain ⟨news, hid, hnews, _, _⟩ := scanSteps_ident flagUp _ _ _ hsteps
  refine ⟨_, _, heq, ?_, ?_, ?_⟩
  · intro p
    show p ∈ heldPaths (removeAll _ _) ↔ _
    rw [heldPaths_eq, hlive, List.mem_map]
    constructor
    · rintro ⟨d, hd, rfl⟩
      have := (List.mem_filter.mp hd).2
      exact (hset _).mp (by simpa using this)
    · intro hp
      have hheld := scanSteps_accepted_held flagUp _ _ _ hsteps p
        (by rw [← acceptedEntries_eq_acceptedOf]; exact hp)
      rw [heldPaths_eq] at hheld
      obtain ⟨d, hd, rfl⟩ := List.mem_map.mp hheld
      exact ⟨d, List.mem_filter.mpr ⟨hd, by simpa using (hset _).mpr hp⟩, rfl⟩
  · intro p hp hnp
    obtain ⟨extra, h1, _, _, h4⟩ := scanSteps_effects flagUp _ _ _ hsteps
    obtain ⟨d, a, b, c⟩ := h4 p (by rw [← acceptedEntries_eq_acceptedOf]; exact hp) hnp
    refine ⟨d, ?_, b, c⟩
    rw [h1]
    exact List.mem_append_left _ (List.mem_append_left _ (List.mem_append_right _ a))
  · intro d hd hna
    have hdi : d.ident ∈ (live st.model.m_devices).map NetworkDevice.ident := by
      rw [hid]
      exact List.mem_append_left _ (List.mem_map_of_mem _ ((mem_live _ _).mpr hd))
    obtain ⟨x, hx, hxd⟩ := List.mem_map.mp hdi
    have hxp : x.ptr = d.ptr := congrArg (fun i => i.1) hxd
    have hxpath : x.path = d.path := congrArg (fun i => i.2.1) hxd
    have hxs : x.path ∉ st.devSet := by
      rw [hxpath]; exact fun hh => hna ((hset _).mp hh)
    constructor
    · show d.ptr ∉ heldPtrs (removeAll _ _)
      rw [heldPtrs_eq, hlive]
      intro hmem
      obtain ⟨y, hy, hyp⟩ := List.mem_map.mp hmem
      have hy1 := (List.mem_filter.mp hy).1
      have hy2 : y.path ∈ st.devSet := by simpa using (List.mem_filter.mp hy).2
      have : y.path = x.path := hnd2 y hy1 x hx (by rw [hyp, hxp])
      rw [this] at hy2
      exact hxs hy2
    · refine ⟨x, ?_, hxp, hxpath⟩
      apply List.mem_append_left
      apply List.mem_append_right
      exact List.mem_map_of_mem _ (List.mem_filter.mpr ⟨hx, by simpa using hxs⟩)

theorem latestInfo_mem (p : String) (infos : List QJsonObject) :
    ∀ dflt, p ∈ infos.map entryPath →
      latestInfo p dflt infos ∈ infos ∧ entryPath (latestInfo p dflt infos) = p := by
  induction infos with
  | nil => intro dflt h; simp at h
  | cons info rest ih =>
      intro dflt h
      rw [latestInfo]
      by_cases hr : p ∈ rest.map entryPath
      · obtain ⟨a, b⟩ := ih (if entryPath info = p then info else dflt) hr
        exact ⟨List.mem_cons_of_mem _ a, b⟩
      · have hi : entryPath info = p := by
          rw [List.map_cons] at h
          rcases List.mem_cons.mp h with h | h
          · exact h.symm
          · exact absurd h hr
        have hrest : ∀ dflt2, entryPath dflt2 = p → latestInfo p dflt2 rest = dflt2 := by
          clear ih h
          induction rest with
          | nil => intro _ _; rfl
          | cons a t iht =>
              intro dflt2 hd
              rw [latestInfo]
              have : entryPath a ≠ p := by
                intro heq; apply hr; rw [List.map_cons, ← heq]; exact List.mem_cons_self _ _
              rw [if_neg this]
              exact iht (fun hh => hr (by rw [List.map_cons]; exact List.mem_cons_of_mem _ hh))
                dflt2 hd
        rw [if_pos hi, hrest info hi]
        exact ⟨List.mem_cons_self _ _, hi⟩

/-- C3: on a device list without null entry, with pairwise distinct addresses
and pairwise distinct paths, every device held before `onDevicesChanged(S)`
whose path is accepted is still held afterwards at the same address, with its
path and type (no device is constructed for its path), and holds the last
accepted entry of `S` with its path; the addresses held afterwards are those
of the retained devices in their previous order, followed by addresses that
were not held. -/
theorem onDevicesChanged_retains_devices (flagUp : Nat) (m : NetworkModel) (S : QJsonValue)
    (hnn : NoNull m.m_devices) (hnd : (heldPtrs m.m_devices).Nodup)
    (hnp : (heldPaths m.m_devices).Nodup) :
    ∃ m1 effects, m.onDevicesChanged flagUp S = some (m1, effects) ∧
      (∀ d, some d ∈ m.m_devices → d.path ∈ acceptedPaths flagUp S →
        (∃ d1, some d1 ∈ m1.m_devices ∧ d1.ptr = d.ptr ∧ d1.path = d.path ∧
          d1.type = d.type ∧
          d1.deviceInfo = latestInfo d.path d.deviceInfo (acceptedEntries flagUp S) ∧
          d1.deviceInfo ∈ acceptedEntries flagUp S ∧ entryPath d1.deviceInfo = d.path) ∧
        ∀ c, Effect.construct c ∈ effects → c.path ≠ d.path ∧ c.ptr ≠ d.ptr) ∧
      ∃ news : List Nat,
        heldPtrs m1.m_devices =
          ((live m.m_devices).filter
            (fun d => decide (d.path ∈ acceptedPaths flagUp S))).map NetworkDevice.ptr ++ news ∧
        ∀ q ∈ news, q ∉ heldPtrs m.m_devices := by
  obtain ⟨st, hsteps, hnn2, heq⟩ := onDevicesChanged_eq flagUp m S hnn
  have hnd2 := scanSteps_sameAddressSamePath flagUp _ _ _ hsteps
    (sameAddressSamePath_of_nodup _ hnd)
  have hset := scanStart_devSet flagUp m S st hsteps
  have hlive := live_removeAll st hnn2 hnd2
  obtain ⟨news, hid, hnews, _, _⟩ := scanSteps_ident flagUp _ _ _ hsteps
  refine ⟨_, _, heq, ?_, ?_⟩
  · intro d hd hacc
    constructor
    · obtain ⟨d2, a, b, c⟩ := scanSteps_track flagUp _ _ _ hsteps hnd hnp d ((mem_live _ _).mpr hd)
      have hpath : d2.path = d.path := congrArg (fun i => i.2.1) b
      rw [← acceptedEntries_eq_acceptedOf] at c
      have hc : d2.deviceInfo = latestInfo d.path d.deviceInfo (acceptedEntries flagUp S) := c
      refine ⟨d2, ?_, congrArg (fun i => i.1) b, hpath, congrArg (fun i => i.2.2) b, hc, ?_⟩
      · show some d2 ∈ removeAll _ _
        rw [← mem_live, hlive]
        exact List.mem_filter.mpr ⟨a, by rw [hpath]; simpa using (hset _).mpr hacc⟩
      · rw [hc]
        exact latestInfo_mem d.path (acceptedEntries flagUp S) d.deviceInfo hacc
    · intro c hc
      have hc2 : Effect.construct c ∈ st.effects := by
        rcases List.mem_append.mp hc with hc | hc
        · rcases List.mem_append.mp hc with hc | hc
          · exact hc
          · obtain ⟨r, _, hr⟩ := List.mem_map.mp hc
            cases hr
        · split_ifs at hc
          · simp at hc
          · simp at hc
      rcases scanSteps_construct_new flagUp _ _ _ hsteps c hc2 with h1 | ⟨h1, h2⟩
      · simp [scanStart] at h1
      · constructor
        · intro hh; apply h1
          rw [heldPaths_eq, hh]
          exact List.mem_map_of_mem _ ((mem_live _ _).mpr hd)
        · intro hh; apply h2
          rw [heldPtrs_eq, hh]
          exact List.mem_map_of_mem _ ((mem_live _ _).mpr hd)
  · refine ⟨(news.filter (fun i => decide (i.2.1 ∈ st.devSet))).map (fun i => i.1), ?_, ?_⟩
    · show heldPtrs (removeAll _ _) = _
      rw [heldPtrs_eq, hlive]
      have hfm : ∀ l : List NetworkDevice,
          (l.filter (fun d => decide (d.path ∈ st.devSet))).map NetworkDevice.ptr =
          ((l.map NetworkDevice.ident).filter
            (fun i => decide (i.2.1 ∈ st.devSet))).map (fun i => i.1) := by
        intro l
        induction l with
        | nil => rfl
        | cons a t ih =>
            by_cases ha : a.path ∈ st.devSet
            · simp [List.filter_cons, ha, NetworkDevice.ident]
              simpa [NetworkDevice.ident] using ih
            · simp [List.filter_cons, ha, NetworkDevice.ident]
              simpa [NetworkDevice.ident] using ih
      have hpred : (fun d : NetworkDevice => decide (d.path ∈ acceptedPaths flagUp S)) =
          (fun d : NetworkDevice => decide (d.path ∈ st.devSet)) := by
        funext d
        exact decide_eq_decide.mpr (hset d.path).symm
      rw [hpred, hfm, hfm, hid, List.filter_append, List.map_append]
      rfl
    · intro q hq
      obtain ⟨i, hi, rfl⟩ := List.mem_map.mp hq
      exact (hnews i (List.mem_of_mem_filter hi)).1

theorem deviceIn_unique (devs : List (Option NetworkDevice)) (hnn : NoNull devs)
    (hnp : (heldPaths devs).Nodup) (d : NetworkDevice) (hd : some d ∈ devs) :
    deviceIn devs d.path = some (some d) := by
  rcases deviceIn_of_noNull devs d.path hnn with ⟨_, h2⟩ | ⟨x, h1, h2, h3⟩
  · exfalso; apply h2
    rw [heldPaths_eq]
    exact List.mem_map_of_mem _ ((mem_live _ _).mpr hd)
  · rw [heldPaths_eq] at hnp
    have : x = d :=
      List.inj_on_of_nodup_map hnp ((mem_live _ _).mpr h2) ((mem_live _ _).mpr hd) h3
    rw [h1, this]

/-- C10: when the held device list has no null entry and no two devices with
the same path, `onDevicesChanged` returns for every snapshot and the same
holds of the list afterwards; `device(path)` then returns the one held device
with that path and `containsDevice(path)` is true for it. -/
theorem onDevicesChanged_preserves_keyed (flagUp : Nat) (m : NetworkModel) (S : QJsonValue)
    (hnn : NoNull m.m_devices) (hnp : (heldPaths m.m_devices).Nodup) :
    ∃ m1 effects, m.onDevicesChanged flagUp S = some (m1, effects) ∧
      NoNull m1.m_devices ∧ (heldPaths m1.m_devices).Nodup ∧
      (∀ d1 d2, some d1 ∈ m1.m_devices → some d2 ∈ m1.m_devices → d1.path = d2.path →
        d1 = d2) ∧
      ∀ d, some d ∈ m1.m_devices →
        m1.device d.path = some (some d) ∧ m1.containsDevice d.path = some true := by
  obtain ⟨st, hsteps, hnn2, heq⟩ := onDevicesChanged_eq flagUp m S hnn
  have hnp2 := scanSteps_nodup_paths flagUp _ _ _ hsteps hnp
  have hsub := removeAll_sublist
    ((live st.model.m_devices).filter (fun d => decide (d.path ∉ st.devSet))) st.model.m_devices
  have h1 : NoNull (removeAll
      ((live st.model.m_devices).filter (fun d => decide (d.path ∉ st.devSet)))
      st.model.m_devices) := noNull_sublist _ _ hsub hnn2
  have h2 : (heldPaths (removeAll
      ((live st.model.m_devices).filter (fun d => decide (d.path ∉ st.devSet)))
      st.model.m_devices)).Nodup :=
    List.Nodup.sublist (List.Sublist.filterMap _ hsub) hnp2
  refine ⟨_, _, heq, h1, h2, ?_, ?_⟩
  · intro d1 d2 hd1 hd2 hp
    have h2' := h2
    rw [heldPaths_eq] at h2'
    exact List.inj_on_of_nodup_map h2' ((mem_live _ _).mpr hd1) ((mem_live _ _).mpr hd2) hp
  · intro d hd
    have := deviceIn_unique _ h1 h2 d hd
    refine ⟨this, ?_⟩
    show Option.map Option.isSome (deviceIn _ _) = _
    rw [this]
    rfl

/-! ## QMap lookups -/

theorem QMap.value_insert {V : Type} (dflt : V) (key : String) (v : V) (m : QMap V)
    (k : String) :
    QMap.value dflt (QMap.insert key v m) k = if k = key then v else QMap.value dflt m k := by
  induction m with
  | nil =>
      simp only [QMap.insert, QMap.value]
      by_cases h : key = k
      · simp [h]
      · simp [h, Ne.symm h]
  | cons a rest ih =>
      obtain ⟨a, w⟩ := a
      simp only [QMap.insert]
      by_cases hk : k = key
      · subst hk
        rw [if_pos rfl]
        by_cases h1 : QString.lessThan k a = true
        · rw [if_pos h1]; simp [QMap.value]
        · rw [if_neg h1]
          by_cases h2 : a = k
          · rw [if_pos h2]; simp [QMap.value]
          · rw [if_neg h2]
            simp only [QMap.value]
            rw [if_neg h2, ih, if_pos rfl]
      · rw [if_neg hk]
        by_cases h1 : QString.lessThan key a = true
        · rw [if_pos h1]
          simp only [QMap.value]
          rw [if_neg (Ne.symm hk)]
        · rw [if_neg h1]
          by_cases h2 : a = key
          · rw [if_pos h2]
            simp only [QMap.value]
            rw [if_neg (Ne.symm hk), if_neg (by rw [h2]; exact Ne.symm hk)]
          · rw [if_neg h2]
            simp only [QMap.value]
            rw [ih, if_neg hk]

theorem QMap.value_appendAt {V : Type} (key : String) (x : V) (m : QMap (List V))
    (k : String) :
    QMap.value [] (QMap.appendAt key x m) k =
      if k = key then QMap.value [] m k ++ [x] else QMap.value [] m k := by
  unfold QMap.appendAt
  rw [QMap.value_insert]
  split_ifs with h
  · rw [h]
  · rfl

theorem QMap.value_appendAt2 {V : Type} (k1 k2 : String) (x : V) (m : QMap (QMap (List V)))
    (j1 j2 : String) :
    QMap.value [] (QMap.value [] (QMap.appendAt2 k1 k2 x m) j1) j2 =
      if j1 = k1 ∧ j2 = k2 then QMap.value [] (QMap.value [] m j1) j2 ++ [x]
      else QMap.value [] (QMap.value [] m j1) j2 := by
  unfold QMap.appendAt2
  rw [QMap.value_insert]
  by_cases h1 : j1 = k1
  · subst h1
    rw [if_pos rfl, QMap.value_appendAt]
    by_cases h2 : j2 = k2
    · simp [h2]
    · simp [h2]
  · simp [h1]

/-! ## The scan of a connections snapshot -/

theorem scanAdds_refl (t : String) (st : ConnectionsScan) : ScanAdds t [] st st := by
  simp [ScanAdds, commonProfiles, boundProfiles]

theorem scanAdds_trans (t : String) (a1 a2 : List QJsonObject) (st st1 st2 : ConnectionsScan)
    (h1 : ScanAdds t a1 st st1) (h2 : ScanAdds t a2 st1 st2) : ScanAdds t (a1 ++ a2) st st2 := by
  obtain ⟨p1, p2, p3, p4⟩ := h1
  obtain ⟨q1, q2, q3, q4⟩ := h2
  refine ⟨?_, ?_, ?_, ?_⟩
  · rw [q1, p1, commonProfiles, commonProfiles, commonProfiles, List.filter_append,
      List.append_assoc]
  · intro k
    rw [q2, p2, boundProfiles, boundProfiles, boundProfiles, List.filter_append,
      List.append_assoc]
  · rw [q3, p3, commonProfiles, commonProfiles, commonProfiles, List.filter_append,
      List.append_assoc]
  · intro k
    rw [q4, p4, boundProfiles, boundProfiles, boundProfiles, List.filter_append,
      List.append_assoc]

theorem scanAdds_entry (t connType : String) (st : ConnectionsScan) (c : QJsonValue) :
    ScanAdds t (if connType = t then [c.toObject] else []) st
      (onConnectionListChangedEntry connType st c) := by
  unfold onConnectionListChangedEntry ScanAdds
  by_cases ht : connType = t
  · subst ht
    simp only [if_pos rfl]
    refine ⟨?_, ?_, ?_, ?_⟩
    · by_cases h : (QJsonObject.value c.toObject "HwAddress").toString = ""
      · simp [h, QMap.value_appendAt, commonProfiles, profileKey]
      · simp [h, commonProfiles, profileKey]
    · intro k
      by_cases h : (QJsonObject.value c.toObject "HwAddress").toString = ""
      · simp [h, boundProfiles, profileKey]
      · simp only [if_neg h, QMap.value_appendAt2, boundProfiles, profileKey]
        by_cases hk : k = (QJsonObject.value c.toObject "HwAddress").toString
        · subst hk; simp [h]
        · simp [hk, Ne.symm hk]
    · by_cases h : (QJsonObject.value c.toObject "IfcName").toString = ""
      · simp [h, QMap.value_appendAt, commonProfiles, profileKey]
      · simp [h, commonProfiles, profileKey]
    · intro k
      by_cases h : (QJsonObject.value c.toObject "IfcName").toString = ""
      · simp [h, boundProfiles, profileKey]
      · simp only [if_neg h, QMap.value_appendAt2, boundProfiles, profileKey]
        by_cases hk : k = (QJsonObject.value c.toObject "IfcName").toString
        · subst hk; simp [h]
        · simp [hk, Ne.symm hk]
  · simp only [if_neg ht]
    have ht2 : ¬ t = connType := Ne.symm ht
    refine ⟨?_, ?_, ?_, ?_⟩
    · split_ifs <;> simp [QMap.value_appendAt, ht2, commonProfiles]
    · intro k
      split_ifs <;> simp [QMap.value_appendAt2, ht2, boundProfiles]
    · split_ifs <;> simp [QMap.value_appendAt, ht2, commonProfiles]
    · intro k
      split_ifs <;> simp [QMap.value_appendAt2, ht2, boundProfiles]

theorem scanAdds_list (t connType : String) (ls : List QJsonValue) :
    ∀ st : ConnectionsScan,
      ScanAdds t (if connType = t then ls.map QJsonValue.toObject else []) st
        (onConnectionListChangedList connType st ls) := by
  induction ls with
  | nil => intro st; simpa [onConnectionListChangedList] using scanAdds_refl t st
  | cons c rest ih =>
      intro st
      rw [onConnectionListChangedList]
      have h := scanAdds_trans t _ _ _ _ _ (scanAdds_entry t connType st c)
        (ih (onConnectionListChangedEntry connType st c))
      by_cases ht : connType = t
      · simpa [ht] using h
      · simpa [ht] using h

theorem scanAdds_data (t : String) (ht : t ≠ "") (data : QJsonObject) :
    ∀ st : ConnectionsScan,
      ScanAdds t (profilesOfType t data) st (onConnectionListChangedData st data) := by
  induction data with
  | nil => intro st; simpa [onConnectionListChangedData, profilesOfType] using scanAdds_refl t st
  | cons kv rest ih =>
      intro st
      obtain ⟨connType, value⟩ := kv
      rw [onConnectionListChangedData]
      have hp : profilesOfType t ((connType, value) :: rest) =
          (if connType = t then value.toArray.map QJsonValue.toObject else []) ++
            profilesOfType t rest := by
        simp [profilesOfType]
      rw [hp]
      by_cases hc : connType = ""
      · rw [if_pos hc]
        have : ¬ connType = t := by rw [hc]; exact Ne.symm ht
        rw [if_neg this]
        exact ih st
      · rw [if_neg hc]
        apply scanAdds_trans t _ _ _ _ _ _ (ih _)
        have h := scanAdds_list t connType value.toArray
          { st with connections := QMap.insert connType [] st.connections }
        exact h

theorem connections_entry (connType : String) (st : ConnectionsScan) (c : QJsonValue)
    (t : String) :
    QMap.value [] (onConnectionListChangedEntry connType st c).connections t =
      if t = connType then QMap.value [] st.connections t ++ [c.toObject]
      else QMap.value [] st.connections t := by
  unfold onConnectionListChangedEntry
  simp only [QMap.value_appendAt]

theorem connections_list (connType : String) (ls : List QJsonValue) (t : String) :
    ∀ st : ConnectionsScan,
      QMap.value [] (onConnectionListChangedList connType st ls).connections t =
        if t = connType then QMap.value [] st.connections t ++ ls.map QJsonValue.toObject
        else QMap.value [] st.connections t := by
  induction ls with
  | nil => intro st; simp [onConnectionListChangedList]
  | cons c rest ih =>
      intro st
      rw [onConnectionListChangedList, ih, connections_entry]
      by_cases h : t = connType
      · simp [h]
      · simp [h]

/-- The catalog after the scan: a non-empty type that the snapshot lists holds
the snapshot's list, any other type holds what it held. -/
theorem connections_data (t : String) (data : QJsonObject)
    (hnd : (data.map Prod.fst).Nodup) :
    ∀ st : ConnectionsScan,
      QMap.value [] (onConnectionListChangedData st data).connections t =
        if t ≠ "" ∧ t ∈ data.map Prod.fst then
          (data.value t).toArray.map QJsonValue.toObject
        else QMap.value [] st.connections t := by
  induction data with
  | nil => intro st; simp [onConnectionListChangedData]
  | cons kv rest ih =>
      intro st
      obtain ⟨connType, value⟩ := kv
      rw [List.map_cons, List.nodup_cons] at hnd
      rw [onConnectionListChangedData]
      by_cases hc : connType = ""
      · rw [if_pos hc, ih hnd.2]
        by_cases ht : t = ""
        · simp [ht]
        · have h1 : ¬ connType = t := by rw [hc]; exact Ne.symm ht
          have hm : (t ≠ "" ∧ t ∈ List.map Prod.fst ((connType, value) :: rest)) ↔
              (t ≠ "" ∧ t ∈ List.map Prod.fst rest) := by
            rw [List.map_cons, List.mem_cons]
            constructor
            · rintro ⟨a, b | b⟩
              · exact absurd b.symm h1
              · exact ⟨a, b⟩
            · rintro ⟨a, b⟩; exact ⟨a, Or.inr b⟩
          rw [if_congr hm rfl rfl]
          simp [QJsonObject.value, h1]
      · rw [if_neg hc, ih hnd.2, connections_list]
        simp only [QMap.value_insert]
        by_cases ht : t = connType
        · subst ht
          have : t ∉ rest.map Prod.fst := hnd.1
          simp [hc, this, QJsonObject.value]
        · have hm : (t ≠ "" ∧ t ∈ List.map Prod.fst ((connType, value) :: rest)) ↔
              (t ≠ "" ∧ t ∈ List.map Prod.fst rest) := by
            rw [List.map_cons, List.mem_cons]
            constructor
            · rintro ⟨a, b | b⟩
              · exact absurd b ht
              · exact ⟨a, b⟩
            · rintro ⟨a, b⟩; exact ⟨a, Or.inr b⟩
          rw [if_congr hm rfl rfl]
          simp [ht, QJsonObject.value, Ne.symm ht]

theorem forEachDevice_eq (f : NetworkDevice → NetworkDevice)
    (devs : List (Option NetworkDevice)) (h : NoNull devs) :
    forEachDevice f devs = some (devs.map (Option.map f)) := by
  induction devs with
  | nil => rfl
  | cons e rest ih =>
      have hrest : NoNull rest := fun x hx => h x (List.mem_cons_of_mem _ hx)
      cases e with
      | none => have := h none (List.mem_cons_self _ _); simp at this
      | some d => rw [forEachDevice, ih hrest]; rfl

theorem forall₂_map_of_noNull (f : NetworkDevice → NetworkDevice)
    (R : NetworkDevice → NetworkDevice → Prop) (hR : ∀ d, R d (f d))
    (devs : List (Option NetworkDevice)) (h : NoNull devs) :
    List.Forall₂ (fun e e1 => ∃ d d1, e = some d ∧ e1 = some d1 ∧ R d d1)
      devs (devs.map (Option.map f)) := by
  induction devs with
  | nil => exact List.Forall₂.nil
  | cons e rest ih =>
      have hrest : NoNull rest := fun x hx => h x (List.mem_cons_of_mem _ hx)
      cases e with
      | none => have := h none (List.mem_cons_self _ _); simp at this
      | some d => exact List.Forall₂.cons ⟨d, f d, rfl, rfl, hR d⟩ (ih hrest)

theorem filter_common_append_bound (field devKey : String) (l : List QJsonObject) :
    (commonProfiles field l ++ boundProfiles field devKey l).Perm
      (matchingProfiles field devKey l) := by
  unfold commonProfiles boundProfiles matchingProfiles
  induction l with
  | nil => simp
  | cons c rest ih =>
      by_cases h1 : profileKey field c = ""
      · simp only [List.filter_cons, h1, decide_True, if_true, ne_eq, not_true_eq_false,
          false_and, decide_False, Bool.false_eq_true, if_false, true_or, List.cons_append]
        exact List.Perm.cons c ih
      · by_cases h2 : profileKey field c = devKey
        · simp only [List.filter_cons, h1, h2, decide_False, Bool.false_eq_true, if_false,
            ne_eq, not_false_eq_true, and_self, decide_True, if_true, or_true]
          simp only [h2] at h1
          simp only [h1, decide_False, Bool.false_eq_true, if_false]
          exact List.perm_middle.trans (List.Perm.cons c ih)
        · simp only [List.filter_cons, h1, h2, decide_False, Bool.false_eq_true, if_false,
            ne_eq, and_false, or_self]
          exact ih

/-- What the device loop of `onConnectionListChanged` assigns, in terms of the
snapshot. -/
theorem assignConnections_eq (m : NetworkModel) (S : QJsonValue) (d : NetworkDevice) :
    CommonFirstAssigned S d
      (assignConnections
        (onConnectionListChangedData (connectionsStart m) (QJsonDocument.object S)) d) := by
  have hw := scanAdds_data "wired" (by decide) (QJsonDocument.object S) (connectionsStart m)
  have hl := scanAdds_data "wireless" (by decide) (QJsonDocument.object S) (connectionsStart m)
  have hh := scanAdds_data "wireless-hotspot" (by decide) (QJsonDocument.object S)
    (connectionsStart m)
  obtain ⟨_, _, w3, w4⟩ := hw
  obtain ⟨l1, l2, _, _⟩ := hl
  obtain ⟨h1, h2, _, _⟩ := hh
  constructor
  · intro ht
    unfold assignConnections
    rw [ht]
    simp only [NetworkDevice.setConnections]
    rw [w3, w4]
    simp [connectionsStart, QMap.value]
  · intro ht
    unfold assignConnections
    rw [ht]
    simp only [NetworkDevice.setConnections, NetworkDevice.setHotspotConnections]
    rw [l1, l2, h1, h2]
    simp [connectionsStart, QMap.value]

theorem assignConnections_ident (st : ConnectionsScan) (d : NetworkDevice) :
    (assignConnections st d).ident = d.ident ∧
    (assignConnections st d).realHwAdr = d.realHwAdr ∧
    (assignConnections st d).interfaceName = d.interfaceName := by
  unfold assignConnections
  cases d.type <;> exact ⟨rfl, rfl, rfl⟩

theorem onConnectionListChanged_eq (m : NetworkModel) (S : QJsonValue)
    (hnn : NoNull m.m_devices) :
    m.onConnectionListChanged S = some
      ({ m with
          m_connections :=
            (onConnectionListChangedData (connectionsStart m)
              (QJsonDocument.object S)).connections
          m_devices := m.m_devices.map (Option.map (assignConnections
            (onConnectionListChangedData (connectionsStart m) (QJsonDocument.object S)))) },
        [Effect.emit Signal.connectionListChanged]) := by
  unfold NetworkModel.onConnectionListChanged
  simp only []
  change (match forEachDevice (assignConnections
      (onConnectionListChangedData (connectionsStart m) (QJsonDocument.object S)))
      m.m_devices with
    | none => none
    | some devs => _) = _
  rw [forEachDevice_eq _ _ hnn]
  rfl

/-! ## The connection catalog: statements -/

/-- C4: on a device list without null entry `onConnectionListChanged(S)`
returns, and every held device is handed exactly the profiles of its type
whose key is empty or is its own key: a wired device the `"wired"` profiles by
`IfcName`, a wireless device the `"wireless"` profiles and, as hotspot
connections, the `"wireless-hotspot"` profiles by `HwAddress`; each such
profile as often as `S` lists it, and no profile bound to another key. -/
theorem onConnectionListChanged_assigns_matching (m : NetworkModel) (S : QJsonValue)
    (hnn : NoNull m.m_devices) :
    ∃ m1 effects, m.onConnectionListChanged S = some (m1, effects) ∧
      List.Forall₂ (fun e e1 => ∃ d d1, e = some d ∧ e1 = some d1 ∧ ConnectionsAssigned S d d1)
        m.m_devices m1.m_devices := by
  refine ⟨_, _, onConnectionListChanged_eq m S hnn, ?_⟩
  apply forall₂_map_of_noNull _ _ _ _ hnn
  intro d
  obtain ⟨a, b, c⟩ := assignConnections_ident
    (onConnectionListChangedData (connectionsStart m) (QJsonDocument.object S)) d
  obtain ⟨p, q⟩ := assignConnections_eq m S d
  refine ⟨a, b, c, ?_, ?_⟩
  · intro ht
    rw [p ht]
    exact filter_common_append_bound _ _ _
  · intro ht
    obtain ⟨q1, q2⟩ := q ht
    rw [q1, q2]
    exact ⟨filter_common_append_bound _ _ _, filter_common_append_bound _ _ _⟩

/-- C5, as the code has it: on a device list without null entry, in every
list that `onConnectionListChanged(S)` hands to a device the profiles of the
shared bucket come first and the profiles bound to the key of the device come
after them, each group in the order of the snapshot. -/
theorem onConnectionListChanged_common_first (m : NetworkModel) (S : QJsonValue)
    (hnn : NoNull m.m_devices) :
    ∃ m1 effects, m.onConnectionListChanged S = some (m1, effects) ∧
      List.Forall₂ (fun e e1 => ∃ d d1, e = some d ∧ e1 = some d1 ∧ CommonFirstAssigned S d d1)
        m.m_devices m1.m_devices := by
  refine ⟨_, _, onConnectionListChanged_eq m S hnn, ?_⟩
  apply forall₂_map_of_noNull _ _ _ _ hnn
  intro d
  exact assignConnections_eq m S d

/-- C5, counterexample: the wired device on `eth0` is handed the unbound
profile first and the profile bound to `eth0` after it; the list does not have
the bound profiles first. -/
theorem onConnectionListChanged_not_bound_first :
    ∃ m1 effects d1 rest,
      sampleModel.onConnectionListChanged sampleConnections = some (m1, effects) ∧
      m1.m_devices = some d1 :: rest ∧ d1.ptr = sampleWired.ptr ∧
      d1.connections = [sampleCommonProfile, sampleBoundProfile] ∧
      ¬ BoundFirst "IfcName" sampleWired.interfaceName d1.connections := by
  refine ⟨_, _, _, _, rfl, rfl, rfl, rfl, ?_⟩
  rintro ⟨xs, ys, h, hx, hy⟩
  change [sampleCommonProfile, sampleBoundProfile] = xs ++ ys at h
  cases xs with
  | nil =>
      have h2 : sampleBoundProfile ∈ ys := by
        rw [List.nil_append] at h
        rw [← h]
        exact List.mem_cons_of_mem _ (List.mem_cons_self _ _)
      have := hy _ h2
      revert this
      decide
  | cons a xs =>
      have ha : a = sampleCommonProfile := by
        rw [List.cons_append] at h
        exact (List.cons.inj h).1.symm
      have := (hx a (List.mem_cons_self _ _)).1
      rw [ha] at this
      exact this (by decide)

/-- C5, witness: the sample model and the snapshot with an unbound and a bound wired profile. -/
theorem onConnectionListChanged_common_first_witness :
    NoNull sampleModel.m_devices ∧
    ∃ m1 effects, sampleModel.onConnectionListChanged sampleConnections = some (m1, effects) ∧
      List.Forall₂
        (fun e e1 => ∃ d d1, e = some d ∧ e1 = some d1 ∧
          CommonFirstAssigned sampleConnections d d1)
        sampleModel.m_devices m1.m_devices :=
  ⟨by decide, onConnectionListChanged_common_first sampleModel sampleConnections (by decide)⟩

/-- C4, witness: the sample model and the snapshot with an unbound and a bound wired profile. -/
theorem onConnectionListChanged_assigns_matching_witness :
    NoNull sampleModel.m_devices ∧
    ∃ m1 effects, sampleModel.onConnectionListChanged sampleConnections = some (m1, effects) ∧
      List.Forall₂
        (fun e e1 => ∃ d d1, e = some d ∧ e1 = some d1 ∧
          ConnectionsAssigned sampleConnections d d1)
        sampleModel.m_devices m1.m_devices :=
  ⟨by decide, onConnectionListChanged_assigns_matching sampleModel sampleConnections (by decide)⟩

/-- C1, witness: the sample model and the sample devices snapshot, with the UP bit `1`. -/
theorem onDevicesChanged_deviceListChanged_count_witness :
    NoNull sampleModel.m_devices ∧
    ∃ m1 effects, sampleModel.onDevicesChanged 1 sampleDevices = some (m1, effects) ∧
      effects.countP Effect.isDeviceListChanged =
        (if (effects.any Effect.isConstruct || effects.any Effect.isDeleteLater) = true
          then 1 else 0) :=
  ⟨by decide, onDevicesChanged_deviceListChanged_count 1 sampleModel sampleDevices (by decide)⟩

/-- C2, witness: the sample model and the sample devices snapshot, with the UP bit `1`. -/
theorem onDevicesChanged_held_paths_witness :
    NoNull sampleModel.m_devices ∧ SameAddressSamePath sampleModel.m_devices ∧
    ∃ m1 effects, sampleModel.onDevicesChanged 1 sampleDevices = some (m1, effects) ∧
      (∀ p, p ∈ heldPaths m1.m_devices ↔ p ∈ acceptedPaths 1 sampleDevices) ∧
      (∀ p ∈ acceptedPaths 1 sampleDevices, p ∉ heldPaths sampleModel.m_devices →
        ∃ d, Effect.construct d ∈ effects ∧ d.path = p ∧
          d.ptr ∉ heldPtrs sampleModel.m_devices) ∧
      (∀ d, some d ∈ sampleModel.m_devices → d.path ∉ acceptedPaths 1 sampleDevices →
        d.ptr ∉ heldPtrs m1.m_devices ∧
        ∃ r, Effect.deleteLater r ∈ effects ∧ r.ptr = d.ptr ∧ r.path = d.path) :=
  ⟨by decide, by decide,
    onDevicesChanged_held_paths 1 sampleModel sampleDevices (by decide) (by decide)⟩

/-- C3, witness: the sample model and the sample devices snapshot, with the UP bit `1`. -/
theorem onDevicesChanged_retains_devices_witness :
    NoNull sampleModel.m_devices ∧ (heldPtrs sampleModel.m_devices).Nodup ∧
    (heldPaths sampleModel.m_devices).Nodup ∧
    ∃ m1 effects, sampleModel.onDevicesChanged 1 sampleDevices = some (m1, effects) ∧
      (∀ d, some d ∈ sampleModel.m_devices → d.path ∈ acceptedPaths 1 sampleDevices →
        (∃ d1, some d1 ∈ m1.m_devices ∧ d1.ptr = d.ptr ∧ d1.path = d.path ∧
          d1.type = d.type ∧
          d1.deviceInfo = latestInfo d.path d.deviceInfo (acceptedEntries 1 sampleDevices) ∧
          d1.deviceInfo ∈ acceptedEntries 1 sampleDevices ∧ entryPath d1.deviceInfo = d.path) ∧
        ∀ c, Effect.construct c ∈ effects → c.path ≠ d.path ∧ c.ptr ≠ d.ptr) ∧
      ∃ news : List Nat,
        heldPtrs m1.m_devices =
          ((live sampleModel.m_devices).filter
            (fun d => decide (d.path ∈ acceptedPaths 1 sampleDevices))).map
              NetworkDevice.ptr ++ news ∧
        ∀ q ∈ news, q ∉ heldPtrs sampleModel.m_devices :=
  ⟨by decide, by decide, by decide,
    onDevicesChanged_retains_devices 1 sampleModel sampleDevices (by decide) (by decide)
      (by decide)⟩

/-- C10, witness: the sample model and the sample devices snapshot, with the UP bit `1`. -/
theorem onDevicesChanged_preserves_keyed_witness :
    NoNull sampleModel.m_devices ∧ (heldPaths sampleModel.m_devices).Nodup ∧
    ∃ m1 effects, sampleModel.onDevicesChanged 1 sampleDevices = some (m1, effects) ∧
      NoNull m1.m_devices ∧ (heldPaths m1.m_devices).Nodup ∧
      (∀ d1 d2, some d1 ∈ m1.m_devices → some d2 ∈ m1.m_devices → d1.path = d2.path →
        d1 = d2) ∧
      ∀ d, some d ∈ m1.m_devices →
        m1.device d.path = some (some d) ∧ m1.containsDevice d.path = some true :=
  ⟨by decide, by decide,
    onDevicesChanged_preserves_keyed 1 sampleModel sampleDevices (by decide) (by decide)⟩

/-- C6, counterexample: the catalog holds a VPN profile and the snapshot lists
one profile, under the empty type.  After the call the catalog does not hold
the snapshot's list for the empty type, it still holds the VPN profile, which
the snapshot does not list, and `connectionByPath` and `connectionByUuid` still
return it. -/
theorem onConnectionListChanged_catalog_not_snapshot :
    ∃ m1 effects,
      sampleCatalogModel.onConnectionListChanged sampleUntypedConnections =
        some (m1, effects) ∧
      QMap.value [] m1.m_connections "" ≠
        profilesOfType "" (QJsonDocument.object sampleUntypedConnections) ∧
      QMap.value [] m1.m_connections "vpn" ≠
        profilesOfType "vpn" (QJsonDocument.object sampleUntypedConnections) ∧
      QMap.value [] sampleCatalogModel.m_connections "vpn" = [sampleVpnProfile] ∧
      (∀ t, sampleVpnProfile ∉
        profilesOfType t (QJsonDocument.object sampleUntypedConnections)) ∧
      m1.connectionByPath "/Settings/9" = sampleVpnProfile ∧
      m1.connectionByUuid "uuid-9" = sampleVpnProfile ∧
      sampleVpnProfile ≠ [] := by
  refine ⟨_, _, rfl, ?_, ?_, rfl, ?_, rfl, rfl, ?_⟩
  · show ¬ ([] : List QJsonObject) = [sampleCommonProfile]
    intro h; cases h
  · show ¬ [sampleVpnProfile] = ([] : List QJsonObject)
    intro h; cases h
  · intro t h
    have hmem : sampleVpnProfile ∈ [sampleCommonProfile] := by
      by_cases ht : "" = t
      · simpa [profilesOfType, sampleUntypedConnections, QJsonDocument.object,
          QJsonValue.toObject, QJsonValue.toArray, ht] using h
      · simp [profilesOfType, sampleUntypedConnections, QJsonDocument.object,
          QJsonValue.toObject, ht] at h
    have heq : sampleVpnProfile = sampleCommonProfile := List.mem_singleton.mp hmem
    have h2 := congrArg (fun o => (QJsonObject.value o "Path").toString) heq
    revert h2
    decide
  · intro h; cases h

/-- C6, as the code has it: on a device list without null entry, for a
snapshot `S` whose keys are pairwise distinct, after
`onConnectionListChanged(S)` the catalog holds, for every non-empty connection
type that `S` lists, exactly the list `S` gives for that type; the list held
for the empty type is the one held before. -/
theorem onConnectionListChanged_catalog_listed_types (m : NetworkModel) (S : QJsonValue)
    (hnn : NoNull m.m_devices) (hkeys : ((QJsonDocument.object S).map Prod.fst).Nodup) :
    ∃ m1 effects, m.onConnectionListChanged S = some (m1, effects) ∧
      (∀ t, t ≠ "" → t ∈ (QJsonDocument.object S).map Prod.fst →
        QMap.value [] m1.m_connections t =
          ((QJsonDocument.object S).value t).toArray.map QJsonValue.toObject) ∧
      QMap.value [] m1.m_connections "" = QMap.value [] m.m_connections "" := by
  refine ⟨_, _, onConnectionListChanged_eq m S hnn, ?_, ?_⟩
  · intro t ht hmem
    show QMap.value [] (onConnectionListChangedData (connectionsStart m) _).connections t = _
    rw [connections_data t _ hkeys, if_pos ⟨ht, hmem⟩]
  · show QMap.value [] (onConnectionListChangedData (connectionsStart m) _).connections "" = _
    rw [connections_data "" _ hkeys]
    simp [connectionsStart]

/-- C6, witness: the sample model and the snapshot that lists the type `"wired"`. -/
theorem onConnectionListChanged_catalog_listed_types_witness :
    NoNull sampleModel.m_devices ∧
    ((QJsonDocument.object sampleConnections).map Prod.fst).Nodup ∧
    ∃ m1 effects, sampleModel.onConnectionListChanged sampleConnections = some (m1, effects) ∧
      (∀ t, t ≠ "" → t ∈ (QJsonDocument.object sampleConnections).map Prod.fst →
        QMap.value [] m1.m_connections t =
          ((QJsonDocument.object sampleConnections).value t).toArray.map
            QJsonValue.toObject) ∧
      QMap.value [] m1.m_connections "" = QMap.value [] sampleModel.m_connections "" :=
  ⟨by decide, by decide,
    onConnectionListChanged_catalog_listed_types sampleModel sampleConnections (by decide)
      (by decide)⟩

/-! ## Connectivity: statements -/

/-- C9, counterexample: the model holds `NoConnectivity` and
`onConnectivityChanged` is called with `NoConnectivity`, a value other than
`Full`; no secondary check is requested. -/
theorem onConnectivityChanged_unchanged_no_check :
    Connectivity.NoConnectivity ≠ Connectivity.Full ∧
    (sampleOfflineModel.onConnectivityChanged Connectivity.NoConnectivity).2.countP
      Effect.isNeedCheckConnectivitySecondary ≠ 1 ∧
    (sampleOfflineModel.onConnectivityChanged Connectivity.NoConnectivity).2 = [] :=
  ⟨by decide, by decide, rfl⟩

/-- C9, as the code has it: `onConnectivityChanged` emits
`needCheckConnectivitySecondary` exactly once when it is called with a value
that is not `Full` and differs from the held connectivity, and not at all when
the value is `Full` or is the held connectivity. -/
theorem onConnectivityChanged_check_count (m : NetworkModel) (conn : Connectivity) :
    (m.onConnectivityChanged conn).2.countP Effect.isNeedCheckConnectivitySecondary =
      if conn ≠ Connectivity.Full ∧ conn ≠ m.m_Connectivity then 1 else 0 := by
  unfold NetworkModel.onConnectivityChanged
  by_cases h1 : m.m_Connectivity = conn
  · rw [if_pos h1, if_neg (by rintro ⟨_, h⟩; exact h h1.symm)]
    rfl
  · rw [if_neg h1]
    by_cases h2 : conn = Connectivity.Full
    · simp [h2, Effect.isNeedCheckConnectivitySecondary]
    · have h3 : conn ≠ m.m_Connectivity := fun h => h1 h.symm
      simp [h2, h3, Effect.isNeedCheckConnectivitySecondary]

/-! ## Active connection information -/

theorem QMap.values_insertMulti {V : Type} (key : String) (v : V) (m : QMap V) (k : String) :
    QMap.values (QMap.insertMulti key v m) k =
      if k = key then v :: QMap.values m k else QMap.values m k := by
  induction m with
  | nil =>
      by_cases h : k = key
      · simp [QMap.insertMulti, QMap.values, h]
      · simp [QMap.insertMulti, QMap.values, h, Ne.symm h]
  | cons a rest ih =>
      obtain ⟨a, w⟩ := a
      simp only [QMap.insertMulti]
      by_cases h1 : QString.lessThan key a = true ∨ a = key
      · rw [if_pos h1]
        by_cases h : k = key
        · simp [QMap.values, h]
        · simp [QMap.values, h, Ne.symm h]
      · rw [if_neg h1]
        have ha : ¬ a = key := fun h => h1 (Or.inr h)
        have hcons : ∀ l : QMap V, QMap.values ((a, w) :: l) k =
            if a = k then w :: QMap.values l k else QMap.values l k := by
          intro l
          by_cases h : a = k
          · simp [QMap.values, h]
          · simp [QMap.values, h]
        rw [hcons, hcons, ih]
        by_cases h : k = key
        · have : ¬ a = k := by rw [h]; exact ha
          simp [h, this]
          rw [h] at this
          simp [this]
        · simp [h]

theorem getLast?_cons_getD {α : Type} (c x : α) (l : List α) :
    ((c :: l).getLast?).getD x = (l.getLast?).getD c := by
  cases l with
  | nil => rfl
  | cons a t =>
      rw [List.getLast?_cons_cons]
      cases h : (a :: t).getLast? with
      | none => simp at h
      | some y => rfl

theorem activeInfo_list (p : String) (ls : List QJsonValue) :
    ∀ st : ActiveInfoScan,
      (onActiveConnInfoChangedList st ls).activeConnInfos =
        st.activeConnInfos ++ ls.map QJsonValue.toObject ∧
      QMap.values (onActiveConnInfoChangedList st ls).activeConnInfo p =
        ((ls.map QJsonValue.toObject).filter
          (fun c => decide ((c.value "Device").toString = p))).reverse ++
          QMap.values st.activeConnInfo p ∧
      QMap.value [] (onActiveConnInfoChangedList st ls).activeHotspotInfo p =
        (((ls.map QJsonValue.toObject).filter
          (fun c => decide ((c.value "ConnectionType").toString = "wireless-hotspot" ∧
            (c.value "Device").toString = p))).getLast?).getD
          (QMap.value [] st.activeHotspotInfo p) := by
  induction ls with
  | nil => intro st; simp [onActiveConnInfoChangedList]
  | cons c rest ih =>
      intro st
      rw [onActiveConnInfoChangedList]
      obtain ⟨h1, h2, h3⟩ := ih (onActiveConnInfoChangedEntry st c)
      refine ⟨?_, ?_, ?_⟩
      · rw [h1]; simp [onActiveConnInfoChangedEntry]
      · rw [h2]
        simp only [onActiveConnInfoChangedEntry, QMap.values_insertMulti, List.map_cons,
          List.filter_cons]
        by_cases hp : (QJsonObject.value c.toObject "Device").toString = p
        · simp [hp]
        · simp [hp, Ne.symm hp]
      · rw [h3]
        simp only [onActiveConnInfoChangedEntry, List.map_cons, List.filter_cons]
        by_cases ht : (QJsonObject.value c.toObject "ConnectionType").toString =
            "wireless-hotspot"
        · rw [if_pos ht, QMap.value_insert]
          by_cases hp : (QJsonObject.value c.toObject "Device").toString = p
          · simp only [ht, hp, and_self, decide_True, if_true]
            rw [getLast?_cons_getD]
          · simp [ht, hp, Ne.symm hp]
        · simp [ht]

theorem onActiveConnInfoChanged_eq (m : NetworkModel) (S : QJsonValue)
    (hnn : NoNull m.m_devices) :
    m.onActiveConnInfoChanged S = some
      ({ m with
          m_activeConnInfos :=
            (onActiveConnInfoChangedList
              { activeConnInfos := [], activeConnInfo := [], activeHotspotInfo := [] }
              (QJsonDocument.array S)).activeConnInfos
          m_devices := m.m_devices.map (Option.map (assignActiveInfo
            (onActiveConnInfoChangedList
              { activeConnInfos := [], activeConnInfo := [], activeHotspotInfo := [] }
              (QJsonDocument.array S)))) },
        [Effect.emit (Signal.activeConnInfoChanged
          (onActiveConnInfoChangedList
            { activeConnInfos := [], activeConnInfo := [], activeHotspotInfo := [] }
            (QJsonDocument.array S)).activeConnInfos)]) := by
  unfold NetworkModel.onActiveConnInfoChanged
  simp only []
  rw [forEachDevice_eq _ _ hnn]

/-- C8: on a device list without null entry `onActiveConnInfoChanged(S)`
returns, and what it hands to a held device is determined by `S` and the path
of the device: a wired or wireless device receives exactly the entries of `S`
whose `Device` is its path, and a wireless device receives as hotspot
information the last entry of `S` with `ConnectionType` `"wireless-hotspot"`
and its path as `Device`, or the empty object when `S` has none. -/
theorem onActiveConnInfoChanged_assigns_by_path (m : NetworkModel) (S : QJsonValue)
    (hnn : NoNull m.m_devices) :
    ∃ m1 effects, m.onActiveConnInfoChanged S = some (m1, effects) ∧
      List.Forall₂ (fun e e1 => ∃ d d1, e = some d ∧ e1 = some d1 ∧ ActiveInfoAssigned S d d1)
        m.m_devices m1.m_devices := by
  refine ⟨_, _, onActiveConnInfoChanged_eq m S hnn, ?_⟩
  apply forall₂_map_of_noNull _ _ _ _ hnn
  intro d
  obtain ⟨_, h2, h3⟩ := activeInfo_list d.path (QJsonDocument.array S)
    { activeConnInfos := [], activeConnInfo := [], activeHotspotInfo := [] }
  have h2' : QMap.values (onActiveConnInfoChangedList
      { activeConnInfos := [], activeConnInfo := [], activeHotspotInfo := [] }
      (QJsonDocument.array S)).activeConnInfo d.path = activeInfosFor S d.path := by
    rw [h2]; simp [activeInfosFor, activeInfoEntries, QMap.values]
  have h3' : QMap.value [] (onActiveConnInfoChangedList
      { activeConnInfos := [], activeConnInfo := [], activeHotspotInfo := [] }
      (QJsonDocument.array S)).activeHotspotInfo d.path = hotspotInfoFor S d.path := by
    rw [h3]; rfl
  refine ⟨?_, ?_, ?_⟩
  · unfold assignActiveInfo
    cases d.type <;> rfl
  · intro ht
    unfold assignActiveInfo
    rw [ht]
    exact h2'
  · intro ht
    unfold assignActiveInfo
    rw [ht]
    exact ⟨h2', h3'⟩

/-- C8, witness: the sample model and a snapshot with a plain and a hotspot entry. -/
theorem onActiveConnInfoChanged_assigns_by_path_witness :
    NoNull sampleModel.m_devices ∧
    ∃ m1 effects, sampleModel.onActiveConnInfoChanged sampleActiveInfo = some (m1, effects) ∧
      List.Forall₂
        (fun e e1 => ∃ d d1, e = some d ∧ e1 = some d1 ∧ ActiveInfoAssigned sampleActiveInfo d d1)
        sampleModel.m_devices m1.m_devices :=
  ⟨by decide, onActiveConnInfoChanged_assigns_by_path sampleModel sampleActiveInfo (by decide)⟩

/-! ## The order of the keys of a QMap -/

theorem charsLessThan_irrefl (a : List Char) : QString.charsLessThan a a = false := by
  induction a with
  | nil => rfl
  | cons x xs ih => simp [QString.charsLessThan, ih]

theorem charsLessThan_trans (a : List Char) :
    ∀ b c, QString.charsLessThan a b = true → QString.charsLessThan b c = true →
      QString.charsLessThan a c = true := by
  induction a with
  | nil =>
      intro b c h1 h2
      cases b with
      | nil => simp [QString.charsLessThan] at h1
      | cons y ys =>
          cases c with
          | nil => simp [QString.charsLessThan] at h2
          | cons z zs => simp [QString.charsLessThan]
  | cons x xs ih =>
      intro b c h1 h2
      cases b with
      | nil => simp [QString.charsLessThan] at h1
      | cons y ys =>
          cases c with
          | nil => simp [QString.charsLessThan] at h2
          | cons z zs =>
              simp only [QString.charsLessThan] at h1 h2 ⊢
              by_cases hxy : x.toNat < y.toNat
              · by_cases hyz : y.toNat < z.toNat
                · rw [if_pos (lt_trans hxy hyz)]
                · rw [if_neg hyz] at h2
                  by_cases hzy : z.toNat < y.toNat
                  · rw [if_pos hzy] at h2; cases h2
                  · have : y.toNat = z.toNat := by omega
                    rw [if_pos (by omega)]
              · rw [if_neg hxy] at h1
                by_cases hyx : y.toNat < x.toNat
                · rw [if_pos hyx] at h1; cases h1
                · rw [if_neg hyx] at h1
                  have hxy2 : x.toNat = y.toNat := by omega
                  by_cases hyz : y.toNat < z.toNat
                  · rw [if_pos (by omega)]
                  · rw [if_neg hyz] at h2
                    by_cases hzy : z.toNat < y.toNat
                    · rw [if_pos hzy] at h2; cases h2
                    · rw [if_neg hzy] at h2
                      rw [if_neg (by omega), if_neg (by omega)]
                      exact ih ys zs h1 h2

theorem charsLessThan_total (a : List Char) :
    ∀ b, QString.charsLessThan a b = false → a ≠ b → QString.charsLessThan b a = true := by
  induction a with
  | nil =>
      intro b h1 h2
      cases b with
      | nil => exact absurd rfl h2
      | cons y ys => simp [QString.charsLessThan] at h1
  | cons x xs ih =>
      intro b h1 h2
      cases b with
      | nil => simp [QString.charsLessThan]
      | cons y ys =>
          simp only [QString.charsLessThan] at h1 ⊢
          by_cases hxy : x.toNat < y.toNat
          · rw [if_pos hxy] at h1; cases h1
          · rw [if_neg hxy] at h1
            by_cases hyx : y.toNat < x.toNat
            · rw [if_pos hyx]
            · rw [if_neg hyx] at h1
              rw [if_neg hyx, if_neg hxy]
              have hxy2 : x = y := by
                apply Char.ext
                apply UInt32.ext
                have : x.toNat = y.toNat := by omega
                exact this
              apply ih ys h1
              intro hh
              apply h2
              rw [hxy2, hh]

theorem QString.lessThan_irrefl (a : String) : QString.lessThan a a = false :=
  charsLessThan_irrefl a.data

theorem QString.lessThan_trans (a b c : String) (h1 : QString.lessThan a b = true)
    (h2 : QString.lessThan b c = true) : QString.lessThan a c = true :=
  charsLessThan_trans a.data b.data c.data h1 h2

theorem QString.lessThan_total (a b : String) (h1 : QString.lessThan a b = false)
    (h2 : a ≠ b) : QString.lessThan b a = true :=
  charsLessThan_total a.data b.data h1 (fun h => h2 (String.ext h))

theorem QMap.mem_keys_insert {V : Type} (key : String) (v : V) (m : QMap V) :
    ∀ x ∈ (QMap.insert key v m).map Prod.fst, x = key ∨ x ∈ m.map Prod.fst := by
  induction m with
  | nil => intro x hx; simp [QMap.insert] at hx; exact Or.inl hx
  | cons a rest ih =>
      obtain ⟨a, w⟩ := a
      intro x hx
      simp only [QMap.insert] at hx
      split_ifs at hx with h1 h2
      · simp only [List.map_cons, List.mem_cons] at hx ⊢
        tauto
      · simp only [List.map_cons, List.mem_cons] at hx ⊢
        tauto
      · simp only [List.map_cons, List.mem_cons] at hx ⊢
        rcases hx with hx | hx
        · exact Or.inr (Or.inl hx)
        · rcases ih x hx with h | h
          · exact Or.inl h
          · exact Or.inr (Or.inr h)

theorem QMap.sorted_insert {V : Type} (key : String) (v : V) (m : QMap V)
    (h : QMap.Sorted m) : QMap.Sorted (QMap.insert key v m) := by
  induction m with
  | nil => simp [QMap.insert, QMap.Sorted]
  | cons a rest ih =>
      obtain ⟨a, w⟩ := a
      unfold QMap.Sorted at h ih ⊢
      rw [List.map_cons, List.pairwise_cons] at h
      simp only [QMap.insert]
      split_ifs with h1 h2
      · simp only [List.map_cons, List.pairwise_cons]
        refine ⟨?_, h.1, h.2⟩
        intro x hx
        rcases List.mem_cons.mp hx with hx | hx
        · rw [hx]; exact h1
        · exact QString.lessThan_trans _ _ _ h1 (h.1 x hx)
      · simp only [List.map_cons, List.pairwise_cons]
        subst h2
        exact ⟨h.1, h.2⟩
      · simp only [List.map_cons, List.pairwise_cons]
        refine ⟨?_, ih h.2⟩
        intro x hx
        rcases QMap.mem_keys_insert key v rest x hx with hx | hx
        · rw [hx]
          exact QString.lessThan_total key a (by simpa using h1) (fun hh => h2 hh.symm)
        · exact h.1 x hx

theorem QMap.nodup_of_sorted {V : Type} (m : QMap V) (h : QMap.Sorted m) :
    (m.map Prod.fst).Nodup := by
  unfold QMap.Sorted at h
  exact List.Pairwise.imp
    (fun {a b} hab heq => by rw [heq, QString.lessThan_irrefl] at hab; cases hab) h

theorem QMap.sorted_buildMap (pairs : List (String × QJsonObject)) :
    ∀ m : QMap (List QJsonObject), QMap.Sorted m → QMap.Sorted (buildMap pairs m) := by
  induction pairs with
  | nil => intro m h; exact h
  | cons a rest ih =>
      intro m h
      obtain ⟨p, info⟩ := a
      rw [buildMap]
      exact ih _ (QMap.sorted_insert _ _ _ h)

theorem QMap.value_buildMap (pairs : List (String × QJsonObject)) (p : String) :
    ∀ m : QMap (List QJsonObject),
      QMap.value [] (buildMap pairs m) p =
        QMap.value [] m p ++ (pairs.filter (fun kv => decide (kv.1 = p))).map Prod.snd := by
  induction pairs with
  | nil => intro m; simp [buildMap]
  | cons a rest ih =>
      intro m
      obtain ⟨q, info⟩ := a
      rw [buildMap, ih, QMap.value_appendAt]
      by_cases h : p = q
      · subst h; simp
      · simp [h, Ne.symm h]

theorem buildMap_append (a b : List (String × QJsonObject)) :
    ∀ m : QMap (List QJsonObject), buildMap (a ++ b) m = buildMap b (buildMap a m) := by
  induction a with
  | nil => intro m; rfl
  | cons x rest ih =>
      intro m
      obtain ⟨p, info⟩ := x
      rw [List.cons_append, buildMap, buildMap, ih]

theorem QMap.mem_keys_of_value_ne {V : Type} (dflt : V) (m : QMap V) (k : String)
    (h : QMap.value dflt m k ≠ dflt) : k ∈ m.map Prod.fst := by
  induction m with
  | nil => exact absurd rfl h
  | cons a rest ih =>
      obtain ⟨a, w⟩ := a
      simp only [QMap.value] at h
      by_cases ha : a = k
      · simp [ha]
      · rw [if_neg ha] at h
        exact List.mem_cons_of_mem _ (ih h)

/-! ## The scan of an active-connections snapshot -/

theorem namedBy_cons (info : QJsonObject) (item : QJsonValue) (rest : List QJsonValue) :
    namedBy info (item :: rest) =
      (if item.toString = "" then [] else [(item.toString, info)]) ++ namedBy info rest := by
  unfold namedBy
  by_cases h : item.toString = ""
  · simp [h]
  · simp [h]

theorem kept_setDeviceStatus_map (ptr : Nat) (s : DeviceStatus) (ds : List NetworkDevice) :
    (ds.map (fun x => if x.ptr = ptr then x.setDeviceStatus s else x)).map NetworkDevice.kept =
      ds.map NetworkDevice.kept := by
  rw [List.map_map]
  apply List.map_congr_left
  intro x _
  simp only [Function.comp]
  split_ifs <;> rfl

theorem onActiveConnectionsChangedItem_step (info : QJsonObject) (st : ActiveConnsScan)
    (item : QJsonValue) (hnn : NoNull st.devices) :
    ∃ st1, onActiveConnectionsChangedItem info st item = some st1 ∧ NoNull st1.devices ∧
      (live st1.devices).map NetworkDevice.kept = (live st.devices).map NetworkDevice.kept ∧
      st1.deviceActiveConnsMap =
        buildMap (if item.toString = "" then [] else [(item.toString, info)])
          st.deviceActiveConnsMap := by
  unfold onActiveConnectionsChangedItem
  by_cases hp : item.toString = ""
  · simp only [if_pos hp]
    exact ⟨st, rfl, hnn, rfl, rfl⟩
  · simp only [if_neg hp]
    rcases deviceIn_of_noNull st.devices item.toString hnn with ⟨h1, _⟩ | ⟨d, h1, _, _⟩
    · rw [h1]
      exact ⟨_, rfl, hnn, rfl, rfl⟩
    · rw [h1]
      simp only []
      split_ifs with hs
      · refine ⟨_, rfl, noNull_updateObject _ _ _ hnn, ?_, rfl⟩
        show (live (updateObject _ _ _)).map _ = _
        rw [live_updateObject, kept_setDeviceStatus_map]
      · exact ⟨_, rfl, hnn, rfl, rfl⟩

theorem onActiveConnectionsChangedItems_steps (info : QJsonObject) (items : List QJsonValue) :
    ∀ st : ActiveConnsScan, NoNull st.devices →
      ∃ st1, onActiveConnectionsChangedItems info st items = some st1 ∧ NoNull st1.devices ∧
        (live st1.devices).map NetworkDevice.kept = (live st.devices).map NetworkDevice.kept ∧
        st1.deviceActiveConnsMap = buildMap (namedBy info items) st.deviceActiveConnsMap := by
  induction items with
  | nil => intro st hnn; exact ⟨st, rfl, hnn, rfl, rfl⟩
  | cons item rest ih =>
      intro st hnn
      obtain ⟨st1, h1, h2, h3, h4⟩ := onActiveConnectionsChangedItem_step info st item hnn
      obtain ⟨st2, k1, k2, k3, k4⟩ := ih st1 h2
      refine ⟨st2, ?_, k2, by rw [k3, h3], ?_⟩
      · rw [onActiveConnectionsChangedItems, h1]
        exact k1
      · rw [k4, h4, namedBy_cons, buildMap_append]

theorem onActiveConnectionsChangedData_steps (data : QJsonObject) :
    ∀ st : ActiveConnsScan, NoNull st.devices →
      ∃ st1, onActiveConnectionsChangedData st data = some st1 ∧ NoNull st1.devices ∧
        (live st1.devices).map NetworkDevice.kept = (live st.devices).map NetworkDevice.kept ∧
        st1.deviceActiveConnsMap = buildMap (namedPairs data) st.deviceActiveConnsMap := by
  induction data with
  | nil => intro st hnn; exact ⟨st, rfl, hnn, rfl, rfl⟩
  | cons kv rest ih =>
      intro st hnn
      obtain ⟨key, value⟩ := kv
      have hn : namedPairs ((key, value) :: rest) =
          namedBy value.toObject (value.toObject.value "Devices").toArray ++ namedPairs rest := by
        simp [namedPairs]
      rw [onActiveConnectionsChangedData, hn, buildMap_append]
      by_cases he : value.toObject.isEmpty = true
      · simp only [he, if_true]
        have hnil : value.toObject = [] := List.isEmpty_iff.mp he
        obtain ⟨st1, k1, k2, k3, k4⟩ := ih st hnn
        refine ⟨st1, k1, k2, k3, ?_⟩
        rw [k4, hnil]
        rfl
      · simp only [he]
        obtain ⟨st1, h1, h2, h3, h4⟩ := onActiveConnectionsChangedItems_steps value.toObject
          (value.toObject.value "Devices").toArray
          { st with activeConns := st.activeConns ++ [value.toObject] } hnn
        obtain ⟨st2, k1, k2, k3, k4⟩ := ih st1 h2
        refine ⟨st2, ?_, k2, by rw [k3, h3], ?_⟩
        · simp only [Bool.false_eq_true, if_false, h1]
          exact k1
        · rw [k4, h4]

theorem activeConnectionsFor_eq (S : QJsonValue) (p : String) (hp : p ≠ "") :
    activeConnectionsFor S p =
      ((namedPairs (QJsonDocument.object S)).filter (fun kv => decide (kv.1 = p))).map
        Prod.snd := by
  unfold activeConnectionsFor namedPairs
  induction QJsonDocument.object S with
  | nil => rfl
  | cons kv rest ih =>
      simp only [List.flatMap_cons, List.filter_append, List.map_append, ih]
      congr 1
      unfold namedBy
      induction (QJsonObject.value kv.2.toObject "Devices").toArray with
      | nil => rfl
      | cons item items ih2 =>
          by_cases h1 : item.toString = p
          · have h2 : item.toString ≠ "" := by rw [h1]; exact hp
            simp [List.filter_cons, h1, hp] at ih2 ⊢
            exact ih2
          · by_cases h2 : item.toString = ""
            · simp [List.filter_cons, h2, Ne.symm hp] at ih2 ⊢
              exact ih2
            · simp [List.filter_cons, h1, h2] at ih2 ⊢
              exact ih2

theorem live_map_option (g : NetworkDevice → NetworkDevice)
    (devs : List (Option NetworkDevice)) :
    live (devs.map (Option.map g)) = (live devs).map g := by
  induction devs with
  | nil => rfl
  | cons e rest ih =>
      cases e with
      | none => simpa [live] using ih
      | some d => simpa [live] using ih

theorem noNull_map_option (g : NetworkDevice → NetworkDevice)
    (devs : List (Option NetworkDevice)) (h : NoNull devs) :
    NoNull (devs.map (Option.map g)) := by
  intro e he
  obtain ⟨a, ha, rfl⟩ := List.mem_map.mp he
  have := h a ha
  cases a with
  | none => simp at this
  | some x => rfl

theorem ident_of_kept_eq (a b : List (Option NetworkDevice))
    (h : (live a).map NetworkDevice.kept = (live b).map NetworkDevice.kept) :
    (live a).map NetworkDevice.ident = (live b).map NetworkDevice.ident := by
  have := congrArg (List.map Prod.fst) h
  simpa [List.map_map, Function.comp, NetworkDevice.kept] using this

theorem sameAddressSamePath_of_ident_eq (a b : List (Option NetworkDevice))
    (h : (live a).map NetworkDevice.ident = (live b).map NetworkDevice.ident)
    (hb : SameAddressSamePath b) : SameAddressSamePath a := by
  intro x hx y hy hxy
  have hx2 : x.ident ∈ (live b).map NetworkDevice.ident := by
    rw [← h]; exact List.mem_map_of_mem _ hx
  have hy2 : y.ident ∈ (live b).map NetworkDevice.ident := by
    rw [← h]; exact List.mem_map_of_mem _ hy
  obtain ⟨x1, hx1, ex⟩ := List.mem_map.mp hx2
  obtain ⟨y1, hy1, ey⟩ := List.mem_map.mp hy2
  have p1 : x1.ptr = x.ptr := congrArg (fun i => i.1) ex
  have p2 : y1.ptr = y.ptr := congrArg (fun i => i.1) ey
  have q1 : x1.path = x.path := congrArg (fun i => i.2.1) ex
  have q2 : y1.path = y.path := congrArg (fun i => i.2.1) ey
  rw [← q1, ← q2]
  exact hb x1 hx1 y1 hy1 (by rw [p1, p2, hxy])

theorem assignActiveConnections_ident (conns : List QJsonObject) (d : NetworkDevice) :
    (assignActiveConnections conns d).ident = d.ident := by
  unfold assignActiveConnections
  cases d.type <;> rfl

theorem assignStep_ident_map (k : String) (v : List QJsonObject) (ds : List NetworkDevice) :
    (ds.map (fun x => if x.path = k then assignActiveConnections v x else x)).map
      NetworkDevice.ident = ds.map NetworkDevice.ident := by
  rw [List.map_map]
  apply List.map_congr_left
  intro x _
  simp only [Function.comp]
  split_ifs
  · exact assignActiveConnections_ident v x
  · rfl

theorem updateObject_eq_map_path (f : NetworkDevice → NetworkDevice)
    (devs : List (Option NetworkDevice)) (hnp : (heldPaths devs).Nodup)
    (hsa : SameAddressSamePath devs) (dev : NetworkDevice) (hd : some dev ∈ devs) :
    updateObject dev.ptr f devs =
      devs.map (Option.map (fun x => if x.path = dev.path then f x else x)) := by
  unfold updateObject
  apply List.map_congr_left
  intro e he
  cases e with
  | none => rfl
  | some x =>
      have hx : x ∈ live devs := (mem_live _ _).mpr he
      have hdv : dev ∈ live devs := (mem_live _ _).mpr hd
      by_cases h : x.ptr = dev.ptr
      · have : x.path = dev.path := hsa x hx dev hdv h
        simp [h, this]
      · have : ¬ x.path = dev.path := by
          intro hp
          rw [heldPaths_eq] at hnp
          have := List.inj_on_of_nodup_map hnp hx hdv hp
          exact h (by rw [this])
        simp [h, this]

theorem assignFromMap_cons (kv : String × List QJsonObject) (rest : QMap (List QJsonObject))
    (d : NetworkDevice) :
    assignFromMap (kv :: rest) d =
      assignFromMap rest (if d.path = kv.1 then assignActiveConnections kv.2 d else d) := rfl

/-- The second loop of `onActiveConnectionsChanged` on a device list without
null entry, with pairwise distinct paths, in which equal addresses denote one
object: every device is updated by the items of the map that have its path. -/
theorem onActiveConnectionsChangedAssign_eq (items : QMap (List QJsonObject)) :
    ∀ devs : List (Option NetworkDevice), NoNull devs → (heldPaths devs).Nodup →
      SameAddressSamePath devs →
      onActiveConnectionsChangedAssign devs items =
        some (devs.map (Option.map (assignFromMap items))) := by
  induction items with
  | nil =>
      intro devs _ _ _
      rw [onActiveConnectionsChangedAssign]
      congr 1
      have : (Option.map (assignFromMap ([] : QMap (List QJsonObject)))) = id := by
        funext e; cases e <;> rfl
      rw [this, List.map_id]
  | cons kv rest ih =>
      intro devs hnn hnp hsa
      obtain ⟨k, v⟩ := kv
      have hstep : ∀ devs1 : List (Option NetworkDevice),
          devs1 = devs.map
            (Option.map (fun x => if x.path = k then assignActiveConnections v x else x)) →
          onActiveConnectionsChangedAssign devs1 rest =
            some (devs.map (Option.map (assignFromMap ((k, v) :: rest)))) := by
        intro devs1 h1
        have hid : (live devs1).map NetworkDevice.ident = (live devs).map NetworkDevice.ident := by
          rw [h1, live_map_option, assignStep_ident_map]
        have e1 : NoNull devs1 := by rw [h1]; exact noNull_map_option _ _ hnn
        have e2 : (heldPaths devs1).Nodup := by rw [heldPaths_of_ident_eq _ _ hid]; exact hnp
        have e3 : SameAddressSamePath devs1 := sameAddressSamePath_of_ident_eq _ _ hid hsa
        rw [ih devs1 e1 e2 e3, h1, List.map_map]
        congr 1
        apply List.map_congr_left
        intro e _
        cases e with
        | none => rfl
        | some x => rfl
      rw [onActiveConnectionsChangedAssign]
      rcases deviceIn_of_noNull devs k hnn with ⟨h1, h2⟩ | ⟨dev, h1, h2, h3⟩
      · rw [h1]
        apply hstep
        symm
        have : devs.map (Option.map (fun x =>
            if x.path = k then assignActiveConnections v x else x)) = devs.map id := by
          apply List.map_congr_left
          intro e he
          cases e with
          | none => rfl
          | some x =>
              have : ¬ x.path = k := by
                intro hp
                apply h2
                rw [heldPaths_eq, ← hp]
                exact List.mem_map_of_mem _ ((mem_live _ _).mpr he)
              simp [this]
        rw [this, List.map_id]
      · rw [h1]
        apply hstep
        rw [updateObject_eq_map_path _ devs hnp hsa dev h2, h3]

theorem assignFromMap_not_mem (items : QMap (List QJsonObject)) :
    ∀ d : NetworkDevice, d.path ∉ items.map Prod.fst → assignFromMap items d = d := by
  induction items with
  | nil => intro d _; rfl
  | cons kv rest ih =>
      intro d h
      rw [List.map_cons, List.mem_cons, not_or] at h
      rw [assignFromMap_cons, if_neg h.1]
      exact ih d h.2

theorem assignFromMap_ident (items : QMap (List QJsonObject)) :
    ∀ d : NetworkDevice, (assignFromMap items d).ident = d.ident := by
  induction items with
  | nil => intro d; rfl
  | cons kv rest ih =>
      intro d
      rw [assignFromMap_cons, ih]
      split_ifs
      · exact assignActiveConnections_ident _ _
      · rfl

theorem assignFromMap_value (items : QMap (List QJsonObject)) :
    ∀ d : NetworkDevice, (items.map Prod.fst).Nodup → d.type ≠ DeviceType.None →
      d.path ∈ items.map Prod.fst →
      (assignFromMap items d).activeConnections = QMap.value [] items d.path := by
  induction items with
  | nil => intro d _ _ h; simp at h
  | cons kv rest ih =>
      intro d hnd ht hmem
      obtain ⟨k, v⟩ := kv
      rw [List.map_cons, List.nodup_cons] at hnd
      rw [assignFromMap_cons]
      by_cases hk : d.path = k
      · have hpath : (assignActiveConnections v d).path = d.path :=
          congrArg (fun i => i.2.1) (assignActiveConnections_ident v d)
        rw [if_pos hk, assignFromMap_not_mem]
        · simp only [QMap.value, if_pos hk.symm]
          unfold assignActiveConnections
          cases hty : d.type with
          | None => exact absurd hty ht
          | Wired => rfl
          | Wireless => rfl
        · rw [hpath, hk]; exact hnd.1
      · rw [if_neg hk]
        have hmem2 : d.path ∈ rest.map Prod.fst := by
          rw [List.map_cons, List.mem_cons] at hmem
          rcases hmem with h | h
          · exact absurd h hk
          · exact h
        rw [ih d hnd.2 ht hmem2]
        simp only [QMap.value]
        rw [if_neg (fun h => hk h.symm)]

theorem forall₂_of_map_eq {α β : Type} (f : α → β) :
    ∀ l1 l2 : List α, l1.map f = l2.map f → List.Forall₂ (fun a b => f b = f a) l1 l2 := by
  intro l1
  induction l1 with
  | nil =>
      intro l2 h
      cases l2 with
      | nil => exact List.Forall₂.nil
      | cons b t => simp at h
  | cons a t ih =>
      intro l2 h
      cases l2 with
      | nil => simp at h
      | cons b t2 =>
          rw [List.map_cons, List.map_cons] at h
          exact List.Forall₂.cons (List.cons.inj h).1.symm (ih t2 (List.cons.inj h).2)

theorem forall₂_map_right {α : Type} (R Q : α → α → Prop) (g : α → α)
    (h : ∀ a b, R a b → Q a (g b)) :
    ∀ l1 l2 : List α, List.Forall₂ R l1 l2 → List.Forall₂ Q l1 (l2.map g) := by
  intro l1 l2 hf
  induction hf with
  | nil => exact List.Forall₂.nil
  | cons hab _ ih => exact List.Forall₂.cons (h _ _ hab) ih

/-! ## Active connections: statements -/

/-- C7, counterexample: the model holds a wired device with an active
connection and a wired device with the empty path; the snapshot holds one
entry, whose `Devices` array contains the empty path.  After the call the
first device, which no entry names, still holds its active connection, and
the second device, whose path the entry's `Devices` array contains, holds
none. -/
theorem onActiveConnectionsChanged_not_exact :
    ∃ m1 effects a1 b1,
      sampleActiveModel.onActiveConnectionsChanged sampleActiveConnectionsEmptyPath =
        some (m1, effects) ∧
      m1.m_devices = [some a1, some b1] ∧
      a1.ptr = sampleWiredActive.ptr ∧ a1.type = DeviceType.Wired ∧
      activeConnectionsFor sampleActiveConnectionsEmptyPath sampleWiredActive.path = [] ∧
      a1.activeConnections ≠ [] ∧
      b1.ptr = samplePathless.ptr ∧ b1.type = DeviceType.Wired ∧
      QJsonValue.string samplePathless.path ∈
        (sampleActiveOnEmptyPath.value "Devices").toArray ∧
      sampleActiveOnEmptyPath ∉ b1.activeConnections := by
  refine ⟨_, _, _, _, rfl, rfl, rfl, rfl, rfl, ?_, rfl, rfl, List.mem_singleton.mpr rfl, ?_⟩
  · show ¬ [sampleActiveConnection] = ([] : List QJsonObject)
    intro h; cases h
  · show sampleActiveOnEmptyPath ∉ ([] : List QJsonObject)
    exact List.not_mem_nil _

/-- C7, as the code has it: on a device list without null entry, with pairwise
distinct paths, in which equal addresses denote one object,
`onActiveConnectionsChanged(S)` returns, every device stays the same object,
and every wired or wireless device whose path is not empty and is named in the
`Devices` array of an entry of `S` has as its active-connection list exactly
the entries of `S` whose `Devices` array contains its path, in snapshot order. -/
theorem onActiveConnectionsChanged_named_devices (m : NetworkModel) (S : QJsonValue)
    (hnn : NoNull m.m_devices) (hnp : (heldPaths m.m_devices).Nodup)
    (hsa : SameAddressSamePath m.m_devices) :
    ∃ m1 effects, m.onActiveConnectionsChanged S = some (m1, effects) ∧
      NoNull m1.m_devices ∧
      List.Forall₂ (ActiveConnectionsAssigned S) (live m.m_devices) (live m1.m_devices) := by
  obtain ⟨st, h1, h2, h3, h4⟩ := onActiveConnectionsChangedData_steps (QJsonDocument.object S)
    { devices := m.m_devices, activeConns := [], deviceActiveConnsMap := [] } hnn
  have h3' : (live st.devices).map NetworkDevice.kept =
      (live m.m_devices).map NetworkDevice.kept := h3
  have h4' : st.deviceActiveConnsMap = buildMap (namedPairs (QJsonDocument.object S)) [] := h4
  have hid := ident_of_kept_eq _ _ h3'
  have e2 : (heldPaths st.devices).Nodup := by rw [heldPaths_of_ident_eq _ _ hid]; exact hnp
  have e3 : SameAddressSamePath st.devices := sameAddressSamePath_of_ident_eq _ _ hid hsa
  have hassign := onActiveConnectionsChangedAssign_eq st.deviceActiveConnsMap st.devices h2 e2 e3
  have hsorted : QMap.Sorted st.deviceActiveConnsMap := by
    rw [h4']
    exact QMap.sorted_buildMap _ _ (by simp [QMap.Sorted])
  have hkeys := QMap.nodup_of_sorted _ hsorted
  refine ⟨{ m with m_activeConns := st.activeConns
                   m_devices := st.devices.map (Option.map
                     (assignFromMap st.deviceActiveConnsMap)) },
    [Effect.emit (Signal.activeConnectionsChanged st.activeConns)], ?_, ?_, ?_⟩
  · unfold NetworkModel.onActiveConnectionsChanged
    simp only []
    rw [h1]
    simp only []
    rw [hassign]
  · exact noNull_map_option _ _ h2
  · show List.Forall₂ _ _ (live (st.devices.map _))
    rw [live_map_option]
    apply forall₂_map_right (fun a b => b.kept = a.kept) _ _ _ _ _
      (forall₂_of_map_eq NetworkDevice.kept _ _ h3'.symm)
    intro a b hab
    have hidab : b.ident = a.ident := congrArg Prod.fst hab
    have hpath : b.path = a.path := congrArg (fun i => i.2.1) hidab
    have htype : b.type = a.type := congrArg (fun i => i.2.2) hidab
    refine ⟨by rw [assignFromMap_ident, hidab], ?_⟩
    intro ht hp hne
    have hval : QMap.value [] st.deviceActiveConnsMap a.path = activeConnectionsFor S a.path := by
      rw [h4', QMap.value_buildMap, activeConnectionsFor_eq S a.path hp]
      rfl
    have hmem : b.path ∈ st.deviceActiveConnsMap.map Prod.fst := by
      rw [hpath]
      apply QMap.mem_keys_of_value_ne []
      rw [hval]
      exact hne
    rw [assignFromMap_value _ b hkeys (by rw [htype]; exact ht) hmem, hpath, hval]

/-- C7, witness: the sample model and a snapshot that names the wired device. -/
theorem onActiveConnectionsChanged_named_devices_witness :
    NoNull sampleModel.m_devices ∧ (heldPaths sampleModel.m_devices).Nodup ∧
    SameAddressSamePath sampleModel.m_devices ∧
    ∃ m1 effects,
      sampleModel.onActiveConnectionsChanged sampleActiveConnections = some (m1, effects) ∧
      NoNull m1.m_devices ∧
      List.Forall₂ (ActiveConnectionsAssigned sampleActiveConnections)
        (live sampleModel.m_devices) (live m1.m_devices) :=
  ⟨by decide, by decide, by decide,
    onActiveConnectionsChanged_named_devices sampleModel sampleActiveConnections (by decide)
      (by decide) (by decide)⟩

/-! ## The registry invariant -/

theorem registryInvariant_nil : RegistryInvariant [] :=
  ⟨fun _ h => by simp at h, by simp [heldPtrs], by simp [heldPaths]⟩

theorem registryInvariant_sameAddress (devs : List (Option NetworkDevice))
    (h : RegistryInvariant devs) : SameAddressSamePath devs :=
  sameAddressSamePath_of_nodup devs h.2.1

theorem registryInvariant_of_ident_eq (a b : List (Option NetworkDevice)) (ha : NoNull a)
    (h : (live a).map NetworkDevice.ident = (live b).map NetworkDevice.ident)
    (hb : RegistryInvariant b) : RegistryInvariant a :=
  ⟨ha, by rw [heldPtrs_of_ident_eq _ _ h]; exact hb.2.1,
    by rw [heldPaths_of_ident_eq _ _ h]; exact hb.2.2⟩

theorem ident_map_option (g : NetworkDevice → NetworkDevice) (hg : ∀ d, (g d).ident = d.ident)
    (devs : List (Option NetworkDevice)) :
    (live (devs.map (Option.map g))).map NetworkDevice.ident =
      (live devs).map NetworkDevice.ident := by
  rw [live_map_option, List.map_map]
  apply List.map_congr_left
  intro d _
  exact hg d

/-- The registry invariant is preserved by `onDevicesChanged`. -/
theorem onDevicesChanged_registryInvariant (flagUp : Nat) (m : NetworkModel) (S : QJsonValue)
    (h : RegistryInvariant m.m_devices) :
    ∃ m1 effects, m.onDevicesChanged flagUp S = some (m1, effects) ∧
      RegistryInvariant m1.m_devices := by
  obtain ⟨hnn, hnd, hnp⟩ := h
  obtain ⟨st, hsteps, hnn2, heq⟩ := onDevicesChanged_eq flagUp m S hnn
  have hsub := removeAll_sublist
    ((live st.model.m_devices).filter (fun d => decide (d.path ∉ st.devSet))) st.model.m_devices
  refine ⟨_, _, heq, noNull_sublist _ _ hsub hnn2, ?_, ?_⟩
  · exact List.Nodup.sublist (List.Sublist.filterMap _ hsub)
      (scanSteps_nodup_ptrs flagUp _ _ _ hsteps hnd)
  · exact List.Nodup.sublist (List.Sublist.filterMap _ hsub)
      (scanSteps_nodup_paths flagUp _ _ _ hsteps hnp)

/-- The registry invariant is preserved by `onConnectionListChanged`. -/
theorem onConnectionListChanged_registryInvariant (m : NetworkModel) (S : QJsonValue)
    (h : RegistryInvariant m.m_devices) :
    ∃ m1 effects, m.onConnectionListChanged S = some (m1, effects) ∧
      RegistryInvariant m1.m_devices := by
  refine ⟨_, _, onConnectionListChanged_eq m S h.1, ?_⟩
  exact registryInvariant_of_ident_eq _ _ (noNull_map_option _ _ h.1)
    (ident_map_option _ (fun d => (assignConnections_ident _ d).1) _) h

theorem assignActiveInfo_ident (st : ActiveInfoScan) (d : NetworkDevice) :
    (assignActiveInfo st d).ident = d.ident := by
  unfold assignActiveInfo
  cases d.type <;> rfl

/-- The registry invariant is preserved by `onActiveConnInfoChanged`. -/
theorem onActiveConnInfoChanged_registryInvariant (m : NetworkModel) (S : QJsonValue)
    (h : RegistryInvariant m.m_devices) :
    ∃ m1 effects, m.onActiveConnInfoChanged S = some (m1, effects) ∧
      RegistryInvariant m1.m_devices := by
  refine ⟨_, _, onActiveConnInfoChanged_eq m S h.1, ?_⟩
  exact registryInvariant_of_ident_eq _ _ (noNull_map_option _ _ h.1)
    (ident_map_option _ (assignActiveInfo_ident _) _) h

/-- The registry invariant is preserved by `onActiveConnectionsChanged`. -/
theorem onActiveConnectionsChanged_registryInvariant (m : NetworkModel) (S : QJsonValue)
    (h : RegistryInvariant m.m_devices) :
    ∃ m1 effects, m.onActiveConnectionsChanged S = some (m1, effects) ∧
      RegistryInvariant m1.m_devices := by
  obtain ⟨hnn, hnd, hnp⟩ := h
  obtain ⟨st, h1, h2, h3, _⟩ := onActiveConnectionsChangedData_steps (QJsonDocument.object S)
    { devices := m.m_devices, activeConns := [], deviceActiveConnsMap := [] } hnn
  have h3' : (live st.devices).map NetworkDevice.kept =
      (live m.m_devices).map NetworkDevice.kept := h3
  have hid := ident_of_kept_eq _ _ h3'
  have e2 : (heldPaths st.devices).Nodup := by rw [heldPaths_of_ident_eq _ _ hid]; exact hnp
  have e3 : SameAddressSamePath st.devices :=
    sameAddressSamePath_of_ident_eq _ _ hid (sameAddressSamePath_of_nodup _ hnd)
  have hassign := onActiveConnectionsChangedAssign_eq st.deviceActiveConnsMap st.devices h2 e2 e3
  refine ⟨{ m with m_activeConns := st.activeConns
                   m_devices := st.devices.map (Option.map
                     (assignFromMap st.deviceActiveConnsMap)) },
    [Effect.emit (Signal.activeConnectionsChanged st.activeConns)], ?_, ?_⟩
  · unfold NetworkModel.onActiveConnectionsChanged
    simp only []
    rw [h1]
    simp only []
    rw [hassign]
  · apply registryInvariant_of_ident_eq _ m.m_devices (noNull_map_option _ _ h2) _
      ⟨hnn, hnd, hnp⟩
    show (live (st.devices.map _)).map _ = _
    rw [ident_map_option _ (assignFromMap_ident _), hid]

/-- The connectivity handlers leave the registry as it is. -/
theorem onConnectivityChanged_devices (m : NetworkModel) (conn : Connectivity) :
    (m.onConnectivityChanged conn).1.m_devices = m.m_devices ∧
    ∀ b, (m.onConnectivitySecondaryCheckFinished b).1.m_devices = m.m_devices := by
  constructor
  · unfold NetworkModel.onConnectivityChanged
    simp only []
    split_ifs <;> rfl
  · intro b; rfl

/-! ## Settings: statements -/

/-- C11: each of the ten setting handlers leaves the model as it was except for
its own field, which holds the argument afterwards; it emits its change signal
with the argument exactly once when the argument differs from the value held
before and has no effect otherwise; calling it a second time with the same
argument changes nothing and emits nothing. -/
theorem setting_handlers_update_and_notify :
    SettingHandler NetworkModel.onVPNEnabledChanged (fun m => m.m_vpnEnabled)
      (fun m v => { m with m_vpnEnabled := v }) Signal.vpnEnabledChanged ∧
    SettingHandler NetworkModel.onAutoProxyChanged (fun m => m.m_autoProxy)
      (fun m v => { m with m_autoProxy := v }) Signal.autoProxyChanged ∧
    SettingHandler NetworkModel.onProxyMethodChanged (fun m => m.m_proxyMethod)
      (fun m v => { m with m_proxyMethod := v }) Signal.proxyMethodChanged ∧
    SettingHandler NetworkModel.onProxyIgnoreHostsChanged (fun m => m.m_proxyIgnoreHosts)
      (fun m v => { m with m_proxyIgnoreHosts := v }) Signal.proxyIgnoreHostsChanged ∧
    SettingHandler NetworkModel.onChainsTypeChanged (fun m => m.m_chainsProxy.type)
      (fun m v => { m with m_chainsProxy := { m.m_chainsProxy with type := v } })
      Signal.chainsTypeChanged ∧
    SettingHandler NetworkModel.onChainsAddrChanged (fun m => m.m_chainsProxy.url)
      (fun m v => { m with m_chainsProxy := { m.m_chainsProxy with url := v } })
      Signal.chainsAddrChanged ∧
    SettingHandler NetworkModel.onChainsPortChanged (fun m => m.m_chainsProxy.port)
      (fun m v => { m with m_chainsProxy := { m.m_chainsProxy with port := v } })
      Signal.chainsPortChanged ∧
    SettingHandler NetworkModel.onChainsUserChanged (fun m => m.m_chainsProxy.username)
      (fun m v => { m with m_chainsProxy := { m.m_chainsProxy with username := v } })
      Signal.chainsUsernameChanged ∧
    SettingHandler NetworkModel.onChainsPasswdChanged (fun m => m.m_chainsProxy.password)
      (fun m v => { m with m_chainsProxy := { m.m_chainsProxy with password := v } })
      Signal.chainsPasswdChanged ∧
    SettingHandler NetworkModel.onAppProxyExistChanged (fun m => m.m_appProxyExist)
      (fun m v => { m with m_appProxyExist := v }) Signal.appProxyExistChanged := by
  refine ⟨?_, ?_, ?_, ?_, ?_, ?_, ?_, ?_, ?_, ?_⟩
  · intro m v
    by_cases h : m.m_vpnEnabled = v
    · subst h
      simp [NetworkModel.onVPNEnabledChanged]
    · simp [NetworkModel.onVPNEnabledChanged, h]
  · intro m v
    by_cases h : m.m_autoProxy = v
    · subst h
      simp [NetworkModel.onAutoProxyChanged]
    · simp [NetworkModel.onAutoProxyChanged, h]
  · intro m v
    by_cases h : m.m_proxyMethod = v
    · subst h
      simp [NetworkModel.onProxyMethodChanged]
    · simp [NetworkModel.onProxyMethodChanged, h]
  · intro m v
    by_cases h : m.m_proxyIgnoreHosts = v
    · subst h
      simp [NetworkModel.onProxyIgnoreHostsChanged]
    · simp [NetworkModel.onProxyIgnoreHostsChanged, h, Ne.symm h]
  · intro m v
    by_cases h : m.m_chainsProxy.type = v
    · subst h
      simp [NetworkModel.onChainsTypeChanged]
    · simp [NetworkModel.onChainsTypeChanged, h, Ne.symm h]
  · intro m v
    by_cases h : m.m_chainsProxy.url = v
    · subst h
      simp [NetworkModel.onChainsAddrChanged]
    · simp [NetworkModel.onChainsAddrChanged, h, Ne.symm h]
  · intro m v
    by_cases h : m.m_chainsProxy.port = v
    · subst h
      simp [NetworkModel.onChainsPortChanged]
    · simp [NetworkModel.onChainsPortChanged, h, Ne.symm h]
  · intro m v
    by_cases h : m.m_chainsProxy.username = v
    · subst h
      simp [NetworkModel.onChainsUserChanged]
    · simp [NetworkModel.onChainsUserChanged, h, Ne.symm h]
  · intro m v
    by_cases h : m.m_chainsProxy.password = v
    · subst h
      simp [NetworkModel.onChainsPasswdChanged]
    · simp [NetworkModel.onChainsPasswdChanged, h, Ne.symm h]
  · intro m v
    by_cases h : m.m_appProxyExist = v
    · subst h
      simp [NetworkModel.onAppProxyExistChanged]
    · simp [NetworkModel.onAppProxyExistChanged, h]

/-! ## Lookups in the connection catalog -/

theorem findConnection_eq_find (key v : String) (list : List QJsonObject) :
    findConnection key v list = list.find? (fun x => decide (profileKey key x = v)) := by
  induction list with
  | nil => rfl
  | cons cfg rest ih =>
      rw [findConnection, List.find?_cons]
      by_cases h : (cfg.value key).toString = v
      · simp [profileKey, h]
      · simp [profileKey, h, ih]

theorem findInCatalog_eq_find (key v : String) (catalog : QMap (List QJsonObject)) :
    findInCatalog key v catalog =
      ((catalogProfiles catalog).find? (fun x => decide (profileKey key x = v))).getD [] := by
  induction catalog with
  | nil => rfl
  | cons kv rest ih =>
      obtain ⟨t, list⟩ := kv
      have hc : catalogProfiles ((t, list) :: rest) = list ++ catalogProfiles rest := by
        simp [catalogProfiles]
      rw [findInCatalog, hc, List.find?_append, findConnection_eq_find]
      cases h : list.find? (fun x => decide (profileKey key x = v)) with
      | none => simpa using ih
      | some c => rfl

theorem firstInKeyOrder_of_sorted (p : String) (catalog : QMap (List QJsonObject))
    (hs : QMap.Sorted catalog)
    (hex : ∃ c ∈ catalogProfiles catalog, profileKey "Path" c = p) :
    FirstInKeyOrder catalog p (findInCatalog "Path" p catalog) := by
  induction catalog with
  | nil => obtain ⟨c, hc, _⟩ := hex; simp [catalogProfiles] at hc
  | cons kv rest ih =>
      obtain ⟨t, list⟩ := kv
      unfold QMap.Sorted at hs
      rw [List.map_cons, List.pairwise_cons] at hs
      rw [findInCatalog, findConnection_eq_find]
      cases h : list.find? (fun x => decide (profileKey "Path" x = p)) with
      | some c =>
          refine ⟨t, list, List.mem_cons_self _ _, h, ?_⟩
          intro t1 list1 hmem _
          rcases List.mem_cons.mp hmem with heq | hmem
          · left; exact (Prod.mk.inj heq).1
          · right
            exact hs.1 t1 (List.mem_map.mpr ⟨(t1, list1), hmem, rfl⟩)
      | none =>
          have hnone : ∀ x ∈ list, ¬ profileKey "Path" x = p := by
            intro x hx
            have := List.find?_eq_none.mp h x hx
            simpa using this
          have hex2 : ∃ c ∈ catalogProfiles rest, profileKey "Path" c = p := by
            obtain ⟨c, hc, hcp⟩ := hex
            have hc2 : c ∈ list ++ catalogProfiles rest := by
              simpa [catalogProfiles] using hc
            rcases List.mem_append.mp hc2 with h1 | h1
            · exact absurd hcp (hnone c h1)
            · exact ⟨c, h1, hcp⟩
          obtain ⟨t0, list0, h0, h1, h2⟩ := ih hs.2 hex2
          refine ⟨t0, list0, List.mem_cons_of_mem _ h0, h1, ?_⟩
          intro t1 list1 hmem hx
          rcases List.mem_cons.mp hmem with heq | hmem
          · obtain ⟨x, hx1, hx2⟩ := hx
            rw [(Prod.mk.inj heq).2] at hx1
            exact absurd hx2 (hnone x hx1)
          · exact h2 t1 list1 hmem hx

theorem sorted_connections_entry (connType : String) (st : ConnectionsScan)
    (c : QJsonValue) (h : QMap.Sorted st.connections) :
    QMap.Sorted (onConnectionListChangedEntry connType st c).connections :=
  QMap.sorted_insert _ _ _ h

theorem sorted_connections_list (connType : String) (ls : List QJsonValue) :
    ∀ st : ConnectionsScan, QMap.Sorted st.connections →
      QMap.Sorted (onConnectionListChangedList connType st ls).connections := by
  induction ls with
  | nil => intro st h; exact h
  | cons c rest ih =>
      intro st h
      rw [onConnectionListChangedList]
      exact ih _ (sorted_connections_entry connType st c h)

theorem sorted_connections_data (data : QJsonObject) :
    ∀ st : ConnectionsScan, QMap.Sorted st.connections →
      QMap.Sorted (onConnectionListChangedData st data).connections := by
  induction data with
  | nil => intro st h; exact h
  | cons kv rest ih =>
      intro st h
      obtain ⟨connType, value⟩ := kv
      rw [onConnectionListChangedData]
      split_ifs with hc
      · exact ih st h
      · apply ih
        apply sorted_connections_list
        exact QMap.sorted_insert _ _ _ h

/-- The catalog, empty at first, is changed by `onConnectionListChanged` only,
which keeps its items in the order of their keys. -/
theorem onConnectionListChanged_catalog_sorted (m : NetworkModel) (S : QJsonValue)
    (hnn : NoNull m.m_devices) (hs : QMap.Sorted m.m_connections) :
    ∃ m1 effects, m.onConnectionListChanged S = some (m1, effects) ∧
      QMap.Sorted m1.m_connections :=
  ⟨_, _, onConnectionListChanged_eq m S hnn, sorted_connections_data _ _ hs⟩

/-! ## Lookups in the connection catalog: statements -/

/-- C12: `connectionByPath(p)` is the first profile with `Path` equal to `p` in
the scan of the catalog, and the empty object when there is none; so it is a
profile of the catalog with path `p` whenever one exists.  When the items of
the catalog are in key order it comes from the connection type with the least
key that lists such a profile and is the first such profile of that type's
list.  `connectionUuidByPath(p)` and `connectionNameByPath(p)` are the `Uuid`
and `Id` fields of that result, the empty string when no profile has path `p`. -/
theorem connectionByPath_first_match (m : NetworkModel) (p : String) :
    m.connectionByPath p =
      ((catalogProfiles m.m_connections).find?
        (fun c => decide (profileKey "Path" c = p))).getD [] ∧
    ((∃ c ∈ catalogProfiles m.m_connections, profileKey "Path" c = p) →
      m.connectionByPath p ∈ catalogProfiles m.m_connections ∧
      profileKey "Path" (m.connectionByPath p) = p ∧
      (QMap.Sorted m.m_connections →
        FirstInKeyOrder m.m_connections p (m.connectionByPath p))) ∧
    ((∀ c ∈ catalogProfiles m.m_connections, profileKey "Path" c ≠ p) →
      m.connectionByPath p = [] ∧ m.connectionUuidByPath p = "" ∧
      m.connectionNameByPath p = "") ∧
    m.connectionUuidByPath p = ((m.connectionByPath p).value "Uuid").toString ∧
    m.connectionNameByPath p = ((m.connectionByPath p).value "Id").toString := by
  have heq := findInCatalog_eq_find "Path" p m.m_connections
  refine ⟨heq, ?_, ?_, rfl, rfl⟩
  · intro hex
    have hsome : ∃ c, (catalogProfiles m.m_connections).find?
        (fun c => decide (profileKey "Path" c = p)) = some c := by
      cases h : (catalogProfiles m.m_connections).find?
          (fun c => decide (profileKey "Path" c = p)) with
      | some c => exact ⟨c, rfl⟩
      | none =>
          obtain ⟨c, hc, hcp⟩ := hex
          have := List.find?_eq_none.mp h c hc
          simp [hcp] at this
    obtain ⟨c, hc⟩ := hsome
    have hres : m.connectionByPath p = c := by
      show findInCatalog "Path" p m.m_connections = c
      rw [heq, hc]; rfl
    refine ⟨?_, ?_, ?_⟩
    · rw [hres]; exact List.mem_of_find?_eq_some hc
    · rw [hres]; simpa using List.find?_some hc
    · intro hs
      exact firstInKeyOrder_of_sorted p m.m_connections hs hex
  · intro hnone
    have hn : (catalogProfiles m.m_connections).find?
        (fun c => decide (profileKey "Path" c = p)) = none := by
      rw [List.find?_eq_none]
      intro x hx
      simpa using hnone x hx
    have hres : m.connectionByPath p = [] := by
      show findInCatalog "Path" p m.m_connections = []
      rw [heq, hn]; rfl
    refine ⟨hres, ?_, ?_⟩
    · show ((m.connectionByPath p).value "Uuid").toString = ""
      rw [hres]; rfl
    · show ((m.connectionByPath p).value "Id").toString = ""
      rw [hres]; rfl

/-- C12, witness: in the catalog that lists a profile with the path
`/Settings/9` under `"vpn"` and under `"wired"`, the lookup returns the one
listed under `"vpn"`. -/
theorem connectionByPath_first_match_witness :
    QMap.Sorted sampleTwoTypeCatalogModel.m_connections ∧
    sampleTwoTypeCatalogModel.connectionByPath "/Settings/9" = sampleVpnProfile ∧
    FirstInKeyOrder sampleTwoTypeCatalogModel.m_connections "/Settings/9"
      (sampleTwoTypeCatalogModel.connectionByPath "/Settings/9") ∧
    sampleTwoTypeCatalogModel.connectionUuidByPath "/Settings/9" = "uuid-9" ∧
    sampleTwoTypeCatalogModel.connectionByPath "/Settings/0" = [] :=
  ⟨by decide, rfl,
    ((connectionByPath_first_match sampleTwoTypeCatalogModel "/Settings/9").2.1
      ⟨sampleVpnProfile, List.Mem.head _, rfl⟩).2.2 (by decide),
    rfl, rfl⟩

end dde.network
